import Mathlib

/-!
Verification of the maze-solver search engine of `src/main.ts`.

The embedding translates the grid model (`Maze`), the search-node chain
(`searched_cell`), and the three stepwise strategies (`BFS`, `GBFS`, `ASTAR`)
into executable Lean definitions.  JavaScript numbers that are always
nonnegative integers in the source are modelled as `Nat`; the JS test
`x - 1 >= 0` is translated as `1 ≤ x` (JS subtraction does not truncate at 0).
Out-of-range array reads (`maze[x][y]` with `y` beyond the column) yield
`undefined` in JS and are modelled as `none`.  Priorities are JS floats of the
exact form `a + sqrt b` with `a b : ℕ` (a path length plus a Euclidean
distance between grid points); they are modelled exactly by the pair `(a, b)`
with comparisons decided by integer arithmetic, which agrees with the real
order `a + Real.sqrt b`.  Rendering, audio and timer plumbing
(`canvas_refresh`, `playNote`, `clearInterval`, the `is_paused` /
`interval_code` early returns) have no effect on the grid, the frontier or
the run flags and are omitted; `step` models one algorithm step of a running,
unpaused strategy.
-/

inductive MazeCell where
  | FLOOR
  | WALL
  | ACTIVE
  | EXPLORED
deriving DecidableEq, Repr

structure Coordinate where
  x : Nat
  y : Nat
deriving DecidableEq, Repr

/-- Squared Euclidean distance between two coordinates (the radicand of
`euclidean_distance` in the source). -/
def sqDist (c1 c2 : Coordinate) : Nat :=
  (((c1.x : Int) - c2.x) ^ 2 + ((c1.y : Int) - c2.y) ^ 2).toNat

/-- Exact representation of the JS float `a + Math.sqrt b` used as a frontier
priority: `a` is an integer path-length term, `b` the squared Euclidean
distance. -/
structure Pri where
  a : Nat
  b : Nat
deriving DecidableEq, Repr

/-- The real value represented by a priority. -/
noncomputable def Pri.toReal (p : Pri) : ℝ :=
  (p.a : ℝ) + Real.sqrt (p.b : ℝ)

/-- Decides `p.toReal ≤ q.toReal` by integer arithmetic. -/
def Pri.ble (p q : Pri) : Bool :=
  if p.a ≤ q.a then
    let e : Int := (q.a : Int) - (p.a : Int)
    let m : Int := (p.b : Int) - (e ^ 2 + (q.b : Int))
    if m ≤ 0 then true else decide (m ^ 2 ≤ 4 * e ^ 2 * (q.b : Int))
  else
    let e : Int := (p.a : Int) - (q.a : Int)
    let m : Int := (q.b : Int) - (e ^ 2 + (p.b : Int))
    if m < 0 then false else decide (4 * e ^ 2 * (p.b : Int) ≤ m ^ 2)

/-- The source compares priorities with `>` on floats; `p` is greater than `q`
iff `p ≤ q` fails. -/
def Pri.bgt (p q : Pri) : Bool := !(Pri.ble p q)

/-- Backward-linked search node (`searched_cell` in the source):
`base c` is `{coord: c, prev_cell: undefined}`, `link c p` is
`{coord: c, prev_cell: p}`. -/
inductive searched_cell where
  | base : Coordinate → searched_cell
  | link : Coordinate → searched_cell → searched_cell
deriving DecidableEq, Repr

def searched_cell.coord : searched_cell → Coordinate
  | .base c => c
  | .link c _ => c

def searched_cell.prev_cell : searched_cell → Option searched_cell
  | .base _ => none
  | .link _ p => some p

/-- Path reconstruction: walking `prev_cell` links from a terminal node yields
the coordinates in start-to-end order. -/
def searched_cell.path : searched_cell → List Coordinate
  | .base c => [c]
  | .link c p => p.path ++ [c]

structure Maze where
  width : Nat
  height : Nat
  cells : List (List MazeCell)
  start : Coordinate
  end_ : Coordinate
deriving DecidableEq, Repr

/-- `maze[x][y]`; `none` models the JS `undefined` of an out-of-range read. -/
def get_cell_type (m : Maze) (c : Coordinate) : Option MazeCell :=
  match m.cells[c.x]? with
  | none => none
  | some col => col[c.y]?

/-- `maze[x][y] = t`.  All writes performed by the algorithms hit indices that
exist (they follow a successful read), so `List.set`'s out-of-range no-op is
never exercised on those paths. -/
def set_cell_type (m : Maze) (c : Coordinate) (t : MazeCell) : Maze :=
  match m.cells[c.x]? with
  | none => m
  | some col => { m with cells := m.cells.set c.x (col.set c.y t) }

/-- `Maze.get_neighboring_coordinates`, translated literally: note that the
`+y` test compares against `width - 1` (line 57 of the source), not
`height - 1`.  The JS tests `x + 1 <= w - 1` and `x - 1 >= 0` become
`c.x + 1 ≤ m.width - 1` and `1 ≤ c.x` on naturals. -/
def get_neighboring_coordinates (m : Maze) (c : Coordinate) : List Coordinate :=
  (if c.x + 1 ≤ m.width - 1 then [⟨c.x + 1, c.y⟩] else []) ++
  (if c.y + 1 ≤ m.width - 1 then [⟨c.x, c.y + 1⟩] else []) ++
  (if 1 ≤ c.x then [⟨c.x - 1, c.y⟩] else []) ++
  (if 1 ≤ c.y then [⟨c.x, c.y - 1⟩] else [])

/-- The spec's `neighbors_of` (§4.1): in-bounds 4-directional neighbors in the
order {+x, +y, −x, −y}, with the `+y` bound taken against the grid height.
This follows the spec's words and is kept for comparison with the source's
`get_neighboring_coordinates`. -/
def neighbors_of_spec (m : Maze) (c : Coordinate) : List Coordinate :=
  (if c.x + 1 < m.width then [⟨c.x + 1, c.y⟩] else []) ++
  (if c.y + 1 < m.height then [⟨c.x, c.y + 1⟩] else []) ++
  (if 1 ≤ c.x then [⟨c.x - 1, c.y⟩] else []) ++
  (if 1 ≤ c.y then [⟨c.x, c.y - 1⟩] else [])

def inBounds (m : Maze) (c : Coordinate) : Prop :=
  c.x < m.width ∧ c.y < m.height

instance instDecInBounds (m : Maze) (c : Coordinate) : Decidable (inBounds m c) :=
  inferInstanceAs (Decidable (c.x < m.width ∧ c.y < m.height))

/-- The random Floor/Wall matrix built by `Maze.regenerate`, column-major,
with the random draws supplied as a boolean function (`draw i j = true` models
`Math.random() < floor_likelihood` for cell `(i, j)`). -/
def generate_cells (w h : Nat) (draw : Nat → Nat → Bool) : List (List MazeCell) :=
  (List.range w).map fun i => (List.range h).map fun j =>
    if draw i j then MazeCell.FLOOR else MazeCell.WALL

/-- `Maze.regenerate` with its random draws made explicit: random start and
end, a fresh random Floor/Wall matrix, then `start ↦ EXPLORED` followed by
`end ↦ FLOOR`, in that order. -/
def Maze.regenerate (w h : Nat) (s e : Coordinate) (draw : Nat → Nat → Bool) : Maze :=
  set_cell_type (set_cell_type ⟨w, h, generate_cells w h draw, s, e⟩ s .EXPLORED) e .FLOOR

/-- A well-formed `width × height` grid: the cell matrix really has `width`
columns of `height` cells (true of every grid the page constructs). -/
def Maze.WF (m : Maze) : Prop :=
  m.cells.length = m.width ∧ ∀ col ∈ m.cells, col.length = m.height

/-- One observable change of a cell that follows the documented
`Floor → Active → Explored` progression (equal states mean no change). -/
def forwardStep (a b : Option MazeCell) : Prop :=
  a = b ∨ (a = some .FLOOR ∧ b = some .ACTIVE) ∨
  (a = some .FLOOR ∧ b = some .EXPLORED) ∨ (a = some .ACTIVE ∧ b = some .EXPLORED)

instance instDecForwardStep (a b : Option MazeCell) : Decidable (forwardStep a b) :=
  inferInstanceAs (Decidable (a = b ∨ (a = some .FLOOR ∧ b = some .ACTIVE) ∨
    (a = some .FLOOR ∧ b = some .EXPLORED) ∨
    (a = some .ACTIVE ∧ b = some .EXPLORED)))

/-- Mathematical 4-adjacency of grid coordinates (edge of the intended grid
graph). -/
def adjacent (c d : Coordinate) : Prop :=
  (c.x = d.x ∧ (c.y + 1 = d.y ∨ d.y + 1 = c.y)) ∨
  (c.y = d.y ∧ (c.x + 1 = d.x ∨ d.x + 1 = c.x))

instance instDecAdjacent (c d : Coordinate) : Decidable (adjacent c d) :=
  inferInstanceAs (Decidable (_ ∨ _))

/-- Consecutive elements of the list are 4-adjacent. -/
def chain_adjacent : List Coordinate → Prop
  | [] => True
  | [_] => True
  | c :: d :: rest => adjacent c d ∧ chain_adjacent (d :: rest)

instance instDecChainAdjacent : (l : List Coordinate) → Decidable (chain_adjacent l)
  | [] => isTrue trivial
  | [_] => isTrue trivial
  | c :: d :: rest =>
      have : Decidable (chain_adjacent (d :: rest)) := instDecChainAdjacent (d :: rest)
      inferInstanceAs (Decidable (_ ∧ _))

/-- A path of Floor cells from `start` to `end` through in-bounds,
4-adjacent cells. -/
def is_floor_path (m : Maze) (l : List Coordinate) : Prop :=
  l.head? = some m.start ∧ l.getLast? = some m.end_ ∧
  (∀ c ∈ l, inBounds m c ∧ get_cell_type m c = some .FLOOR) ∧
  chain_adjacent l

instance instDecIsFloorPath (m : Maze) (l : List Coordinate) :
    Decidable (is_floor_path m l) :=
  inferInstanceAs (Decidable (_ ∧ _ ∧ _ ∧ _))

/-- Reverts `ACTIVE` cells among the given coordinates to `FLOOR`: the cleanup
loop run by every strategy once `final_searched_cell` is set. -/
def revert_active (m : Maze) : List Coordinate → Maze
  | [] => m
  | c :: rest =>
      revert_active
        (if get_cell_type m c = some .ACTIVE then set_cell_type m c .FLOOR else m) rest

namespace GBFS

/-- `priority_queue_element` of the source. -/
structure priority_queue_element where
  priority : Pri
  cell : searched_cell
deriving DecidableEq, Repr

/-- Sorted insertion as in `GBFS.step`: scan for the first element whose
priority is strictly greater than the new one, splice the new element there
(ties go after existing equal-priority entries). -/
def insert_frontier : List priority_queue_element → priority_queue_element →
    List priority_queue_element
  | [], x => [x]
  | e :: rest, x =>
      if Pri.bgt e.priority x.priority then x :: e :: rest
      else e :: insert_frontier rest x

/-- The `for (const adjacent_position of ...)` loop body of `GBFS.step`:
goal match records the found node and breaks; a Floor neighbor is marked
Active and inserted with priority `euclidean_distance(adjacent, end)`. -/
def expand_loop (endC : Coordinate) (position : searched_cell) :
    Maze → List priority_queue_element → Option searched_cell → List Coordinate →
    Maze × List priority_queue_element × Option searched_cell
  | m, fr, fin, [] => (m, fr, fin)
  | m, fr, fin, adj :: rest =>
      if adj = endC then (m, fr, some (.link adj position))
      else if get_cell_type m adj = some .FLOOR then
        expand_loop endC position (set_cell_type m adj .ACTIVE)
          (insert_frontier fr ⟨⟨0, sqDist adj endC⟩, .link adj position⟩) fin rest
      else expand_loop endC position m fr fin rest

structure State where
  maze : Maze
  search_frontier : List priority_queue_element
  search_ended : Bool
  final_searched_cell : Option searched_cell
deriving DecidableEq, Repr

/-- The `GBFS` constructor: one frontier element for `start` with priority
`euclidean_distance(start, end)`. -/
def init (m : Maze) : State :=
  ⟨m, [⟨⟨0, sqDist m.start m.end_⟩, .base m.start⟩], false, none⟩

/-- `GBFS.step`: pop the frontier head, mark it Explored, expand its
neighbors, then run the Active→Floor cleanup and the two `search_ended`
updates. -/
def step (s : State) : State :=
  match s.search_frontier with
  | [] => s
  | frontier_element :: rest =>
      let position := frontier_element.cell
      let m1 := set_cell_type s.maze position.coord .EXPLORED
      let nbrs := get_neighboring_coordinates m1 position.coord
      let r := expand_loop m1.end_ position m1 rest s.final_searched_cell nbrs
      let m3 := if r.2.2.isSome then revert_active r.1 nbrs else r.1
      { maze := m3
        search_frontier := r.2.1
        search_ended := s.search_ended || r.2.2.isSome || decide (r.2.1.length = 0)
        final_searched_cell := r.2.2 }

def runSteps : Nat → State → State
  | 0, s => s
  | n + 1, s => runSteps n (step s)

/-- The coordinate the next `step` will expand (pop), if any. -/
def expandedCoord (s : State) : Option Coordinate :=
  s.search_frontier.head?.map fun e => e.cell.coord

/-- Coordinates expanded during the run, over the first `n` steps from
construction; steps taken from an ended state are not part of the run. -/
def expandedList (m : Maze) (n : Nat) : List Coordinate :=
  (List.range n).filterMap fun k =>
    let s := runSteps k (init m)
    if s.search_ended then none else expandedCoord s

end GBFS

namespace ASTAR

/-- `priority_queue_length_element` of the source. -/
structure priority_queue_length_element where
  priority : Pri
  cell : searched_cell
  length : Nat
deriving DecidableEq, Repr

/-- `ASTAR.astar_dist`: `current_cell.length + euclidean_distance(end, next)`;
in the exact representation this is the pair `(length, sqDist end next)`. -/
def astar_dist (current_cell : priority_queue_length_element)
    (endC next_coord : Coordinate) : Pri :=
  ⟨current_cell.length, sqDist endC next_coord⟩

def insert_frontier : List priority_queue_length_element →
    priority_queue_length_element → List priority_queue_length_element
  | [], x => [x]
  | e :: rest, x =>
      if Pri.bgt e.priority x.priority then x :: e :: rest
      else e :: insert_frontier rest x

/-- The neighbor loop of `ASTAR.step`; an inserted child carries priority
`astar_dist(frontier_element, adjacent)` and length
`frontier_element.length + 1`. -/
def expand_loop (endC : Coordinate) (fe : priority_queue_length_element) :
    Maze → List priority_queue_length_element → Option searched_cell →
    List Coordinate →
    Maze × List priority_queue_length_element × Option searched_cell
  | m, fr, fin, [] => (m, fr, fin)
  | m, fr, fin, adj :: rest =>
      if adj = endC then (m, fr, some (.link adj fe.cell))
      else if get_cell_type m adj = some .FLOOR then
        expand_loop endC fe (set_cell_type m adj .ACTIVE)
          (insert_frontier fr
            ⟨astar_dist fe endC adj, .link adj fe.cell, fe.length + 1⟩) fin rest
      else expand_loop endC fe m fr fin rest

structure State where
  maze : Maze
  search_frontier : List priority_queue_length_element
  search_ended : Bool
  final_searched_cell : Option searched_cell
deriving DecidableEq, Repr

/-- The `ASTAR` constructor: one element for `start` with priority
`euclidean_distance(start, end)` and length 0. -/
def init (m : Maze) : State :=
  ⟨m, [⟨⟨0, sqDist m.start m.end_⟩, .base m.start, 0⟩], false, none⟩

def step (s : State) : State :=
  match s.search_frontier with
  | [] => s
  | frontier_element :: rest =>
      let position := frontier_element.cell
      let m1 := set_cell_type s.maze position.coord .EXPLORED
      let nbrs := get_neighboring_coordinates m1 position.coord
      let r := expand_loop m1.end_ frontier_element m1 rest s.final_searched_cell nbrs
      let m3 := if r.2.2.isSome then revert_active r.1 nbrs else r.1
      { maze := m3
        search_frontier := r.2.1
        search_ended := s.search_ended || r.2.2.isSome || decide (r.2.1.length = 0)
        final_searched_cell := r.2.2 }

def runSteps : Nat → State → State
  | 0, s => s
  | n + 1, s => runSteps n (step s)

/-- The coordinate the next `step` will expand (pop), if any. -/
def expandedCoord (s : State) : Option Coordinate :=
  s.search_frontier.head?.map fun e => e.cell.coord

/-- Coordinates expanded during the run, over the first `n` steps from
construction; steps taken from an ended state are not part of the run. -/
def expandedList (m : Maze) (n : Nat) : List Coordinate :=
  (List.range n).filterMap fun k =>
    let s := runSteps k (init m)
    if s.search_ended then none else expandedCoord s

end ASTAR

namespace BFS

/-- `BFS` state.  `cur` is the array the live iterator ranges over and
`cursor` the iterator's position.  At construction the iterator is created on
the initial empty `next_search_frontier` array *before* the constructor
replaces that field with `[start node]`, so `cur = []` while
`next_search_frontier = [start node]`. -/
structure State where
  maze : Maze
  cur : List searched_cell
  cursor : Nat
  next_search_frontier : List searched_cell
  search_ended : Bool
  final_searched_cell : Option searched_cell
deriving DecidableEq, Repr

def init (m : Maze) : State :=
  ⟨m, [], 0, [.base m.start], false, none⟩

/-- The neighbor loop of `BFS.step`: goal match records the found node and
breaks; a Floor neighbor is marked Active and pushed onto
`next_search_frontier`. -/
def expand_loop (endC : Coordinate) (position : searched_cell) :
    Maze → List searched_cell → Option searched_cell → List Coordinate →
    Maze × List searched_cell × Option searched_cell
  | m, nx, fin, [] => (m, nx, fin)
  | m, nx, fin, adj :: rest =>
      if adj = endC then (m, nx, some (.link adj position))
      else if get_cell_type m adj = some .FLOOR then
        expand_loop endC position (set_cell_type m adj .ACTIVE)
          (nx ++ [.link adj position]) fin rest
      else expand_loop endC position m nx fin rest

/-- The `if (!this.search_ended)` expansion block of `BFS.step`. -/
def expand (s : State) (position : searched_cell) : State :=
  let m1 := set_cell_type s.maze position.coord .EXPLORED
  let nbrs := get_neighboring_coordinates m1 position.coord
  let r := expand_loop m1.end_ position m1 s.next_search_frontier
    s.final_searched_cell nbrs
  let m3 := if r.2.2.isSome then revert_active r.1 nbrs else r.1
  { s with
      maze := m3
      next_search_frontier := r.2.1
      search_ended := s.search_ended || r.2.2.isSome
      final_searched_cell := r.2.2 }

/-- `BFS.step`: advance the iterator; on exhaustion, mark ended if the next
frontier is empty, otherwise swap it in and consume its first element; then
expand the obtained node unless the search has ended. -/
def step (s : State) : State :=
  if h : s.cursor < s.cur.length then
    let position := s.cur.get ⟨s.cursor, h⟩
    let s1 := { s with cursor := s.cursor + 1 }
    if s1.search_ended then s1 else expand s1 position
  else
    let ended1 := s.search_ended || decide (s.next_search_frontier.length = 0)
    match s.next_search_frontier with
    | [] =>
        { s with search_ended := ended1, cur := ([] : List searched_cell),
                 cursor := 0, next_search_frontier := [] }
    | p0 :: _ =>
        let s1 : State :=
          { s with search_ended := ended1, cur := s.next_search_frontier,
                   cursor := 1, next_search_frontier := [] }
        if ended1 then s1 else expand s1 p0

def runSteps : Nat → State → State
  | 0, s => s
  | n + 1, s => runSteps n (step s)

/-- The coordinate the next `step` will expand, if any: the iterator's current
element, or on exhaustion the head of the next frontier (consumed by the
swap). -/
def expandedCoord (s : State) : Option Coordinate :=
  if h : s.cursor < s.cur.length then some (s.cur.get ⟨s.cursor, h⟩).coord
  else s.next_search_frontier.head?.map searched_cell.coord

/-- Coordinates expanded during the run, over the first `n` steps from
construction; steps taken from an ended state are not part of the run. -/
def expandedList (m : Maze) (n : Nat) : List Coordinate :=
  (List.range n).filterMap fun k =>
    let s := runSteps k (init m)
    if s.search_ended then none else expandedCoord s

end BFS

/-! Concrete grids used as test inputs. -/

/-- A 1 × 3 (tall) grid, all Floor, start `(0,0)`, end `(0,2)`. -/
def m13 : Maze := ⟨1, 3, [[.FLOOR, .FLOOR, .FLOOR]], ⟨0, 0⟩, ⟨0, 2⟩⟩

/-- A 3 × 1 (wide) grid, all Floor, start `(0,0)`, end `(2,0)`. -/
def m31 : Maze := ⟨3, 1, [[.FLOOR], [.FLOOR], [.FLOOR]], ⟨0, 0⟩, ⟨2, 0⟩⟩

/-- A single-cell grid with `start = end = (0,0)` and the cell passable. -/
def m11 : Maze := ⟨1, 1, [[.FLOOR]], ⟨0, 0⟩, ⟨0, 0⟩⟩

/-- A 2 × 2 grid, all Floor, start `(0,0)`, end `(1,1)`. -/
def m22 : Maze :=
  ⟨2, 2, [[.FLOOR, .FLOOR], [.FLOOR, .FLOOR]], ⟨0, 0⟩, ⟨1, 1⟩⟩

/-- A 2 × 1 grid whose start cell `(0,0)` is a Wall (a grid the page itself
never constructs, since `regenerate` overwrites the start cell). -/
def mWallStart : Maze :=
  ⟨2, 1, [[.WALL], [.FLOOR]], ⟨0, 0⟩, ⟨1, 0⟩⟩

/-! ## Basic lemmas about the grid accessors -/

theorem set_cell_type_width (m : Maze) (c : Coordinate) (t : MazeCell) :
    (set_cell_type m c t).width = m.width := by
  unfold set_cell_type; cases m.cells[c.x]? <;> rfl

theorem set_cell_type_height (m : Maze) (c : Coordinate) (t : MazeCell) :
    (set_cell_type m c t).height = m.height := by
  unfold set_cell_type; cases m.cells[c.x]? <;> rfl

theorem set_cell_type_start (m : Maze) (c : Coordinate) (t : MazeCell) :
    (set_cell_type m c t).start = m.start := by
  unfold set_cell_type; cases m.cells[c.x]? <;> rfl

theorem set_cell_type_end (m : Maze) (c : Coordinate) (t : MazeCell) :
    (set_cell_type m c t).end_ = m.end_ := by
  unfold set_cell_type; cases m.cells[c.x]? <;> rfl

/-- Reading back after a write: the written value at the written coordinate
when it denotes an existing cell, the old value everywhere else. -/
theorem get_set_cell_type (m : Maze) (c c' : Coordinate) (t : MazeCell) :
    get_cell_type (set_cell_type m c t) c' =
      if c'.x = c.x ∧ c'.y = c.y ∧ get_cell_type m c ≠ none then some t
      else get_cell_type m c' := by
  obtain ⟨cx, cy⟩ := c
  obtain ⟨dx, dy⟩ := c'
  unfold get_cell_type set_cell_type
  rcases hx : m.cells[cx]? with _ | col
  · simp [hx]
  · have hxlt : cx < m.cells.length := by
      by_contra hc
      push_neg at hc
      rw [List.getElem?_eq_none hc] at hx
      exact Option.noConfusion hx
    by_cases hxx : dx = cx
    · subst hxx
      by_cases hyy : dy = cy
      · subst hyy
        rcases hy : col[dy]? with _ | v
        · have hge : col.length ≤ dy := List.getElem?_eq_none_iff.mp hy
          simp [hx, hy, List.getElem?_set_eq hxlt, List.set_eq_of_length_le hge]
        · have hylt : dy < col.length := by
            by_contra hc
            push_neg at hc
            rw [List.getElem?_eq_none hc] at hy
            exact Option.noConfusion hy
          simp [hx, hy, List.getElem?_set_eq hxlt, List.getElem?_set_eq hylt]
      · simp [hx, List.getElem?_set_eq hxlt,
          List.getElem?_set_ne (fun h => hyy h.symm), hyy]
    · simp [hx, List.getElem?_set_ne (fun h => hxx h.symm), hxx]

/-! ## Priority order -/

theorem Pri.ble_iff (p q : Pri) : p.ble q = true ↔ p.toReal ≤ q.toReal := by
  obtain ⟨a, b⟩ := p
  obtain ⟨c, d⟩ := q
  unfold Pri.ble Pri.toReal
  simp only
  have hb : (0:ℝ) ≤ (b:ℝ) := Nat.cast_nonneg b
  have hd : (0:ℝ) ≤ (d:ℝ) := Nat.cast_nonneg d
  have hsb := Real.sqrt_nonneg (b:ℝ)
  have hsd := Real.sqrt_nonneg (d:ℝ)
  have hsb2 : Real.sqrt (b:ℝ) ^ 2 = (b:ℝ) := Real.sq_sqrt hb
  have hsd2 : Real.sqrt (d:ℝ) ^ 2 = (d:ℝ) := Real.sq_sqrt hd
  by_cases hac : a ≤ c
  · have hee : (0:ℝ) ≤ (c:ℝ) - (a:ℝ) := by
      have : (a:ℝ) ≤ (c:ℝ) := by exact_mod_cast hac
      linarith
    have hr : (0:ℝ) ≤ ((c:ℝ) - (a:ℝ)) + Real.sqrt d := by positivity
    have key : ((a:ℝ) + Real.sqrt b ≤ (c:ℝ) + Real.sqrt d) ↔
        ((b:ℝ) - (((c:ℝ) - a) ^ 2 + d) ≤ 2 * ((c:ℝ) - a) * Real.sqrt d) := by
      constructor
      · intro h
        have h1 : Real.sqrt b ≤ ((c:ℝ) - a) + Real.sqrt d := by linarith
        have h2 : (b:ℝ) ≤ (((c:ℝ) - a) + Real.sqrt d) ^ 2 := by
          calc (b:ℝ) = Real.sqrt b ^ 2 := hsb2.symm
          _ ≤ (((c:ℝ) - a) + Real.sqrt d) ^ 2 := pow_le_pow_left₀ hsb h1 2
        nlinarith [hsd2]
      · intro h
        have h2 : (b:ℝ) ≤ (((c:ℝ) - a) + Real.sqrt d) ^ 2 := by nlinarith [hsd2]
        have h1 : Real.sqrt b ≤ ((c:ℝ) - a) + Real.sqrt d := by
          calc Real.sqrt b ≤ Real.sqrt ((((c:ℝ) - a) + Real.sqrt d) ^ 2) :=
                Real.sqrt_le_sqrt h2
          _ = ((c:ℝ) - a) + Real.sqrt d := Real.sqrt_sq hr
        linarith
    simp only [hac, if_true]
    by_cases hm : (b:Int) - (((c:Int) - (a:Int)) ^ 2 + (d:Int)) ≤ 0
    · have hmR : (b:ℝ) - (((c:ℝ) - a) ^ 2 + d) ≤ 0 := by
        have h0 : (((b:Int) - (((c:Int) - (a:Int)) ^ 2 + (d:Int)) : Int) : ℝ) ≤ 0 := by
          exact_mod_cast hm
        push_cast at h0
        linarith
      have hrhs : (0:ℝ) ≤ 2 * ((c:ℝ) - a) * Real.sqrt d :=
        mul_nonneg (mul_nonneg (by norm_num) hee) hsd
      simp only [hm, if_true, true_iff]
      exact key.mpr (le_trans hmR hrhs)
    · push_neg at hm
      have hmRpos : (0:ℝ) < (b:ℝ) - (((c:ℝ) - a) ^ 2 + d) := by
        have h0 : (0:ℝ) < (((b:Int) - (((c:Int) - (a:Int)) ^ 2 + (d:Int)) : Int) : ℝ) := by
          exact_mod_cast hm
        push_cast at h0
        linarith
      have hsq : (2 * ((c:ℝ) - a) * Real.sqrt d) ^ 2 = 4 * ((c:ℝ) - a) ^ 2 * d := by
        linear_combination (4 * ((c:ℝ) - a) ^ 2) * hsd2
      have hrhs : (0:ℝ) ≤ 2 * ((c:ℝ) - a) * Real.sqrt d :=
        mul_nonneg (mul_nonneg (by norm_num) hee) hsd
      rw [if_neg (not_le.mpr hm)]
      simp only [decide_eq_true_eq]
      constructor
      · intro h
        have hR : ((b:ℝ) - (((c:ℝ) - a) ^ 2 + d)) ^ 2 ≤ 4 * ((c:ℝ) - a) ^ 2 * d := by
          have h0 : ((((b:Int) - (((c:Int) - (a:Int)) ^ 2 + (d:Int))) ^ 2 : Int) : ℝ) ≤
              ((4 * ((c:Int) - (a:Int)) ^ 2 * (d:Int) : Int) : ℝ) := by exact_mod_cast h
          push_cast at h0
          linarith [h0]
        apply key.mpr
        have h2 : ((b:ℝ) - (((c:ℝ) - a) ^ 2 + d)) ^ 2 ≤
            (2 * ((c:ℝ) - a) * Real.sqrt d) ^ 2 := by rw [hsq]; exact hR
        exact le_of_pow_le_pow_left₀ two_ne_zero hrhs h2
      · intro h
        have hmle := key.mp h
        have h2 : ((b:ℝ) - (((c:ℝ) - a) ^ 2 + d)) ^ 2 ≤
            (2 * ((c:ℝ) - a) * Real.sqrt d) ^ 2 :=
          pow_le_pow_left₀ (le_of_lt hmRpos) hmle 2
        rw [hsq] at h2
        have : (((b:Int) - (((c:Int) - (a:Int)) ^ 2 + (d:Int))) ^ 2 : Int) ≤
            (4 * ((c:Int) - (a:Int)) ^ 2 * (d:Int) : Int) := by
          have := h2
          push_cast at this ⊢
          exact_mod_cast (by push_cast; nlinarith [h2] : (((((b:Int) - (((c:Int) - (a:Int)) ^ 2 + (d:Int))) ^ 2 : Int)) : ℝ) ≤ ((4 * ((c:Int) - (a:Int)) ^ 2 * (d:Int) : Int) : ℝ))
        exact this
  · push_neg at hac
    have hE : (0:ℝ) < (a:ℝ) - c := by
      have : (c:ℝ) < (a:ℝ) := by exact_mod_cast hac
      linarith
    have hrpos : (0:ℝ) ≤ ((a:ℝ) - c) + Real.sqrt b := by positivity
    have key : ((a:ℝ) + Real.sqrt b ≤ (c:ℝ) + Real.sqrt d) ↔
        (2 * ((a:ℝ) - c) * Real.sqrt b ≤ (d:ℝ) - (((a:ℝ) - c) ^ 2 + b)) := by
      have hexp : (((a:ℝ) - c) + Real.sqrt b) ^ 2 =
          ((a:ℝ) - c) ^ 2 + 2 * ((a:ℝ) - c) * Real.sqrt b + Real.sqrt (b:ℝ) ^ 2 := by
        ring
      rw [hsb2] at hexp
      constructor
      · intro h
        have h1 : ((a:ℝ) - c) + Real.sqrt b ≤ Real.sqrt d := by linarith
        have h2 : (((a:ℝ) - c) + Real.sqrt b) ^ 2 ≤ (d:ℝ) := by
          calc (((a:ℝ) - c) + Real.sqrt b) ^ 2 ≤ Real.sqrt (d:ℝ) ^ 2 :=
                pow_le_pow_left₀ hrpos h1 2
          _ = (d:ℝ) := hsd2
        rw [hexp] at h2
        linarith
      · intro h
        have h2 : (((a:ℝ) - c) + Real.sqrt b) ^ 2 ≤ (d:ℝ) := by
          rw [hexp]
          linarith
        have h1 : ((a:ℝ) - c) + Real.sqrt b ≤ Real.sqrt d := by
          calc ((a:ℝ) - c) + Real.sqrt b
              = Real.sqrt ((((a:ℝ) - c) + Real.sqrt b) ^ 2) :=
                (Real.sqrt_sq hrpos).symm
          _ ≤ Real.sqrt d := Real.sqrt_le_sqrt h2
        linarith
    rw [if_neg (not_le.mpr hac)]
    have hlhs : (0:ℝ) ≤ 2 * ((a:ℝ) - c) * Real.sqrt b :=
      mul_nonneg (mul_nonneg (by norm_num) (le_of_lt hE)) hsb
    by_cases hm : (d:Int) - (((a:Int) - (c:Int)) ^ 2 + (b:Int)) < 0
    · have hmR : (d:ℝ) - (((a:ℝ) - c) ^ 2 + b) < 0 := by
        have h0 : (((d:Int) - (((a:Int) - (c:Int)) ^ 2 + (b:Int)) : Int) : ℝ) < 0 := by
          exact_mod_cast hm
        push_cast at h0
        linarith
      rw [if_pos hm]
      simp only [Bool.false_eq_true, false_iff]
      intro h
      exact absurd (key.mp h) (by linarith)
    · push_neg at hm
      have hmR : (0:ℝ) ≤ (d:ℝ) - (((a:ℝ) - c) ^ 2 + b) := by
        have h0 : (0:ℝ) ≤ (((d:Int) - (((a:Int) - (c:Int)) ^ 2 + (b:Int)) : Int) : ℝ) := by
          exact_mod_cast hm
        push_cast at h0
        linarith
      have hsq : (2 * ((a:ℝ) - c) * Real.sqrt b) ^ 2 = 4 * ((a:ℝ) - c) ^ 2 * b := by
        linear_combination (4 * ((a:ℝ) - c) ^ 2) * hsb2
      rw [if_neg (not_lt.mpr hm)]
      simp only [decide_eq_true_eq]
      constructor
      · intro h
        have hR : 4 * ((a:ℝ) - c) ^ 2 * b ≤ ((d:ℝ) - (((a:ℝ) - c) ^ 2 + b)) ^ 2 := by
          have h0 : ((4 * ((a:Int) - (c:Int)) ^ 2 * (b:Int) : Int) : ℝ) ≤
              ((((d:Int) - (((a:Int) - (c:Int)) ^ 2 + (b:Int))) ^ 2 : Int) : ℝ) := by
            exact_mod_cast h
          push_cast at h0
          linarith [h0]
        apply key.mpr
        have h2 : (2 * ((a:ℝ) - c) * Real.sqrt b) ^ 2 ≤
            ((d:ℝ) - (((a:ℝ) - c) ^ 2 + b)) ^ 2 := by rw [hsq]; exact hR
        exact le_of_pow_le_pow_left₀ two_ne_zero hmR h2
      · intro h
        have hmle := key.mp h
        have h2 : (2 * ((a:ℝ) - c) * Real.sqrt b) ^ 2 ≤
            ((d:ℝ) - (((a:ℝ) - c) ^ 2 + b)) ^ 2 :=
          pow_le_pow_left₀ hlhs hmle 2
        rw [hsq] at h2
        have hfin : ((4 * ((a:Int) - (c:Int)) ^ 2 * (b:Int) : Int) : ℝ) ≤
            ((((d:Int) - (((a:Int) - (c:Int)) ^ 2 + (b:Int))) ^ 2 : Int) : ℝ) := by
          push_cast
          nlinarith [h2]
        exact_mod_cast hfin

/-- `Pri.bgt` decides the strict order of the represented reals. -/
theorem Pri.bgt_iff (p q : Pri) : p.bgt q = true ↔ q.toReal < p.toReal := by
  unfold Pri.bgt
  rw [Bool.not_eq_true']
  constructor
  · intro h
    by_contra hc
    push_neg at hc
    exact absurd ((Pri.ble_iff p q).mpr hc) (by simp [h])
  · intro h
    by_cases hb : p.ble q = true
    · exact absurd ((Pri.ble_iff p q).mp hb) (not_le.mpr h)
    · simpa using hb

theorem Pri.bgt_eq_false_iff (p q : Pri) : p.bgt q = false ↔ p.toReal ≤ q.toReal := by
  rw [← Bool.not_eq_true, Pri.bgt_iff, not_lt]

/-! ## Generated-grid lemmas -/

/-- Reading a freshly generated matrix. -/
theorem get_cell_type_generate (w h : Nat) (draw : Nat → Nat → Bool)
    (s e : Coordinate) (c : Coordinate) :
    get_cell_type ⟨w, h, generate_cells w h draw, s, e⟩ c =
      if c.x < w ∧ c.y < h then
        some (if draw c.x c.y then .FLOOR else .WALL)
      else none := by
  obtain ⟨cx, cy⟩ := c
  unfold get_cell_type generate_cells
  by_cases hx : cx < w
  · by_cases hy : cy < h
    · simp [List.getElem?_map, List.getElem?_range, hx, hy]
    · simp [List.getElem?_map, List.getElem?_range, hx, hy]
      omega
  · have hnone : (List.range w)[cx]? = none :=
      List.getElem?_eq_none (by simpa using hx)
    simp [List.getElem?_map, hnone, hx]

/-! ## Claim theorems: concrete grids -/

/-- C2: the claim states the `+y` neighbor of `(x, y)` is included iff
`y + 1 < height`.  The code bounds `y` by the grid width instead: on the
1 × 3 grid it omits the in-bounds neighbor `(0, 1)`, and on the 3 × 1 grid it
returns the out-of-bounds `(0, 1)`; the spec-worded `neighbors_of` differs at
both inputs. -/
theorem neighbors_y_bound_uses_width :
    get_neighboring_coordinates m13 ⟨0, 0⟩ = [] ∧
    neighbors_of_spec m13 ⟨0, 0⟩ = [⟨0, 1⟩] ∧
    get_neighboring_coordinates m31 ⟨0, 0⟩ = [⟨1, 0⟩, ⟨0, 1⟩] ∧
    ¬ inBounds m31 ⟨0, 1⟩ ∧
    neighbors_of_spec m31 ⟨0, 0⟩ = [⟨1, 0⟩] := by decide

/-- C1: on the 1 × 3 all-Floor grid a Floor path from start to end exists,
but the A* run ends after one step, exhausted with no found node (the
width-bounded `+y` neighbor test finds no neighbors at all), and the ended
state is a fixed point of `step`.  This contradicts the claimed shortest-path
guarantee. -/
theorem astar_fails_on_tall_grid :
    is_floor_path m13 [⟨0, 0⟩, ⟨0, 1⟩, ⟨0, 2⟩] ∧
    (ASTAR.runSteps 1 (ASTAR.init m13)).search_ended = true ∧
    (ASTAR.runSteps 1 (ASTAR.init m13)).final_searched_cell = none ∧
    ASTAR.step (ASTAR.runSteps 1 (ASTAR.init m13)) =
      ASTAR.runSteps 1 (ASTAR.init m13) := by decide

/-- C6: on the 1 × 3 all-Floor grid a Floor path from start to end exists,
but the BFS run ends after two steps, exhausted with no found node, and the
ended state is a fixed point of `step`.  This contradicts the claimed
shortest-path guarantee. -/
theorem bfs_fails_on_tall_grid :
    is_floor_path m13 [⟨0, 0⟩, ⟨0, 1⟩, ⟨0, 2⟩] ∧
    (BFS.runSteps 2 (BFS.init m13)).search_ended = true ∧
    (BFS.runSteps 2 (BFS.init m13)).final_searched_cell = none ∧
    BFS.step (BFS.runSteps 2 (BFS.init m13)) = BFS.runSteps 2 (BFS.init m13) := by
  decide

/-- C3 counterexample: on the single-cell grid with `start = end = (0,0)`
passable, the first GBFS `step` ends the run with *no* found node (the goal
test only examines neighbors, and the cell has none), and the first BFS
`step` does not end the run at all. -/
theorem single_cell_no_found_counterexample :
    (GBFS.runSteps 1 (GBFS.init m11)).search_ended = true ∧
    (GBFS.runSteps 1 (GBFS.init m11)).final_searched_cell = none ∧
    (BFS.runSteps 1 (BFS.init m11)).search_ended = false := by decide

/-- C3 amended: on the single-cell grid with `start = end = (0,0)` passable,
the run ends exhausted with no found node: GBFS and A* end on the first
`step`, BFS on the second, and the ended states are fixed points of `step`. -/
theorem single_cell_run_exhausts :
    (GBFS.runSteps 1 (GBFS.init m11)).search_ended = true ∧
    (GBFS.runSteps 1 (GBFS.init m11)).final_searched_cell = none ∧
    GBFS.step (GBFS.runSteps 1 (GBFS.init m11)) = GBFS.runSteps 1 (GBFS.init m11) ∧
    (ASTAR.runSteps 1 (ASTAR.init m11)).search_ended = true ∧
    (ASTAR.runSteps 1 (ASTAR.init m11)).final_searched_cell = none ∧
    ASTAR.step (ASTAR.runSteps 1 (ASTAR.init m11)) = ASTAR.runSteps 1 (ASTAR.init m11) ∧
    (BFS.runSteps 1 (BFS.init m11)).search_ended = false ∧
    (BFS.runSteps 2 (BFS.init m11)).search_ended = true ∧
    (BFS.runSteps 2 (BFS.init m11)).final_searched_cell = none ∧
    BFS.step (BFS.runSteps 2 (BFS.init m11)) = BFS.runSteps 2 (BFS.init m11) := by
  decide

/-- C4 counterexample: on the 2 × 2 all-Floor grid, GBFS and A* reach
`search_ended = true` after two steps with a nonempty frontier, and one more
`step` call still mutates the grid (their `step` has no `search_ended`
guard). -/
theorem gbfs_step_after_ended_mutates :
    (GBFS.runSteps 2 (GBFS.init m22)).search_ended = true ∧
    (GBFS.step (GBFS.runSteps 2 (GBFS.init m22))).maze ≠
      (GBFS.runSteps 2 (GBFS.init m22)).maze ∧
    (ASTAR.runSteps 2 (ASTAR.init m22)).search_ended = true ∧
    (ASTAR.step (ASTAR.runSteps 2 (ASTAR.init m22))).maze ≠
      (ASTAR.runSteps 2 (ASTAR.init m22)).maze := by decide

/-- C4 amended: after `search_ended` is true, a BFS `step` never changes the
grid and leaves the flag set; a GBFS or A* `step` is the identity when the
frontier is empty (but can mutate the grid when it is not — see the
counterexample). -/
theorem step_after_ended_amended :
    (∀ s : BFS.State, s.search_ended = true →
      (BFS.step s).maze = s.maze ∧ (BFS.step s).search_ended = true) ∧
    (∀ s : GBFS.State, s.search_ended = true → s.search_frontier = [] →
      GBFS.step s = s) ∧
    (∀ s : ASTAR.State, s.search_ended = true → s.search_frontier = [] →
      ASTAR.step s = s) := by
  refine ⟨fun s h => ?_, fun s h hf => ?_, fun s h hf => ?_⟩
  · by_cases hc : s.cursor < s.cur.length
    · simp [BFS.step, hc, h]
    · rcases hn : s.next_search_frontier with _ | ⟨p0, rest⟩ <;>
        simp [BFS.step, hc, h, hn]
  · obtain ⟨mz, fr, en, fi⟩ := s
    simp only at hf
    subst hf
    rfl
  · obtain ⟨mz, fr, en, fi⟩ := s
    simp only at hf
    subst hf
    rfl

/-- Witness for the amended C4 statement at concrete ended states. -/
theorem step_after_ended_amended_witness :
    (BFS.step ⟨m11, [], 0, [], true, none⟩).maze =
      (⟨m11, [], 0, [], true, none⟩ : BFS.State).maze ∧
    GBFS.step ⟨m11, [], true, none⟩ = (⟨m11, [], true, none⟩ : GBFS.State) ∧
    ASTAR.step ⟨m11, [], true, none⟩ = (⟨m11, [], true, none⟩ : ASTAR.State) :=
  ⟨(step_after_ended_amended.1 _ rfl).1,
   step_after_ended_amended.2.1 _ rfl rfl,
   step_after_ended_amended.2.2 _ rfl rfl⟩

/-- C5 counterexample: on the 3 × 1 grid, the first A* step inserts the
element for candidate `(1,0)` with length field 1 (its path length from
start) but priority `0 + √1 = 1`, the *parent's* path length plus the
straight-line distance — not the claimed `1 + √1 = 2`. -/
theorem astar_priority_counterexample :
    (ASTAR.runSteps 1 (ASTAR.init m31)).search_frontier =
      [⟨⟨0, 1⟩, .link ⟨1, 0⟩ (.base ⟨0, 0⟩), 1⟩] ∧
    Pri.toReal ⟨0, 1⟩ ≠
      (1 : ℝ) + Real.sqrt ((sqDist ⟨1, 0⟩ m31.end_ : Nat) : ℝ) := by
  constructor
  · decide
  · intro h
    have h1 : sqDist ⟨1, 0⟩ m31.end_ = 1 := by decide
    rw [h1] at h
    norm_num [Pri.toReal, Real.sqrt_one] at h

/-- C10 counterexample: when the random start and end draws coincide, the
start cell ends up `FLOOR` (the end write lands second), not `EXPLORED`. -/
theorem regenerate_start_eq_end_counterexample :
    get_cell_type (Maze.regenerate 1 1 ⟨0, 0⟩ ⟨0, 0⟩ fun _ _ => false) ⟨0, 0⟩ =
      some .FLOOR ∧
    get_cell_type (Maze.regenerate 1 1 ⟨0, 0⟩ ⟨0, 0⟩ fun _ _ => false) ⟨0, 0⟩ ≠
      some .EXPLORED := by decide

/-- C10 amended: after `regenerate`, for any random draws with in-bounds
start/end, the end cell is Floor; the start cell is Explored when the two
draws differ, and Floor (not Explored) when they coincide — in particular
neither cell is ever Wall. -/
theorem regenerate_start_end_amended (w h : Nat) (s e : Coordinate)
    (draw : Nat → Nat → Bool) (hs : s.x < w ∧ s.y < h) (he : e.x < w ∧ e.y < h) :
    get_cell_type (Maze.regenerate w h s e draw) e = some .FLOOR ∧
    (s ≠ e → get_cell_type (Maze.regenerate w h s e draw) s = some .EXPLORED) ∧
    get_cell_type (Maze.regenerate w h s e draw) s ≠ some .WALL := by
  unfold Maze.regenerate
  have hgs :
      get_cell_type (⟨w, h, generate_cells w h draw, s, e⟩ : Maze) s ≠ none := by
    rw [get_cell_type_generate]
    simp [hs.1, hs.2]
  have hge :
      get_cell_type (⟨w, h, generate_cells w h draw, s, e⟩ : Maze) e ≠ none := by
    rw [get_cell_type_generate]
    simp [he.1, he.2]
  have hM2e :
      get_cell_type
        (set_cell_type (⟨w, h, generate_cells w h draw, s, e⟩ : Maze) s .EXPLORED)
        e ≠ none := by
    rw [get_set_cell_type]
    split
    · simp
    · exact hge
  have hend :
      get_cell_type
        (set_cell_type
          (set_cell_type (⟨w, h, generate_cells w h draw, s, e⟩ : Maze) s .EXPLORED)
          e .FLOOR) e = some .FLOOR := by
    rw [get_set_cell_type]
    simp [hM2e]
  refine ⟨hend, fun hne => ?_, ?_⟩
  · have hxy : ¬(s.x = e.x ∧ s.y = e.y ∧
        get_cell_type
          (set_cell_type (⟨w, h, generate_cells w h draw, s, e⟩ : Maze) s .EXPLORED)
          e ≠ none) := by
      rintro ⟨h1, h2, _⟩
      exact hne (by cases s; cases e; simp_all)
    rw [get_set_cell_type, if_neg hxy, get_set_cell_type]
    simp [hgs]
  · by_cases hse : s = e
    · subst hse
      rw [hend]
      simp
    · have hxy : ¬(s.x = e.x ∧ s.y = e.y ∧
          get_cell_type
            (set_cell_type (⟨w, h, generate_cells w h draw, s, e⟩ : Maze) s .EXPLORED)
            e ≠ none) := by
        rintro ⟨h1, h2, _⟩
        exact hse (by cases s; cases e; simp_all)
      rw [get_set_cell_type, if_neg hxy, get_set_cell_type]
      simp [hgs]

/-- Witness for the amended C10 statement at a concrete grid. -/
theorem regenerate_start_end_amended_witness :
    get_cell_type (Maze.regenerate 2 2 ⟨0, 0⟩ ⟨1, 1⟩ fun _ _ => false) ⟨1, 1⟩ =
      some .FLOOR ∧
    ((⟨0, 0⟩ : Coordinate) ≠ ⟨1, 1⟩ →
      get_cell_type (Maze.regenerate 2 2 ⟨0, 0⟩ ⟨1, 1⟩ fun _ _ => false) ⟨0, 0⟩ =
        some .EXPLORED) ∧
    get_cell_type (Maze.regenerate 2 2 ⟨0, 0⟩ ⟨1, 1⟩ fun _ _ => false) ⟨0, 0⟩ ≠
      some .WALL :=
  regenerate_start_end_amended 2 2 ⟨0, 0⟩ ⟨1, 1⟩ (fun _ _ => false)
    (by decide) (by decide)

/-! ## Frontier order invariants (GBFS) -/

theorem GBFS.insert_frontier_perm_gb (fr : List GBFS.priority_queue_element)
    (x : GBFS.priority_queue_element) :
    (GBFS.insert_frontier fr x).Perm (x :: fr) := by
  induction fr with
  | nil => simp [GBFS.insert_frontier]
  | cons e rest ih =>
    unfold GBFS.insert_frontier
    by_cases h : Pri.bgt e.priority x.priority
    · simp [h]
    · simp only [h, Bool.false_eq_true, if_false]
      exact (ih.cons e).trans (List.Perm.swap x e rest)

theorem GBFS.insert_frontier_sorted_gb (fr : List GBFS.priority_queue_element)
    (x : GBFS.priority_queue_element)
    (h : fr.Sorted fun e f => e.priority.toReal ≤ f.priority.toReal) :
    (GBFS.insert_frontier fr x).Sorted
      fun e f => e.priority.toReal ≤ f.priority.toReal := by
  induction fr with
  | nil => simp [GBFS.insert_frontier]
  | cons e rest ih =>
    rw [List.sorted_cons] at h
    obtain ⟨he, hrest⟩ := h
    unfold GBFS.insert_frontier
    by_cases hb : Pri.bgt e.priority x.priority
    · have hlt : x.priority.toReal < e.priority.toReal := (Pri.bgt_iff _ _).mp hb
      simp only [hb, if_true]
      rw [List.sorted_cons]
      refine ⟨fun f hf => ?_, ?_⟩
      · rcases List.mem_cons.mp hf with rfl | hf2
        · exact le_of_lt hlt
        · exact le_trans (le_of_lt hlt) (he f hf2)
      · rw [List.sorted_cons]
        exact ⟨he, hrest⟩
    · have hle : e.priority.toReal ≤ x.priority.toReal :=
        (Pri.bgt_eq_false_iff _ _).mp (by simpa using hb)
      simp only [hb, Bool.false_eq_true, if_false]
      rw [List.sorted_cons]
      refine ⟨fun f hf => ?_, ih hrest⟩
      have hf2 := (GBFS.insert_frontier_perm_gb rest x).mem_iff.mp hf
      rcases List.mem_cons.mp hf2 with rfl | hf3
      · exact hle
      · exact he f hf3

theorem GBFS.expand_loop_sorted_gb (endC : Coordinate) (pos : searched_cell)
    (adjs : List Coordinate) :
    ∀ (m : Maze) (fr : List GBFS.priority_queue_element)
      (fin : Option searched_cell),
      (fr.Sorted fun e f => e.priority.toReal ≤ f.priority.toReal) →
      ((GBFS.expand_loop endC pos m fr fin adjs).2.1).Sorted
        fun e f => e.priority.toReal ≤ f.priority.toReal := by
  induction adjs with
  | nil => intro m fr fin h; exact h
  | cons adj rest ih =>
    intro m fr fin h
    unfold GBFS.expand_loop
    by_cases h1 : adj = endC
    · simpa [h1] using h
    · by_cases h2 : get_cell_type m adj = some .FLOOR
      · simp only [h1, h2, if_false, if_true]
        exact ih _ _ _ (GBFS.insert_frontier_sorted_gb _ _ h)
      · simp only [h1, h2, if_false]
        exact ih _ _ _ h

theorem GBFS.step_sorted_gb (s : GBFS.State)
    (h : s.search_frontier.Sorted fun e f => e.priority.toReal ≤ f.priority.toReal) :
    ((GBFS.step s).search_frontier).Sorted
      fun e f => e.priority.toReal ≤ f.priority.toReal := by
  rcases hfr : s.search_frontier with _ | ⟨fe, rest⟩
  · simp only [GBFS.step, hfr]
    rw [← hfr]
    exact h
  · simp only [GBFS.step, hfr]
    apply GBFS.expand_loop_sorted_gb
    rw [hfr, List.sorted_cons] at h
    exact h.2

theorem GBFS.runSteps_succ_gb (n : Nat) (s : GBFS.State) :
    GBFS.runSteps (n + 1) s = GBFS.step (GBFS.runSteps n s) := by
  induction n generalizing s with
  | zero => rfl
  | succ n ih =>
    show GBFS.runSteps (n + 1) (GBFS.step s) = _
    rw [ih]
    rfl

theorem GBFS.runSteps_sorted_gb (m : Maze) (k : Nat) :
    ((GBFS.runSteps k (GBFS.init m)).search_frontier).Sorted
      fun e f => e.priority.toReal ≤ f.priority.toReal := by
  induction k with
  | zero => simp [GBFS.runSteps, GBFS.init]
  | succ k ih =>
    rw [GBFS.runSteps_succ_gb]
    exact GBFS.step_sorted_gb _ ih

theorem GBFS.insert_frontier_eq_takeWhile_gb (fr : List GBFS.priority_queue_element)
    (x : GBFS.priority_queue_element) :
    GBFS.insert_frontier fr x =
      fr.takeWhile (fun e => !(Pri.bgt e.priority x.priority)) ++
        x :: fr.dropWhile (fun e => !(Pri.bgt e.priority x.priority)) := by
  induction fr with
  | nil => rfl
  | cons e rest ih =>
    unfold GBFS.insert_frontier
    by_cases h : Pri.bgt e.priority x.priority
    · simp [h, List.takeWhile_cons, List.dropWhile_cons]
    · simp [h, List.takeWhile_cons, List.dropWhile_cons, ih]

/-! ## Frontier order invariants (A*) -/

theorem ASTAR.insert_frontier_perm_as (fr : List ASTAR.priority_queue_length_element)
    (x : ASTAR.priority_queue_length_element) :
    (ASTAR.insert_frontier fr x).Perm (x :: fr) := by
  induction fr with
  | nil => simp [ASTAR.insert_frontier]
  | cons e rest ih =>
    unfold ASTAR.insert_frontier
    by_cases h : Pri.bgt e.priority x.priority
    · simp [h]
    · simp only [h, Bool.false_eq_true, if_false]
      exact (ih.cons e).trans (List.Perm.swap x e rest)

theorem ASTAR.insert_frontier_sorted_as (fr : List ASTAR.priority_queue_length_element)
    (x : ASTAR.priority_queue_length_element)
    (h : fr.Sorted fun e f => e.priority.toReal ≤ f.priority.toReal) :
    (ASTAR.insert_frontier fr x).Sorted
      fun e f => e.priority.toReal ≤ f.priority.toReal := by
  induction fr with
  | nil => simp [ASTAR.insert_frontier]
  | cons e rest ih =>
    rw [List.sorted_cons] at h
    obtain ⟨he, hrest⟩ := h
    unfold ASTAR.insert_frontier
    by_cases hb : Pri.bgt e.priority x.priority
    · have hlt : x.priority.toReal < e.priority.toReal := (Pri.bgt_iff _ _).mp hb
      simp only [hb, if_true]
      rw [List.sorted_cons]
      refine ⟨fun f hf => ?_, ?_⟩
      · rcases List.mem_cons.mp hf with rfl | hf2
        · exact le_of_lt hlt
        · exact le_trans (le_of_lt hlt) (he f hf2)
      · rw [List.sorted_cons]
        exact ⟨he, hrest⟩
    · have hle : e.priority.toReal ≤ x.priority.toReal :=
        (Pri.bgt_eq_false_iff _ _).mp (by simpa using hb)
      simp only [hb, Bool.false_eq_true, if_false]
      rw [List.sorted_cons]
      refine ⟨fun f hf => ?_, ih hrest⟩
      have hf2 := (ASTAR.insert_frontier_perm_as rest x).mem_iff.mp hf
      rcases List.mem_cons.mp hf2 with rfl | hf3
      · exact hle
      · exact he f hf3

theorem ASTAR.expand_loop_sorted_as (endC : Coordinate)
    (fe : ASTAR.priority_queue_length_element)
    (adjs : List Coordinate) :
    ∀ (m : Maze) (fr : List ASTAR.priority_queue_length_element)
      (fin : Option searched_cell),
      (fr.Sorted fun e f => e.priority.toReal ≤ f.priority.toReal) →
      ((ASTAR.expand_loop endC fe m fr fin adjs).2.1).Sorted
        fun e f => e.priority.toReal ≤ f.priority.toReal := by
  induction adjs with
  | nil => intro m fr fin h; exact h
  | cons adj rest ih =>
    intro m fr fin h
    unfold ASTAR.expand_loop
    by_cases h1 : adj = endC
    · simpa [h1] using h
    · by_cases h2 : get_cell_type m adj = some .FLOOR
      · simp only [h1, h2, if_false, if_true]
        exact ih _ _ _ (ASTAR.insert_frontier_sorted_as _ _ h)
      · simp only [h1, h2, if_false]
        exact ih _ _ _ h

theorem ASTAR.step_sorted_as (s : ASTAR.State)
    (h : s.search_frontier.Sorted fun e f => e.priority.toReal ≤ f.priority.toReal) :
    ((ASTAR.step s).search_frontier).Sorted
      fun e f => e.priority.toReal ≤ f.priority.toReal := by
  rcases hfr : s.search_frontier with _ | ⟨fe, rest⟩
  · simp only [ASTAR.step, hfr]
    rw [← hfr]
    exact h
  · simp only [ASTAR.step, hfr]
    apply ASTAR.expand_loop_sorted_as
    rw [hfr, List.sorted_cons] at h
    exact h.2

theorem ASTAR.runSteps_succ_as (n : Nat) (s : ASTAR.State) :
    ASTAR.runSteps (n + 1) s = ASTAR.step (ASTAR.runSteps n s) := by
  induction n generalizing s with
  | zero => rfl
  | succ n ih =>
    show ASTAR.runSteps (n + 1) (ASTAR.step s) = _
    rw [ih]
    rfl

theorem ASTAR.runSteps_sorted_as (m : Maze) (k : Nat) :
    ((ASTAR.runSteps k (ASTAR.init m)).search_frontier).Sorted
      fun e f => e.priority.toReal ≤ f.priority.toReal := by
  induction k with
  | zero => simp [ASTAR.runSteps, ASTAR.init]
  | succ k ih =>
    rw [ASTAR.runSteps_succ_as]
    exact ASTAR.step_sorted_as _ ih

theorem ASTAR.insert_frontier_eq_takeWhile_as (fr : List ASTAR.priority_queue_length_element)
    (x : ASTAR.priority_queue_length_element) :
    ASTAR.insert_frontier fr x =
      fr.takeWhile (fun e => !(Pri.bgt e.priority x.priority)) ++
        x :: fr.dropWhile (fun e => !(Pri.bgt e.priority x.priority)) := by
  induction fr with
  | nil => rfl
  | cons e rest ih =>
    unfold ASTAR.insert_frontier
    by_cases h : Pri.bgt e.priority x.priority
    · simp [h, List.takeWhile_cons, List.dropWhile_cons]
    · simp [h, List.takeWhile_cons, List.dropWhile_cons, ih]

/-- C9: in GBFS and A*, the frontier is sorted non-decreasing by priority at
every state of every run; `insert` splices a new element exactly at the first
position whose existing priority is strictly greater (the `takeWhile` prefix
of not-strictly-greater elements — so equal priorities keep discovery order);
and whenever the frontier is nonempty its head, the element `step` removes,
has minimum priority. -/
theorem frontier_sorted_invariant :
    (∀ (m : Maze) (k : Nat),
      ((GBFS.runSteps k (GBFS.init m)).search_frontier).Sorted
        fun e f => e.priority.toReal ≤ f.priority.toReal) ∧
    (∀ (fr : List GBFS.priority_queue_element) (x : GBFS.priority_queue_element),
      GBFS.insert_frontier fr x =
        fr.takeWhile (fun e => !(Pri.bgt e.priority x.priority)) ++
          x :: fr.dropWhile (fun e => !(Pri.bgt e.priority x.priority))) ∧
    (∀ (m : Maze) (k : Nat) (e : GBFS.priority_queue_element)
      (rest : List GBFS.priority_queue_element),
      (GBFS.runSteps k (GBFS.init m)).search_frontier = e :: rest →
      ∀ f ∈ (GBFS.runSteps k (GBFS.init m)).search_frontier,
        e.priority.toReal ≤ f.priority.toReal) ∧
    (∀ (m : Maze) (k : Nat),
      ((ASTAR.runSteps k (ASTAR.init m)).search_frontier).Sorted
        fun e f => e.priority.toReal ≤ f.priority.toReal) ∧
    (∀ (fr : List ASTAR.priority_queue_length_element)
      (x : ASTAR.priority_queue_length_element),
      ASTAR.insert_frontier fr x =
        fr.takeWhile (fun e => !(Pri.bgt e.priority x.priority)) ++
          x :: fr.dropWhile (fun e => !(Pri.bgt e.priority x.priority))) ∧
    (∀ (m : Maze) (k : Nat) (e : ASTAR.priority_queue_length_element)
      (rest : List ASTAR.priority_queue_length_element),
      (ASTAR.runSteps k (ASTAR.init m)).search_frontier = e :: rest →
      ∀ f ∈ (ASTAR.runSteps k (ASTAR.init m)).search_frontier,
        e.priority.toReal ≤ f.priority.toReal) := by
  refine ⟨GBFS.runSteps_sorted_gb, GBFS.insert_frontier_eq_takeWhile_gb,
    fun m k e rest hfr f hf => ?_, ASTAR.runSteps_sorted_as,
    ASTAR.insert_frontier_eq_takeWhile_as, fun m k e rest hfr f hf => ?_⟩
  · have hs := GBFS.runSteps_sorted_gb m k
    rw [hfr] at hs hf
    rw [List.sorted_cons] at hs
    rcases List.mem_cons.mp hf with rfl | hf2
    · exact le_refl _
    · exact hs.1 f hf2
  · have hs := ASTAR.runSteps_sorted_as m k
    rw [hfr] at hs hf
    rw [List.sorted_cons] at hs
    rcases List.mem_cons.mp hf with rfl | hf2
    · exact le_refl _
    · exact hs.1 f hf2

/-- Witness for C9 at a concrete run state: after one GBFS step on the 2 × 2
grid the frontier head has minimum priority. -/
theorem frontier_sorted_invariant_witness :
    (⟨⟨0, 1⟩, .link ⟨1, 0⟩ (.base ⟨0, 0⟩)⟩ :
        GBFS.priority_queue_element).priority.toReal ≤
      (⟨⟨0, 1⟩, .link ⟨0, 1⟩ (.base ⟨0, 0⟩)⟩ :
        GBFS.priority_queue_element).priority.toReal :=
  frontier_sorted_invariant.2.2.1 m22 1 _
    [⟨⟨0, 1⟩, .link ⟨0, 1⟩ (.base ⟨0, 0⟩)⟩] (by decide) _ (by decide)

/-- C5 amended: every element the A* neighbor loop adds to the frontier (for
a candidate cell `c` discovered from the popped element `fe`) carries
`length = fe.length + 1` — the candidate's path length from start — but
`priority = astar_dist fe c`, whose value is `fe.length + dist(end, c)`: the
*parent's* path length (the candidate's path length minus one) plus the
straight-line distance. -/
theorem astar_priority_amended (endC : Coordinate)
    (fe : ASTAR.priority_queue_length_element) (adjs : List Coordinate) :
    ∀ (m : Maze) (fr : List ASTAR.priority_queue_length_element)
      (fin : Option searched_cell),
      ∀ e ∈ (ASTAR.expand_loop endC fe m fr fin adjs).2.1,
        e ∈ fr ∨ ∃ c ∈ adjs,
          e.cell = .link c fe.cell ∧ e.length = fe.length + 1 ∧
          e.priority = ASTAR.astar_dist fe endC c ∧
          e.priority.toReal =
            (fe.length : ℝ) + Real.sqrt ((sqDist endC c : Nat) : ℝ) := by
  induction adjs with
  | nil => intro m fr fin e he; exact Or.inl he
  | cons adj rest ih =>
    intro m fr fin e he
    unfold ASTAR.expand_loop at he
    by_cases h1 : adj = endC
    · simp only [h1, if_true] at he
      exact Or.inl he
    · by_cases h2 : get_cell_type m adj = some .FLOOR
      · simp only [h1, h2, if_false, if_true] at he
        rcases ih _ _ _ e he with hin | ⟨c, hc, hrest⟩
        · rcases List.mem_cons.mp
            ((ASTAR.insert_frontier_perm_as _ _).mem_iff.mp hin) with rfl | hfr
          · refine Or.inr ⟨adj, List.mem_cons_self _ _, rfl, rfl, rfl, ?_⟩
            rfl
          · exact Or.inl hfr
        · exact Or.inr ⟨c, List.mem_cons_of_mem _ hc, hrest⟩
      · simp only [h1, h2, if_false] at he
        rcases ih _ _ _ e he with hin | ⟨c, hc, hrest⟩
        · exact Or.inl hin
        · exact Or.inr ⟨c, List.mem_cons_of_mem _ hc, hrest⟩

/-- Witness for the amended C5 statement: the single element inserted when
A* expands the start of the 3 × 1 grid. -/
theorem astar_priority_amended_witness :
    (⟨⟨0, 1⟩, .link ⟨1, 0⟩ (.base ⟨0, 0⟩), 1⟩ :
        ASTAR.priority_queue_length_element) ∈
      ([] : List ASTAR.priority_queue_length_element) ∨
    ∃ c ∈ [(⟨1, 0⟩ : Coordinate)],
      (searched_cell.link ⟨1, 0⟩ (.base ⟨0, 0⟩)) = .link c (.base ⟨0, 0⟩) ∧
      (1 : Nat) = 0 + 1 ∧
      (⟨0, 1⟩ : Pri) =
        ASTAR.astar_dist ⟨⟨0, 4⟩, .base ⟨0, 0⟩, 0⟩ ⟨2, 0⟩ c ∧
      Pri.toReal ⟨0, 1⟩ =
        ((0 : Nat) : ℝ) + Real.sqrt ((sqDist ⟨2, 0⟩ c : Nat) : ℝ) :=
  astar_priority_amended ⟨2, 0⟩ ⟨⟨0, 4⟩, .base ⟨0, 0⟩, 0⟩ [⟨1, 0⟩] m31 [] none
    ⟨⟨0, 1⟩, .link ⟨1, 0⟩ (.base ⟨0, 0⟩), 1⟩ (by decide)

/-! ## Cell-level step lemmas -/

theorem coordinate_eq_iff (c d : Coordinate) : c = d ↔ c.x = d.x ∧ c.y = d.y := by
  cases c; cases d; simp

theorem get_set_self_of_some (m : Maze) (c : Coordinate) (t u : MazeCell)
    (h : get_cell_type m c = some u) :
    get_cell_type (set_cell_type m c t) c = some t := by
  rw [get_set_cell_type]
  simp [h]

theorem get_set_of_ne (m : Maze) (c c' : Coordinate) (t : MazeCell)
    (h : c' ≠ c) :
    get_cell_type (set_cell_type m c t) c' = get_cell_type m c' := by
  rw [get_set_cell_type]
  have hne : ¬(c'.x = c.x ∧ c'.y = c.y ∧ get_cell_type m c ≠ none) := by
    rintro ⟨h1, h2, -⟩
    exact h ((coordinate_eq_iff c' c).mpr ⟨h1, h2⟩)
  rw [if_neg hne]

theorem set_cell_type_WF (m : Maze) (c : Coordinate) (t : MazeCell)
    (h : Maze.WF m) : Maze.WF (set_cell_type m c t) := by
  obtain ⟨hl, hc⟩ := h
  unfold set_cell_type
  rcases hx : m.cells[c.x]? with _ | col
  · exact ⟨hl, hc⟩
  · refine ⟨by simpa using hl, fun col2 h2 => ?_⟩
    rcases List.mem_or_eq_of_mem_set h2 with h3 | rfl
    · exact hc _ h3
    · rw [List.length_set]
      exact hc _ (List.getElem?_mem hx)

theorem get_cell_type_some_inBounds (m : Maze) (c : Coordinate) (t : MazeCell)
    (hwf : Maze.WF m) (h : get_cell_type m c = some t) : inBounds m c := by
  unfold get_cell_type at h
  rcases hx : m.cells[c.x]? with _ | col
  · simp only [hx] at h
    exact Option.noConfusion h
  · simp only [hx] at h
    have hxlt : c.x < m.cells.length := by
      by_contra hcon
      push_neg at hcon
      rw [List.getElem?_eq_none hcon] at hx
      exact Option.noConfusion hx
    have hylt : c.y < col.length := by
      by_contra hcon
      push_neg at hcon
      rw [List.getElem?_eq_none hcon] at h
      exact Option.noConfusion h
    refine ⟨hwf.1 ▸ hxlt, ?_⟩
    rw [← hwf.2 col (List.getElem?_mem hx)]
    exact hylt

/-- Each cell is either untouched by the Active→Floor cleanup, or was Active
among the given coordinates and is reset to Floor. -/
theorem revert_active_cells (adjs : List Coordinate) :
    ∀ (m : Maze) (c : Coordinate),
      get_cell_type (revert_active m adjs) c = get_cell_type m c ∨
      (c ∈ adjs ∧ get_cell_type m c = some .ACTIVE ∧
        get_cell_type (revert_active m adjs) c = some .FLOOR) := by
  induction adjs with
  | nil => intro m c; exact Or.inl rfl
  | cons a rest ih =>
    intro m c
    unfold revert_active
    by_cases ha : get_cell_type m a = some .ACTIVE
    · simp only [ha, if_true]
      by_cases hca : c = a
      · subst hca
        have hm : get_cell_type (set_cell_type m c .FLOOR) c = some .FLOOR :=
          get_set_self_of_some m c _ _ ha
        rcases ih (set_cell_type m c .FLOOR) c with h1 | ⟨h1, h2, h3⟩
        · exact Or.inr ⟨List.mem_cons_self _ _, ha, h1.trans hm⟩
        · rw [hm] at h2
          exact absurd h2 (by simp)
      · have hm : get_cell_type (set_cell_type m a .FLOOR) c = get_cell_type m c :=
          get_set_of_ne m a c _ hca
        rcases ih (set_cell_type m a .FLOOR) c with h1 | ⟨h1, h2, h3⟩
        · exact Or.inl (h1.trans hm)
        · exact Or.inr ⟨List.mem_cons_of_mem _ h1, hm ▸ h2, h3⟩
    · simp only [ha, if_false]
      rcases ih m c with h1 | ⟨h1, h2, h3⟩
      · exact Or.inl h1
      · exact Or.inr ⟨List.mem_cons_of_mem _ h1, h2, h3⟩

/-! ## GBFS expansion-loop lemmas -/

theorem GBFS.expand_loop_fields_gb (endC : Coordinate) (pos : searched_cell)
    (adjs : List Coordinate) :
    ∀ (m : Maze) (fr : List GBFS.priority_queue_element)
      (fin : Option searched_cell),
      (GBFS.expand_loop endC pos m fr fin adjs).1.width = m.width ∧
      (GBFS.expand_loop endC pos m fr fin adjs).1.height = m.height ∧
      (GBFS.expand_loop endC pos m fr fin adjs).1.start = m.start ∧
      (GBFS.expand_loop endC pos m fr fin adjs).1.end_ = m.end_ ∧
      (Maze.WF m → Maze.WF (GBFS.expand_loop endC pos m fr fin adjs).1) := by
  induction adjs with
  | nil => intro m fr fin; exact ⟨rfl, rfl, rfl, rfl, id⟩
  | cons adj rest ih =>
    intro m fr fin
    unfold GBFS.expand_loop
    by_cases h1 : adj = endC
    · rw [if_pos h1]
      exact ⟨rfl, rfl, rfl, rfl, id⟩
    · by_cases h2 : get_cell_type m adj = some .FLOOR
      · rw [if_neg h1, if_pos h2]
        obtain ⟨w, h, st, en, wf⟩ := ih (set_cell_type m adj .ACTIVE) _ fin
        exact ⟨w.trans (set_cell_type_width _ _ _),
          h.trans (set_cell_type_height _ _ _),
          st.trans (set_cell_type_start _ _ _),
          en.trans (set_cell_type_end _ _ _),
          fun hwf => wf (set_cell_type_WF _ _ _ hwf)⟩
      · rw [if_neg h1, if_neg h2]
        exact ih m fr fin

theorem GBFS.expand_loop_cells_gb (endC : Coordinate) (pos : searched_cell)
    (adjs : List Coordinate) :
    ∀ (m : Maze) (fr : List GBFS.priority_queue_element)
      (fin : Option searched_cell) (c : Coordinate),
      get_cell_type (GBFS.expand_loop endC pos m fr fin adjs).1 c =
        get_cell_type m c ∨
      (c ∈ adjs ∧ get_cell_type m c = some .FLOOR ∧
        get_cell_type (GBFS.expand_loop endC pos m fr fin adjs).1 c =
          some .ACTIVE) := by
  induction adjs with
  | nil => intro m fr fin c; exact Or.inl rfl
  | cons adj rest ih =>
    intro m fr fin c
    unfold GBFS.expand_loop
    by_cases h1 : adj = endC
    · rw [if_pos h1]
      exact Or.inl rfl
    · by_cases h2 : get_cell_type m adj = some .FLOOR
      · rw [if_neg h1, if_pos h2]
        by_cases hca : c = adj
        · subst hca
          have hm : get_cell_type (set_cell_type m c .ACTIVE) c = some .ACTIVE :=
            get_set_self_of_some m c _ _ h2
          rcases ih (set_cell_type m c .ACTIVE) _ fin c with h3 | ⟨h3, h4, h5⟩
          · exact Or.inr ⟨List.mem_cons_self _ _, h2, h3.trans hm⟩
          · rw [hm] at h4
            exact absurd h4 (by simp)
        · have hm : get_cell_type (set_cell_type m adj .ACTIVE) c =
              get_cell_type m c := get_set_of_ne m adj c _ hca
          rcases ih (set_cell_type m adj .ACTIVE) _ fin c with h3 | ⟨h3, h4, h5⟩
          · exact Or.inl (h3.trans hm)
          · exact Or.inr ⟨List.mem_cons_of_mem _ h3, hm ▸ h4, h5⟩
      · rw [if_neg h1, if_neg h2]
        rcases ih m fr fin c with h3 | ⟨h3, h4, h5⟩
        · exact Or.inl h3
        · exact Or.inr ⟨List.mem_cons_of_mem _ h3, h4, h5⟩

theorem GBFS.expand_loop_frontier_gb (endC : Coordinate) (pos : searched_cell)
    (adjs : List Coordinate) :
    ∀ (m : Maze) (fr : List GBFS.priority_queue_element)
      (fin : Option searched_cell),
      Maze.WF m →
      (∀ e ∈ fr, get_cell_type m e.cell.coord = some .ACTIVE) →
      ((fr.map fun e => e.cell.coord).Nodup) →
      (∀ e ∈ (GBFS.expand_loop endC pos m fr fin adjs).2.1,
        get_cell_type (GBFS.expand_loop endC pos m fr fin adjs).1 e.cell.coord =
          some .ACTIVE) ∧
      ((((GBFS.expand_loop endC pos m fr fin adjs).2.1).map
          fun e => e.cell.coord).Nodup) ∧
      (∀ e ∈ (GBFS.expand_loop endC pos m fr fin adjs).2.1,
        e ∈ fr ∨ inBounds m e.cell.coord) := by
  induction adjs with
  | nil =>
    intro m fr fin hwf h1 h2
    exact ⟨h1, h2, fun e he => Or.inl he⟩
  | cons adj rest ih =>
    intro m fr fin hwf h1 h2
    unfold GBFS.expand_loop
    by_cases hg : adj = endC
    · rw [if_pos hg]
      exact ⟨h1, h2, fun e he => Or.inl he⟩
    · by_cases hf : get_cell_type m adj = some .FLOOR
      · rw [if_neg hg, if_pos hf]
        have hadjfr : ∀ e ∈ fr, e.cell.coord ≠ adj := by
          intro e he hc
          have hx := h1 e he
          rw [hc, hf] at hx
          simp at hx
        have h1' : ∀ e ∈ GBFS.insert_frontier fr
            ⟨⟨0, sqDist adj endC⟩, .link adj pos⟩,
            get_cell_type (set_cell_type m adj .ACTIVE) e.cell.coord =
              some .ACTIVE := by
          intro e he
          rcases List.mem_cons.mp
            ((GBFS.insert_frontier_perm_gb _ _).mem_iff.mp he) with rfl | he2
          · exact get_set_self_of_some m adj _ _ hf
          · rw [get_set_of_ne m adj _ _ (hadjfr e he2)]
            exact h1 e he2
        have h2' : ((GBFS.insert_frontier fr
            ⟨⟨0, sqDist adj endC⟩, .link adj pos⟩).map
              fun e => e.cell.coord).Nodup := by
          have hperm := (GBFS.insert_frontier_perm_gb fr
            ⟨⟨0, sqDist adj endC⟩, .link adj pos⟩).map fun e => e.cell.coord
          rw [hperm.nodup_iff]
          simp only [List.map_cons, List.nodup_cons]
          refine ⟨?_, h2⟩
          intro hmem
          rcases List.mem_map.mp hmem with ⟨e, he, hco⟩
          exact hadjfr e he hco
        obtain ⟨g1, g2, g3⟩ := ih (set_cell_type m adj .ACTIVE) _ fin
          (set_cell_type_WF _ _ _ hwf) h1' h2'
        refine ⟨g1, g2, fun e he => ?_⟩
        rcases g3 e he with hin | hib
        · rcases List.mem_cons.mp
            ((GBFS.insert_frontier_perm_gb _ _).mem_iff.mp hin) with rfl | he2
          · exact Or.inr (get_cell_type_some_inBounds m adj _ hwf hf)
          · exact Or.inl he2
        · refine Or.inr ?_
          have hw := set_cell_type_width m adj MazeCell.ACTIVE
          have hh := set_cell_type_height m adj MazeCell.ACTIVE
          unfold inBounds at hib ⊢
          rw [hw, hh] at hib
          exact hib
      · rw [if_neg hg, if_neg hf]
        obtain ⟨g1, g2, g3⟩ := ih m fr fin hwf h1 h2
        exact ⟨g1, g2, g3⟩

/-! ## A* expansion-loop lemmas -/

theorem ASTAR.expand_loop_fields_as (endC : Coordinate) (fe : ASTAR.priority_queue_length_element)
    (adjs : List Coordinate) :
    ∀ (m : Maze) (fr : List ASTAR.priority_queue_length_element)
      (fin : Option searched_cell),
      (ASTAR.expand_loop endC fe m fr fin adjs).1.width = m.width ∧
      (ASTAR.expand_loop endC fe m fr fin adjs).1.height = m.height ∧
      (ASTAR.expand_loop endC fe m fr fin adjs).1.start = m.start ∧
      (ASTAR.expand_loop endC fe m fr fin adjs).1.end_ = m.end_ ∧
      (Maze.WF m → Maze.WF (ASTAR.expand_loop endC fe m fr fin adjs).1) := by
  induction adjs with
  | nil => intro m fr fin; exact ⟨rfl, rfl, rfl, rfl, id⟩
  | cons adj rest ih =>
    intro m fr fin
    unfold ASTAR.expand_loop
    by_cases h1 : adj = endC
    · rw [if_pos h1]
      exact ⟨rfl, rfl, rfl, rfl, id⟩
    · by_cases h2 : get_cell_type m adj = some .FLOOR
      · rw [if_neg h1, if_pos h2]
        obtain ⟨w, h, st, en, wf⟩ := ih (set_cell_type m adj .ACTIVE) _ fin
        exact ⟨w.trans (set_cell_type_width _ _ _),
          h.trans (set_cell_type_height _ _ _),
          st.trans (set_cell_type_start _ _ _),
          en.trans (set_cell_type_end _ _ _),
          fun hwf => wf (set_cell_type_WF _ _ _ hwf)⟩
      · rw [if_neg h1, if_neg h2]
        exact ih m fr fin

theorem ASTAR.expand_loop_cells_as (endC : Coordinate) (fe : ASTAR.priority_queue_length_element)
    (adjs : List Coordinate) :
    ∀ (m : Maze) (fr : List ASTAR.priority_queue_length_element)
      (fin : Option searched_cell) (c : Coordinate),
      get_cell_type (ASTAR.expand_loop endC fe m fr fin adjs).1 c =
        get_cell_type m c ∨
      (c ∈ adjs ∧ get_cell_type m c = some .FLOOR ∧
        get_cell_type (ASTAR.expand_loop endC fe m fr fin adjs).1 c =
          some .ACTIVE) := by
  induction adjs with
  | nil => intro m fr fin c; exact Or.inl rfl
  | cons adj rest ih =>
    intro m fr fin c
    unfold ASTAR.expand_loop
    by_cases h1 : adj = endC
    · rw [if_pos h1]
      exact Or.inl rfl
    · by_cases h2 : get_cell_type m adj = some .FLOOR
      · rw [if_neg h1, if_pos h2]
        by_cases hca : c = adj
        · subst hca
          have hm : get_cell_type (set_cell_type m c .ACTIVE) c = some .ACTIVE :=
            get_set_self_of_some m c _ _ h2
          rcases ih (set_cell_type m c .ACTIVE) _ fin c with h3 | ⟨h3, h4, h5⟩
          · exact Or.inr ⟨List.mem_cons_self _ _, h2, h3.trans hm⟩
          · rw [hm] at h4
            exact absurd h4 (by simp)
        · have hm : get_cell_type (set_cell_type m adj .ACTIVE) c =
              get_cell_type m c := get_set_of_ne m adj c _ hca
          rcases ih (set_cell_type m adj .ACTIVE) _ fin c with h3 | ⟨h3, h4, h5⟩
          · exact Or.inl (h3.trans hm)
          · exact Or.inr ⟨List.mem_cons_of_mem _ h3, hm ▸ h4, h5⟩
      · rw [if_neg h1, if_neg h2]
        rcases ih m fr fin c with h3 | ⟨h3, h4, h5⟩
        · exact Or.inl h3
        · exact Or.inr ⟨List.mem_cons_of_mem _ h3, h4, h5⟩

theorem ASTAR.expand_loop_frontier_as (endC : Coordinate) (fe : ASTAR.priority_queue_length_element)
    (adjs : List Coordinate) :
    ∀ (m : Maze) (fr : List ASTAR.priority_queue_length_element)
      (fin : Option searched_cell),
      Maze.WF m →
      (∀ e ∈ fr, get_cell_type m e.cell.coord = some .ACTIVE) →
      ((fr.map fun e => e.cell.coord).Nodup) →
      (∀ e ∈ (ASTAR.expand_loop endC fe m fr fin adjs).2.1,
        get_cell_type (ASTAR.expand_loop endC fe m fr fin adjs).1 e.cell.coord =
          some .ACTIVE) ∧
      ((((ASTAR.expand_loop endC fe m fr fin adjs).2.1).map
          fun e => e.cell.coord).Nodup) ∧
      (∀ e ∈ (ASTAR.expand_loop endC fe m fr fin adjs).2.1,
        e ∈ fr ∨ inBounds m e.cell.coord) := by
  induction adjs with
  | nil =>
    intro m fr fin hwf h1 h2
    exact ⟨h1, h2, fun e he => Or.inl he⟩
  | cons adj rest ih =>
    intro m fr fin hwf h1 h2
    unfold ASTAR.expand_loop
    by_cases hg : adj = endC
    · rw [if_pos hg]
      exact ⟨h1, h2, fun e he => Or.inl he⟩
    · by_cases hf : get_cell_type m adj = some .FLOOR
      · rw [if_neg hg, if_pos hf]
        have hadjfr : ∀ e ∈ fr, e.cell.coord ≠ adj := by
          intro e he hc
          have hx := h1 e he
          rw [hc, hf] at hx
          simp at hx
        have h1' : ∀ e ∈ ASTAR.insert_frontier fr
            ⟨ASTAR.astar_dist fe endC adj, .link adj fe.cell, fe.length + 1⟩,
            get_cell_type (set_cell_type m adj .ACTIVE) e.cell.coord =
              some .ACTIVE := by
          intro e he
          rcases List.mem_cons.mp
            ((ASTAR.insert_frontier_perm_as _ _).mem_iff.mp he) with rfl | he2
          · exact get_set_self_of_some m adj _ _ hf
          · rw [get_set_of_ne m adj _ _ (hadjfr e he2)]
            exact h1 e he2
        have h2' : ((ASTAR.insert_frontier fr
            ⟨ASTAR.astar_dist fe endC adj, .link adj fe.cell, fe.length + 1⟩).map
              fun e => e.cell.coord).Nodup := by
          have hperm := (ASTAR.insert_frontier_perm_as fr
            ⟨ASTAR.astar_dist fe endC adj, .link adj fe.cell, fe.length + 1⟩).map fun e => e.cell.coord
          rw [hperm.nodup_iff]
          simp only [List.map_cons, List.nodup_cons]
          refine ⟨?_, h2⟩
          intro hmem
          rcases List.mem_map.mp hmem with ⟨e, he, hco⟩
          exact hadjfr e he hco
        obtain ⟨g1, g2, g3⟩ := ih (set_cell_type m adj .ACTIVE) _ fin
          (set_cell_type_WF _ _ _ hwf) h1' h2'
        refine ⟨g1, g2, fun e he => ?_⟩
        rcases g3 e he with hin | hib
        · rcases List.mem_cons.mp
            ((ASTAR.insert_frontier_perm_as _ _).mem_iff.mp hin) with rfl | he2
          · exact Or.inr (get_cell_type_some_inBounds m adj _ hwf hf)
          · exact Or.inl he2
        · refine Or.inr ?_
          have hw := set_cell_type_width m adj MazeCell.ACTIVE
          have hh := set_cell_type_height m adj MazeCell.ACTIVE
          unfold inBounds at hib ⊢
          rw [hw, hh] at hib
          exact hib
      · rw [if_neg hg, if_neg hf]
        obtain ⟨g1, g2, g3⟩ := ih m fr fin hwf h1 h2
        exact ⟨g1, g2, g3⟩

/-! ## BFS expansion-loop lemmas -/

theorem BFS.expand_loop_fields_bf (endC : Coordinate) (pos : searched_cell)
    (adjs : List Coordinate) :
    ∀ (m : Maze) (nx : List searched_cell) (fin : Option searched_cell),
      (BFS.expand_loop endC pos m nx fin adjs).1.width = m.width ∧
      (BFS.expand_loop endC pos m nx fin adjs).1.height = m.height ∧
      (BFS.expand_loop endC pos m nx fin adjs).1.start = m.start ∧
      (BFS.expand_loop endC pos m nx fin adjs).1.end_ = m.end_ ∧
      (Maze.WF m → Maze.WF (BFS.expand_loop endC pos m nx fin adjs).1) := by
  induction adjs with
  | nil => intro m nx fin; exact ⟨rfl, rfl, rfl, rfl, id⟩
  | cons adj rest ih =>
    intro m nx fin
    unfold BFS.expand_loop
    by_cases h1 : adj = endC
    · rw [if_pos h1]
      exact ⟨rfl, rfl, rfl, rfl, id⟩
    · by_cases h2 : get_cell_type m adj = some .FLOOR
      · rw [if_neg h1, if_pos h2]
        obtain ⟨w, h, st, en, wf⟩ := ih (set_cell_type m adj .ACTIVE) _ fin
        exact ⟨w.trans (set_cell_type_width _ _ _),
          h.trans (set_cell_type_height _ _ _),
          st.trans (set_cell_type_start _ _ _),
          en.trans (set_cell_type_end _ _ _),
          fun hwf => wf (set_cell_type_WF _ _ _ hwf)⟩
      · rw [if_neg h1, if_neg h2]
        exact ih m nx fin

theorem BFS.expand_loop_cells_bf (endC : Coordinate) (pos : searched_cell)
    (adjs : List Coordinate) :
    ∀ (m : Maze) (nx : List searched_cell) (fin : Option searched_cell)
      (c : Coordinate),
      get_cell_type (BFS.expand_loop endC pos m nx fin adjs).1 c =
        get_cell_type m c ∨
      (c ∈ adjs ∧ get_cell_type m c = some .FLOOR ∧
        get_cell_type (BFS.expand_loop endC pos m nx fin adjs).1 c =
          some .ACTIVE) := by
  induction adjs with
  | nil => intro m nx fin c; exact Or.inl rfl
  | cons adj rest ih =>
    intro m nx fin c
    unfold BFS.expand_loop
    by_cases h1 : adj = endC
    · rw [if_pos h1]
      exact Or.inl rfl
    · by_cases h2 : get_cell_type m adj = some .FLOOR
      · rw [if_neg h1, if_pos h2]
        by_cases hca : c = adj
        · subst hca
          have hm : get_cell_type (set_cell_type m c .ACTIVE) c = some .ACTIVE :=
            get_set_self_of_some m c _ _ h2
          rcases ih (set_cell_type m c .ACTIVE) _ fin c with h3 | ⟨h3, h4, h5⟩
          · exact Or.inr ⟨List.mem_cons_self _ _, h2, h3.trans hm⟩
          · rw [hm] at h4
            exact absurd h4 (by simp)
        · have hm : get_cell_type (set_cell_type m adj .ACTIVE) c =
              get_cell_type m c := get_set_of_ne m adj c _ hca
          rcases ih (set_cell_type m adj .ACTIVE) _ fin c with h3 | ⟨h3, h4, h5⟩
          · exact Or.inl (h3.trans hm)
          · exact Or.inr ⟨List.mem_cons_of_mem _ h3, hm ▸ h4, h5⟩
      · rw [if_neg h1, if_neg h2]
        rcases ih m nx fin c with h3 | ⟨h3, h4, h5⟩
        · exact Or.inl h3
        · exact Or.inr ⟨List.mem_cons_of_mem _ h3, h4, h5⟩

theorem BFS.expand_loop_frontier_bf (endC : Coordinate) (pos : searched_cell)
    (adjs : List Coordinate) :
    ∀ (m : Maze) (nx : List searched_cell) (fin : Option searched_cell),
      Maze.WF m →
      (∀ e ∈ nx, get_cell_type m e.coord = some .ACTIVE) →
      ((nx.map searched_cell.coord).Nodup) →
      (∀ e ∈ (BFS.expand_loop endC pos m nx fin adjs).2.1,
        get_cell_type (BFS.expand_loop endC pos m nx fin adjs).1 e.coord =
          some .ACTIVE) ∧
      ((((BFS.expand_loop endC pos m nx fin adjs).2.1).map
          searched_cell.coord).Nodup) ∧
      (∀ e ∈ (BFS.expand_loop endC pos m nx fin adjs).2.1,
        e ∈ nx ∨ inBounds m e.coord) := by
  induction adjs with
  | nil =>
    intro m nx fin hwf h1 h2
    exact ⟨h1, h2, fun e he => Or.inl he⟩
  | cons adj rest ih =>
    intro m nx fin hwf h1 h2
    unfold BFS.expand_loop
    by_cases hg : adj = endC
    · rw [if_pos hg]
      exact ⟨h1, h2, fun e he => Or.inl he⟩
    · by_cases hf : get_cell_type m adj = some .FLOOR
      · rw [if_neg hg, if_pos hf]
        have hadjfr : ∀ e ∈ nx, e.coord ≠ adj := by
          intro e he hc
          have hx := h1 e he
          rw [hc, hf] at hx
          simp at hx
        have h1' : ∀ e ∈ nx ++ [searched_cell.link adj pos],
            get_cell_type (set_cell_type m adj .ACTIVE) e.coord =
              some .ACTIVE := by
          intro e he
          rcases List.mem_append.mp he with he2 | he2
          · rw [get_set_of_ne m adj _ _ (hadjfr e he2)]
            exact h1 e he2
          · rw [List.mem_singleton.mp he2]
            exact get_set_self_of_some m adj _ _ hf
        have h2' : ((nx ++ [searched_cell.link adj pos]).map
            searched_cell.coord).Nodup := by
          rw [List.map_append]
          rw [List.nodup_append]
          refine ⟨h2, List.nodup_singleton _, ?_⟩
          intro a ha hb
          rcases List.mem_map.mp ha with ⟨e, he, hco⟩
          have : a = adj := by simpa using hb
          exact hadjfr e he (hco.trans this)
        obtain ⟨g1, g2, g3⟩ := ih (set_cell_type m adj .ACTIVE) _ fin
          (set_cell_type_WF _ _ _ hwf) h1' h2'
        refine ⟨g1, g2, fun e he => ?_⟩
        rcases g3 e he with hin | hib
        · rcases List.mem_append.mp hin with he2 | he2
          · exact Or.inl he2
          · rw [List.mem_singleton.mp he2]
            exact Or.inr (get_cell_type_some_inBounds m adj _ hwf hf)
        · refine Or.inr ?_
          have hw := set_cell_type_width m adj MazeCell.ACTIVE
          have hh := set_cell_type_height m adj MazeCell.ACTIVE
          unfold inBounds at hib ⊢
          rw [hw, hh] at hib
          exact hib
      · rw [if_neg hg, if_neg hf]
        obtain ⟨g1, g2, g3⟩ := ih m nx fin hwf h1 h2
        exact ⟨g1, g2, g3⟩

/-! ## Run-level plumbing -/

theorem get_cell_type_isSome_of_inBounds (m : Maze) (c : Coordinate)
    (hwf : Maze.WF m) (hb : inBounds m c) : ∃ t, get_cell_type m c = some t := by
  obtain ⟨hx, hy⟩ := hb
  unfold get_cell_type
  rcases hcol : m.cells[c.x]? with _ | col
  · rw [List.getElem?_eq_none_iff] at hcol
    rw [hwf.1] at hcol
    omega
  · rcases hcell : col[c.y]? with _ | t
    · rw [List.getElem?_eq_none_iff] at hcell
      rw [hwf.2 col (List.getElem?_mem hcol)] at hcell
      omega
    · exact ⟨t, by simp [hcell]⟩

theorem neighbors_width_congr (m m' : Maze) (c : Coordinate)
    (h : m.width = m'.width) :
    get_neighboring_coordinates m c = get_neighboring_coordinates m' c := by
  unfold get_neighboring_coordinates
  rw [h]

theorem GBFS.ended_mono_gb (s : GBFS.State) (h : s.search_ended = true) :
    (GBFS.step s).search_ended = true := by
  rcases hfr : s.search_frontier with _ | ⟨fe, rest⟩
  · simp only [GBFS.step, hfr]
    exact h
  · simp only [GBFS.step, hfr, h]
    simp

theorem ASTAR.ended_mono_as (s : ASTAR.State) (h : s.search_ended = true) :
    (ASTAR.step s).search_ended = true := by
  rcases hfr : s.search_frontier with _ | ⟨fe, rest⟩
  · simp only [ASTAR.step, hfr]
    exact h
  · simp only [ASTAR.step, hfr, h]
    simp

theorem BFS.ended_mono_bf (s : BFS.State) (h : s.search_ended = true) :
    (BFS.step s).search_ended = true := by
  by_cases hc : s.cursor < s.cur.length
  · simp [BFS.step, hc, h]
  · rcases hn : s.next_search_frontier with _ | ⟨p0, rest⟩ <;>
      simp [BFS.step, hc, h, hn]

theorem GBFS.not_ended_of_le_gb (m : Maze) (j k : Nat) (hjk : j ≤ k)
    (h : (GBFS.runSteps k (GBFS.init m)).search_ended = false) :
    (GBFS.runSteps j (GBFS.init m)).search_ended = false := by
  induction k with
  | zero =>
    have : j = 0 := Nat.le_zero.mp hjk
    subst this
    exact h
  | succ k ih =>
    rcases Nat.lt_or_ge j (k + 1) with hj | hj
    · rw [GBFS.runSteps_succ_gb] at h
      refine ih (Nat.lt_succ_iff.mp hj) ?_
      by_contra hc
      rw [Bool.not_eq_false] at hc
      rw [GBFS.ended_mono_gb _ hc] at h
      exact Bool.noConfusion h
    · have : j = k + 1 := le_antisymm hjk hj
      subst this
      exact h

theorem ASTAR.not_ended_of_le_as (m : Maze) (j k : Nat) (hjk : j ≤ k)
    (h : (ASTAR.runSteps k (ASTAR.init m)).search_ended = false) :
    (ASTAR.runSteps j (ASTAR.init m)).search_ended = false := by
  induction k with
  | zero =>
    have : j = 0 := Nat.le_zero.mp hjk
    subst this
    exact h
  | succ k ih =>
    rcases Nat.lt_or_ge j (k + 1) with hj | hj
    · rw [ASTAR.runSteps_succ_as] at h
      refine ih (Nat.lt_succ_iff.mp hj) ?_
      by_contra hc
      rw [Bool.not_eq_false] at hc
      rw [ASTAR.ended_mono_as _ hc] at h
      exact Bool.noConfusion h
    · have : j = k + 1 := le_antisymm hjk hj
      subst this
      exact h

theorem BFS.runSteps_succ_bf (n : Nat) (s : BFS.State) :
    BFS.runSteps (n + 1) s = BFS.step (BFS.runSteps n s) := by
  induction n generalizing s with
  | zero => rfl
  | succ n ih =>
    show BFS.runSteps (n + 1) (BFS.step s) = _
    rw [ih]
    rfl

theorem BFS.not_ended_of_le_bf (m : Maze) (j k : Nat) (hjk : j ≤ k)
    (h : (BFS.runSteps k (BFS.init m)).search_ended = false) :
    (BFS.runSteps j (BFS.init m)).search_ended = false := by
  induction k with
  | zero =>
    have : j = 0 := Nat.le_zero.mp hjk
    subst this
    exact h
  | succ k ih =>
    rcases Nat.lt_or_ge j (k + 1) with hj | hj
    · rw [BFS.runSteps_succ_bf] at h
      refine ih (Nat.lt_succ_iff.mp hj) ?_
      by_contra hc
      rw [Bool.not_eq_false] at hc
      rw [BFS.ended_mono_bf _ hc] at h
      exact Bool.noConfusion h
    · have : j = k + 1 := le_antisymm hjk hj
      subst this
      exact h

theorem GBFS.expandedList_succ_gb (m : Maze) (k : Nat) :
    GBFS.expandedList m (k + 1) =
      GBFS.expandedList m k ++
        (if (GBFS.runSteps k (GBFS.init m)).search_ended then []
         else (GBFS.expandedCoord (GBFS.runSteps k (GBFS.init m))).toList) := by
  unfold GBFS.expandedList
  rw [List.range_succ, List.filterMap_append]
  congr 1
  simp only [List.filterMap_cons, List.filterMap_nil]
  by_cases hend : (GBFS.runSteps k (GBFS.init m)).search_ended
  · simp [hend]
  · rcases hc : GBFS.expandedCoord (GBFS.runSteps k (GBFS.init m)) with _ | c <;>
      simp [hend, hc]

theorem ASTAR.expandedList_succ_as (m : Maze) (k : Nat) :
    ASTAR.expandedList m (k + 1) =
      ASTAR.expandedList m k ++
        (if (ASTAR.runSteps k (ASTAR.init m)).search_ended then []
         else (ASTAR.expandedCoord (ASTAR.runSteps k (ASTAR.init m))).toList) := by
  unfold ASTAR.expandedList
  rw [List.range_succ, List.filterMap_append]
  congr 1
  simp only [List.filterMap_cons, List.filterMap_nil]
  by_cases hend : (ASTAR.runSteps k (ASTAR.init m)).search_ended
  · simp [hend]
  · rcases hc : ASTAR.expandedCoord (ASTAR.runSteps k (ASTAR.init m)) with _ | c <;>
      simp [hend, hc]

theorem BFS.expandedList_succ_bf (m : Maze) (k : Nat) :
    BFS.expandedList m (k + 1) =
      BFS.expandedList m k ++
        (if (BFS.runSteps k (BFS.init m)).search_ended then []
         else (BFS.expandedCoord (BFS.runSteps k (BFS.init m))).toList) := by
  unfold BFS.expandedList
  rw [List.range_succ, List.filterMap_append]
  congr 1
  simp only [List.filterMap_cons, List.filterMap_nil]
  by_cases hend : (BFS.runSteps k (BFS.init m)).search_ended
  · simp [hend]
  · rcases hc : BFS.expandedCoord (BFS.runSteps k (BFS.init m)) with _ | c <;>
      simp [hend, hc]

/-! ## GBFS run invariant -/

theorem GBFS.step_eq_gb (s : GBFS.State) (fe : GBFS.priority_queue_element)
    (rest : List GBFS.priority_queue_element)
    (h : s.search_frontier = fe :: rest) :
    GBFS.step s =
      { maze :=
          if (GBFS.expand_loop (set_cell_type s.maze fe.cell.coord .EXPLORED).end_
                fe.cell (set_cell_type s.maze fe.cell.coord .EXPLORED) rest
                s.final_searched_cell
                (get_neighboring_coordinates
                  (set_cell_type s.maze fe.cell.coord .EXPLORED)
                  fe.cell.coord)).2.2.isSome then
            revert_active
              (GBFS.expand_loop (set_cell_type s.maze fe.cell.coord .EXPLORED).end_
                fe.cell (set_cell_type s.maze fe.cell.coord .EXPLORED) rest
                s.final_searched_cell
                (get_neighboring_coordinates
                  (set_cell_type s.maze fe.cell.coord .EXPLORED)
                  fe.cell.coord)).1
              (get_neighboring_coordinates
                (set_cell_type s.maze fe.cell.coord .EXPLORED) fe.cell.coord)
          else
            (GBFS.expand_loop (set_cell_type s.maze fe.cell.coord .EXPLORED).end_
              fe.cell (set_cell_type s.maze fe.cell.coord .EXPLORED) rest
              s.final_searched_cell
              (get_neighboring_coordinates
                (set_cell_type s.maze fe.cell.coord .EXPLORED)
                fe.cell.coord)).1
        search_frontier :=
          (GBFS.expand_loop (set_cell_type s.maze fe.cell.coord .EXPLORED).end_
            fe.cell (set_cell_type s.maze fe.cell.coord .EXPLORED) rest
            s.final_searched_cell
            (get_neighboring_coordinates
              (set_cell_type s.maze fe.cell.coord .EXPLORED)
              fe.cell.coord)).2.1
        search_ended := s.search_ended ||
          (GBFS.expand_loop (set_cell_type s.maze fe.cell.coord .EXPLORED).end_
            fe.cell (set_cell_type s.maze fe.cell.coord .EXPLORED) rest
            s.final_searched_cell
            (get_neighboring_coordinates
              (set_cell_type s.maze fe.cell.coord .EXPLORED)
              fe.cell.coord)).2.2.isSome ||
          decide
            ((GBFS.expand_loop (set_cell_type s.maze fe.cell.coord .EXPLORED).end_
              fe.cell (set_cell_type s.maze fe.cell.coord .EXPLORED) rest
              s.final_searched_cell
              (get_neighboring_coordinates
                (set_cell_type s.maze fe.cell.coord .EXPLORED)
                fe.cell.coord)).2.1.length = 0)
        final_searched_cell :=
          (GBFS.expand_loop (set_cell_type s.maze fe.cell.coord .EXPLORED).end_
            fe.cell (set_cell_type s.maze fe.cell.coord .EXPLORED) rest
            s.final_searched_cell
            (get_neighboring_coordinates
              (set_cell_type s.maze fe.cell.coord .EXPLORED)
              fe.cell.coord)).2.2 } := by
  simp only [GBFS.step, h]

theorem GBFS.step_invariant_core_gb (m mz : Maze) (fe : GBFS.priority_queue_element)
    (rest : List GBFS.priority_queue_element) (fin : Option searched_cell)
    (E : List Coordinate)
    (hwf : Maze.WF mz) (hw : mz.width = m.width) (hh : mz.height = m.height)
    (hfrA : (∀ e ∈ fe :: rest, get_cell_type mz e.cell.coord = some .ACTIVE) ∨
      (E = [] ∧ rest = [] ∧ fe.cell.coord = m.start))
    (hfrN : ((fe :: rest).map fun e => e.cell.coord).Nodup)
    (hfrB : ∀ e ∈ fe :: rest, inBounds m e.cell.coord)
    (hE : ∀ c ∈ E, inBounds m c ∧ get_cell_type mz c = some .EXPLORED)
    (hEN : E.Nodup) :
    Maze.WF (GBFS.expand_loop (set_cell_type mz fe.cell.coord .EXPLORED).end_
        fe.cell (set_cell_type mz fe.cell.coord .EXPLORED) rest fin
        (get_neighboring_coordinates (set_cell_type mz fe.cell.coord .EXPLORED)
          fe.cell.coord)).1 ∧
    (GBFS.expand_loop (set_cell_type mz fe.cell.coord .EXPLORED).end_
        fe.cell (set_cell_type mz fe.cell.coord .EXPLORED) rest fin
        (get_neighboring_coordinates (set_cell_type mz fe.cell.coord .EXPLORED)
          fe.cell.coord)).1.width = m.width ∧
    (GBFS.expand_loop (set_cell_type mz fe.cell.coord .EXPLORED).end_
        fe.cell (set_cell_type mz fe.cell.coord .EXPLORED) rest fin
        (get_neighboring_coordinates (set_cell_type mz fe.cell.coord .EXPLORED)
          fe.cell.coord)).1.height = m.height ∧
    (∀ e ∈ (GBFS.expand_loop (set_cell_type mz fe.cell.coord .EXPLORED).end_
        fe.cell (set_cell_type mz fe.cell.coord .EXPLORED) rest fin
        (get_neighboring_coordinates (set_cell_type mz fe.cell.coord .EXPLORED)
          fe.cell.coord)).2.1,
      get_cell_type (GBFS.expand_loop
          (set_cell_type mz fe.cell.coord .EXPLORED).end_
          fe.cell (set_cell_type mz fe.cell.coord .EXPLORED) rest fin
          (get_neighboring_coordinates (set_cell_type mz fe.cell.coord .EXPLORED)
            fe.cell.coord)).1 e.cell.coord = some .ACTIVE) ∧
    (((GBFS.expand_loop (set_cell_type mz fe.cell.coord .EXPLORED).end_
        fe.cell (set_cell_type mz fe.cell.coord .EXPLORED) rest fin
        (get_neighboring_coordinates (set_cell_type mz fe.cell.coord .EXPLORED)
          fe.cell.coord)).2.1.map fun e => e.cell.coord).Nodup) ∧
    (∀ e ∈ (GBFS.expand_loop (set_cell_type mz fe.cell.coord .EXPLORED).end_
        fe.cell (set_cell_type mz fe.cell.coord .EXPLORED) rest fin
        (get_neighboring_coordinates (set_cell_type mz fe.cell.coord .EXPLORED)
          fe.cell.coord)).2.1,
      inBounds m e.cell.coord) ∧
    (∀ c ∈ E ++ [fe.cell.coord], inBounds m c ∧
      get_cell_type (GBFS.expand_loop
          (set_cell_type mz fe.cell.coord .EXPLORED).end_
          fe.cell (set_cell_type mz fe.cell.coord .EXPLORED) rest fin
          (get_neighboring_coordinates (set_cell_type mz fe.cell.coord .EXPLORED)
            fe.cell.coord)).1 c = some .EXPLORED) ∧
    (E ++ [fe.cell.coord]).Nodup := by
  have hpB : inBounds m fe.cell.coord := hfrB fe (List.mem_cons_self _ _)
  have hpB2 : inBounds mz fe.cell.coord := by
    unfold inBounds at hpB ⊢
    rw [hw, hh]
    exact hpB
  obtain ⟨t0, hpt⟩ := get_cell_type_isSome_of_inBounds mz fe.cell.coord hwf hpB2
  have hm1p : get_cell_type (set_cell_type mz fe.cell.coord .EXPLORED)
      fe.cell.coord = some .EXPLORED := get_set_self_of_some _ _ _ _ hpt
  have hm1o : ∀ c, c ≠ fe.cell.coord →
      get_cell_type (set_cell_type mz fe.cell.coord .EXPLORED) c =
        get_cell_type mz c := fun c hc => get_set_of_ne _ _ _ _ hc
  have hwf1 : Maze.WF (set_cell_type mz fe.cell.coord .EXPLORED) :=
    set_cell_type_WF _ _ _ hwf
  have hrestA : ∀ e ∈ rest,
      get_cell_type (set_cell_type mz fe.cell.coord .EXPLORED) e.cell.coord =
        some .ACTIVE := by
    rcases hfrA with hA | ⟨hE0, hrnil, hst⟩
    · intro e he
      have hne2 : e.cell.coord ≠ fe.cell.coord := by
        intro hceq
        simp only [List.map_cons, List.nodup_cons] at hfrN
        exact hfrN.1 (hceq ▸ List.mem_map_of_mem _ he)
      rw [hm1o _ hne2]
      exact hA e (List.mem_cons_of_mem _ he)
    · subst hrnil
      intro e he
      exact absurd he (List.not_mem_nil e)
  have hrestN : (rest.map fun e => e.cell.coord).Nodup := by
    simp only [List.map_cons, List.nodup_cons] at hfrN
    exact hfrN.2
  obtain ⟨g1, g2, g3⟩ := GBFS.expand_loop_frontier_gb
    (set_cell_type mz fe.cell.coord .EXPLORED).end_ fe.cell
    (get_neighboring_coordinates (set_cell_type mz fe.cell.coord .EXPLORED)
      fe.cell.coord)
    (set_cell_type mz fe.cell.coord .EXPLORED) rest fin hwf1 hrestA hrestN
  obtain ⟨lw, lh, lst, lend, lwf⟩ := GBFS.expand_loop_fields_gb
    (set_cell_type mz fe.cell.coord .EXPLORED).end_ fe.cell
    (get_neighboring_coordinates (set_cell_type mz fe.cell.coord .EXPLORED)
      fe.cell.coord)
    (set_cell_type mz fe.cell.coord .EXPLORED) rest fin
  have hpE : fe.cell.coord ∉ E := by
    intro hpin
    rcases hfrA with hA | ⟨hE0, -, -⟩
    · have h1 := (hE _ hpin).2
      have h2 := hA fe (List.mem_cons_self _ _)
      rw [h1] at h2
      simp at h2
    · rw [hE0] at hpin
      exact absurd hpin (List.not_mem_nil _)
  refine ⟨lwf hwf1, ?_, ?_, g1, g2, ?_, ?_, ?_⟩
  · rw [lw, set_cell_type_width]
    exact hw
  · rw [lh, set_cell_type_height]
    exact hh
  · intro e he
    rcases g3 e he with hin | hib
    · exact hfrB e (List.mem_cons_of_mem _ hin)
    · unfold inBounds at hib ⊢
      rw [set_cell_type_width, set_cell_type_height, hw, hh] at hib
      exact hib
  · intro c hc
    rcases List.mem_append.mp hc with hcE | hcp
    · refine ⟨(hE c hcE).1, ?_⟩
      have hcnep : c ≠ fe.cell.coord := fun hceq => hpE (hceq ▸ hcE)
      have hcm1 : get_cell_type (set_cell_type mz fe.cell.coord .EXPLORED) c =
          some .EXPLORED := by
        rw [hm1o _ hcnep]
        exact (hE c hcE).2
      rcases GBFS.expand_loop_cells_gb
        (set_cell_type mz fe.cell.coord .EXPLORED).end_ fe.cell
        (get_neighboring_coordinates (set_cell_type mz fe.cell.coord .EXPLORED)
          fe.cell.coord)
        (set_cell_type mz fe.cell.coord .EXPLORED) rest fin c with
        hcc | ⟨-, hfl, -⟩
      · rw [hcc]
        exact hcm1
      · rw [hcm1] at hfl
        exact absurd hfl (by simp)
    · have hcp2 : c = fe.cell.coord := by simpa using hcp
      subst hcp2
      refine ⟨hpB, ?_⟩
      rcases GBFS.expand_loop_cells_gb
        (set_cell_type mz fe.cell.coord .EXPLORED).end_ fe.cell
        (get_neighboring_coordinates (set_cell_type mz fe.cell.coord .EXPLORED)
          fe.cell.coord)
        (set_cell_type mz fe.cell.coord .EXPLORED) rest fin fe.cell.coord with
        hcc | ⟨-, hfl, -⟩
      · rw [hcc]
        exact hm1p
      · rw [hm1p] at hfl
        exact absurd hfl (by simp)
  · rw [List.nodup_append]
    refine ⟨hEN, List.nodup_singleton _, ?_⟩
    intro a ha hb
    have : a = fe.cell.coord := by simpa using hb
    subst this
    exact hpE ha

theorem GBFS.step_parts_gb (s : GBFS.State) (fe : GBFS.priority_queue_element)
    (rest : List GBFS.priority_queue_element)
    (h : s.search_frontier = fe :: rest)
    (hne : (GBFS.step s).search_ended = false) :
    (GBFS.expand_loop (set_cell_type s.maze fe.cell.coord .EXPLORED).end_
        fe.cell (set_cell_type s.maze fe.cell.coord .EXPLORED) rest s.final_searched_cell
        (get_neighboring_coordinates (set_cell_type s.maze fe.cell.coord .EXPLORED)
          fe.cell.coord)).2.2.isSome = false ∧
    (GBFS.step s).maze =
      (GBFS.expand_loop (set_cell_type s.maze fe.cell.coord .EXPLORED).end_
        fe.cell (set_cell_type s.maze fe.cell.coord .EXPLORED) rest s.final_searched_cell
        (get_neighboring_coordinates (set_cell_type s.maze fe.cell.coord .EXPLORED)
          fe.cell.coord)).1 ∧
    (GBFS.step s).search_frontier =
      (GBFS.expand_loop (set_cell_type s.maze fe.cell.coord .EXPLORED).end_
        fe.cell (set_cell_type s.maze fe.cell.coord .EXPLORED) rest s.final_searched_cell
        (get_neighboring_coordinates (set_cell_type s.maze fe.cell.coord .EXPLORED)
          fe.cell.coord)).2.1 ∧
    (GBFS.step s).search_frontier ≠ [] := by
  have hrec := GBFS.step_eq_gb s fe rest h
  rw [hrec] at hne
  simp only [Bool.or_eq_false_iff] at hne
  obtain ⟨⟨hs0, hisome⟩, hlen⟩ := hne
  refine ⟨hisome, ?_, ?_, ?_⟩
  · rw [hrec]
    simp [hisome]
  · rw [hrec]
  · rw [hrec]
    simp only [decide_eq_false_iff_not] at hlen
    intro hnil
    exact hlen (by simpa using congrArg List.length hnil)

theorem GBFS.run_invariant_gb (m : Maze) (hwf : Maze.WF m)
    (hsb : inBounds m m.start) :
    ∀ k, 1 ≤ k → (GBFS.runSteps k (GBFS.init m)).search_ended = false →
      Maze.WF (GBFS.runSteps k (GBFS.init m)).maze ∧
      (GBFS.runSteps k (GBFS.init m)).maze.width = m.width ∧
      (GBFS.runSteps k (GBFS.init m)).maze.height = m.height ∧
      (∀ e ∈ (GBFS.runSteps k (GBFS.init m)).search_frontier,
        get_cell_type (GBFS.runSteps k (GBFS.init m)).maze e.cell.coord =
          some .ACTIVE) ∧
      (((GBFS.runSteps k (GBFS.init m)).search_frontier.map
          fun e => e.cell.coord).Nodup) ∧
      (∀ e ∈ (GBFS.runSteps k (GBFS.init m)).search_frontier,
        inBounds m e.cell.coord) ∧
      (∀ c ∈ GBFS.expandedList m k, inBounds m c ∧
        get_cell_type (GBFS.runSteps k (GBFS.init m)).maze c = some .EXPLORED) ∧
      (GBFS.expandedList m k).Nodup ∧
      (GBFS.expandedList m k).length = k ∧
      (GBFS.runSteps k (GBFS.init m)).search_frontier ≠ [] := by
  intro k
  induction k with
  | zero => intro h1; exact absurd h1 (by omega)
  | succ k ih =>
    intro _ hnotend
    rw [GBFS.runSteps_succ_gb] at hnotend
    have hnek : (GBFS.runSteps k (GBFS.init m)).search_ended = false := by
      by_contra hc
      rw [Bool.not_eq_false] at hc
      rw [GBFS.ended_mono_gb _ hc] at hnotend
      exact Bool.noConfusion hnotend
    rcases hfr : (GBFS.runSteps k (GBFS.init m)).search_frontier
      with _ | ⟨fe, rest⟩
    rotate_left
    · -- the frontier of the state about to step is fe :: rest
      have hexp : GBFS.expandedCoord (GBFS.runSteps k (GBFS.init m)) =
          some fe.cell.coord := by
        unfold GBFS.expandedCoord
        rw [hfr]
        rfl
      have hElist : GBFS.expandedList m (k + 1) =
          GBFS.expandedList m k ++ [fe.cell.coord] := by
        rw [GBFS.expandedList_succ_gb, if_neg (by simp [hnek]), hexp]
        rfl
      obtain ⟨hisome, hmz, hfr2, hfne2⟩ :=
        GBFS.step_parts_gb (GBFS.runSteps k (GBFS.init m)) fe rest hfr hnotend
      -- establish the hypotheses of the core lemma
      have hcore := fun hwfk hw hh hfrA hfrN hfrB hE hEN =>
        GBFS.step_invariant_core_gb m (GBFS.runSteps k (GBFS.init m)).maze fe rest
          (GBFS.runSteps k (GBFS.init m)).final_searched_cell
          (GBFS.expandedList m k) hwfk hw hh hfrA hfrN hfrB hE hEN
      by_cases hk : k = 0
      · subst hk
        have h0 : ([⟨⟨0, sqDist m.start m.end_⟩, .base m.start⟩] :
            List GBFS.priority_queue_element) = fe :: rest := hfr
        injection h0 with h1 h2
        have hfe : fe = ⟨⟨0, sqDist m.start m.end_⟩, .base m.start⟩ := h1.symm
        have hrest : rest = [] := h2.symm
        obtain ⟨c1, c2, c3, c4, c5, c6, c7, c8⟩ := hcore hwf rfl rfl
          (Or.inr ⟨by simp [GBFS.expandedList], hrest, by rw [hfe]; rfl⟩)
          (by rw [hfr] at *; rw [hrest]; simp)
          (by
            intro e he
            rw [hrest] at he
            rcases List.mem_cons.mp he with rfl | he2
            · rw [hfe]; exact hsb
            · exact absurd he2 (List.not_mem_nil e))
          (by intro c hc; exact absurd hc (List.not_mem_nil c))
          List.nodup_nil
        rw [GBFS.runSteps_succ_gb, hElist]
        refine ⟨?_, ?_, ?_, ?_, ?_, ?_, ?_, ?_, ?_, hfne2⟩
        · rw [hmz]; exact c1
        · rw [hmz]; exact c2
        · rw [hmz]; exact c3
        · rw [hfr2, hmz]; exact c4
        · rw [hfr2]; exact c5
        · rw [hfr2]; exact c6
        · rw [hmz]
          exact c7
        · exact c8
        · simp [GBFS.expandedList]
      · have hk1 : 1 ≤ k := Nat.one_le_iff_ne_zero.mpr hk
        obtain ⟨iwf, iw, ihh, iA, iN, iB, iE, iEN, ilen, -⟩ := ih hk1 hnek
        obtain ⟨c1, c2, c3, c4, c5, c6, c7, c8⟩ := hcore iwf iw ihh
          (Or.inl (by rw [← hfr]; exact iA))
          (by rw [← hfr]; exact iN)
          (by rw [← hfr]; exact iB)
          iE iEN
        rw [GBFS.runSteps_succ_gb, hElist]
        refine ⟨?_, ?_, ?_, ?_, ?_, ?_, ?_, ?_, ?_, hfne2⟩
        · rw [hmz]; exact c1
        · rw [hmz]; exact c2
        · rw [hmz]; exact c3
        · rw [hfr2, hmz]; exact c4
        · rw [hfr2]; exact c5
        · rw [hfr2]; exact c6
        · rw [hmz]; exact c7
        · exact c8
        · rw [List.length_append, ilen]
          rfl
    · -- empty frontier contradicts the step not ending
      exfalso
      have : GBFS.step (GBFS.runSteps k (GBFS.init m)) =
          GBFS.runSteps k (GBFS.init m) := by
        have hsrc := hfr
        rcases hsK : GBFS.runSteps k (GBFS.init m) with ⟨mz, frk, ek, fk⟩
        rw [hsK] at hsrc
        simp only at hsrc
        simp only [GBFS.step, hsrc]
      rw [this] at hnotend
      -- the state did not end, yet by induction a non-ended state at k has a
      -- nonempty frontier; for k = 0 the initial frontier is nonempty
      by_cases hk : k = 0
      · subst hk
        have h0 : ([⟨⟨0, sqDist m.start m.end_⟩, .base m.start⟩] :
            List GBFS.priority_queue_element) = [] := hfr
        simp at h0
      · have hk1 : 1 ≤ k := Nat.one_le_iff_ne_zero.mpr hk
        obtain ⟨-, -, -, -, -, -, -, -, -, hfne⟩ := ih hk1 hnek
        exact hfne hfr

/-- A duplicate-free list of coordinates inside a `w × h` box has at most
`w * h` elements. -/
theorem coord_list_length_le (w h : Nat) (l : List Coordinate) (hn : l.Nodup)
    (hb : ∀ c ∈ l, c.x < w ∧ c.y < h) : l.length ≤ w * h := by
  rcases Nat.eq_zero_or_pos h with hz | hpos
  · subst hz
    rcases l with _ | ⟨c, rest⟩
    · simp
    · exact absurd (hb c (List.mem_cons_self _ _)).2 (by omega)
  · have hinj : ∀ c1 ∈ l, ∀ c2 ∈ l,
        c1.x * h + c1.y = c2.x * h + c2.y → c1 = c2 := by
      intro c1 h1 c2 h2 heq
      have hy1 := (hb c1 h1).2
      have hy2 := (hb c2 h2).2
      have hx : c1.x = c2.x := by
        rcases Nat.lt_trichotomy c1.x c2.x with hlt | heqx | hgt
        · have : c1.x * h + c1.y < c2.x * h + c2.y := by
            calc c1.x * h + c1.y < c1.x * h + h := by omega
            _ = (c1.x + 1) * h := by ring
            _ ≤ c2.x * h := Nat.mul_le_mul_right h hlt
            _ ≤ c2.x * h + c2.y := Nat.le_add_right _ _
          omega
        · exact heqx
        · have : c2.x * h + c2.y < c1.x * h + c1.y := by
            calc c2.x * h + c2.y < c2.x * h + h := by omega
            _ = (c2.x + 1) * h := by ring
            _ ≤ c1.x * h := Nat.mul_le_mul_right h hgt
            _ ≤ c1.x * h + c1.y := Nat.le_add_right _ _
          omega
      have hy : c1.y = c2.y := by
        rw [hx] at heq
        omega
      exact (coordinate_eq_iff c1 c2).mpr ⟨hx, hy⟩
    have hmn : (l.map fun c => c.x * h + c.y).Nodup :=
      hn.map_on fun c1 h1 c2 h2 => hinj c1 h1 c2 h2
    have hsub : (l.map fun c => c.x * h + c.y).toFinset ⊆
        Finset.range (w * h) := by
      intro v hv
      rw [List.mem_toFinset] at hv
      rcases List.mem_map.mp hv with ⟨c, hc, rfl⟩
      have hx := (hb c hc).1
      have hy := (hb c hc).2
      rw [Finset.mem_range]
      calc c.x * h + c.y < c.x * h + h := by omega
      _ = (c.x + 1) * h := by ring
      _ ≤ w * h := Nat.mul_le_mul_right h hx
      _ = w * h := rfl
    have hcard := Finset.card_le_card hsub
    rw [Finset.card_range] at hcard
    rw [List.toFinset_card_of_nodup hmn] at hcard
    simpa using hcard

theorem GBFS.expandedList_ok_gb (m : Maze) (hwf : Maze.WF m)
    (hsb : inBounds m m.start) :
    ∀ k, (GBFS.expandedList m k).Nodup ∧
      ∀ c ∈ GBFS.expandedList m k, inBounds m c := by
  intro k
  induction k with
  | zero => simp [GBFS.expandedList]
  | succ k ih =>
    by_cases hend : (GBFS.runSteps k (GBFS.init m)).search_ended = true
    · rw [GBFS.expandedList_succ_gb, if_pos hend]
      simpa using ih
    · rw [Bool.not_eq_true] at hend
      rcases hfr : (GBFS.runSteps k (GBFS.init m)).search_frontier
        with _ | ⟨fe, rest⟩
      · have hexp : GBFS.expandedCoord (GBFS.runSteps k (GBFS.init m)) = none := by
          unfold GBFS.expandedCoord
          rw [hfr]
          rfl
        rw [GBFS.expandedList_succ_gb, if_neg (by simp [hend]), hexp]
        simpa using ih
      · have hexp : GBFS.expandedCoord (GBFS.runSteps k (GBFS.init m)) =
            some fe.cell.coord := by
          unfold GBFS.expandedCoord
          rw [hfr]
          rfl
        rw [GBFS.expandedList_succ_gb, if_neg (by simp [hend]), hexp]
        by_cases hk : k = 0
        · subst hk
          have h0 : ([⟨⟨0, sqDist m.start m.end_⟩, .base m.start⟩] :
              List GBFS.priority_queue_element) = fe :: rest := hfr
          injection h0 with h1 h2
          constructor
          · simp [GBFS.expandedList]
          · intro c hc
            simp only [GBFS.expandedList, List.range_zero, List.filterMap_nil,
              List.nil_append, Option.toList_some, List.mem_singleton] at hc
            rw [hc, ← h1]
            exact hsb
        · have hk1 : 1 ≤ k := Nat.one_le_iff_ne_zero.mpr hk
          obtain ⟨-, -, -, iA, -, iB, iE, iEN, -, -⟩ :=
            GBFS.run_invariant_gb m hwf hsb k hk1 hend
          have hfeA : get_cell_type (GBFS.runSteps k (GBFS.init m)).maze
              fe.cell.coord = some .ACTIVE :=
            iA fe (by rw [hfr]; exact List.mem_cons_self _ _)
          have hpnotE : fe.cell.coord ∉ GBFS.expandedList m k := by
            intro hin
            have := (iE _ hin).2
            rw [this] at hfeA
            exact absurd hfeA (by simp)
          constructor
          · simp only [Option.toList_some]
            rw [List.nodup_append]
            exact ⟨ih.1, List.nodup_singleton _, by
              intro a ha hb
              have : a = fe.cell.coord := by simpa using hb
              subst this
              exact hpnotE ha⟩
          · intro c hc
            rcases List.mem_append.mp hc with hcE | hcp
            · exact ih.2 c hcE
            · have : c = fe.cell.coord := by simpa using hcp
              subst this
              exact iB fe (by rw [hfr]; exact List.mem_cons_self _ _)

theorem GBFS.ended_by_fuel_gb (m : Maze) (hwf : Maze.WF m)
    (hsb : inBounds m m.start) :
    (GBFS.runSteps (m.width * m.height + 1) (GBFS.init m)).search_ended = true := by
  by_contra hc
  rw [Bool.not_eq_true] at hc
  obtain ⟨-, -, -, -, -, -, -, hEN, hlen, -⟩ :=
    GBFS.run_invariant_gb m hwf hsb (m.width * m.height + 1) (by omega) hc
  have hb := (GBFS.expandedList_ok_gb m hwf hsb (m.width * m.height + 1)).2
  have := coord_list_length_le m.width m.height _ hEN fun c hcm => hb c hcm
  omega

theorem GBFS.expandedList_le_gb (m : Maze) (hwf : Maze.WF m)
    (hsb : inBounds m m.start) (k : Nat) :
    (GBFS.expandedList m k).length ≤ m.width * m.height := by
  obtain ⟨hn, hb⟩ := GBFS.expandedList_ok_gb m hwf hsb k
  exact coord_list_length_le m.width m.height _ hn hb

/-! ## A* run invariant -/

theorem ASTAR.step_eq_as (s : ASTAR.State) (fe : ASTAR.priority_queue_length_element)
    (rest : List ASTAR.priority_queue_length_element)
    (h : s.search_frontier = fe :: rest) :
    ASTAR.step s =
      { maze :=
          if (ASTAR.expand_loop (set_cell_type s.maze fe.cell.coord .EXPLORED).end_
                fe (set_cell_type s.maze fe.cell.coord .EXPLORED) rest
                s.final_searched_cell
                (get_neighboring_coordinates
                  (set_cell_type s.maze fe.cell.coord .EXPLORED)
                  fe.cell.coord)).2.2.isSome then
            revert_active
              (ASTAR.expand_loop (set_cell_type s.maze fe.cell.coord .EXPLORED).end_
                fe (set_cell_type s.maze fe.cell.coord .EXPLORED) rest
                s.final_searched_cell
                (get_neighboring_coordinates
                  (set_cell_type s.maze fe.cell.coord .EXPLORED)
                  fe.cell.coord)).1
              (get_neighboring_coordinates
                (set_cell_type s.maze fe.cell.coord .EXPLORED) fe.cell.coord)
          else
            (ASTAR.expand_loop (set_cell_type s.maze fe.cell.coord .EXPLORED).end_
              fe (set_cell_type s.maze fe.cell.coord .EXPLORED) rest
              s.final_searched_cell
              (get_neighboring_coordinates
                (set_cell_type s.maze fe.cell.coord .EXPLORED)
                fe.cell.coord)).1
        search_frontier :=
          (ASTAR.expand_loop (set_cell_type s.maze fe.cell.coord .EXPLORED).end_
            fe (set_cell_type s.maze fe.cell.coord .EXPLORED) rest
            s.final_searched_cell
            (get_neighboring_coordinates
              (set_cell_type s.maze fe.cell.coord .EXPLORED)
              fe.cell.coord)).2.1
        search_ended := s.search_ended ||
          (ASTAR.expand_loop (set_cell_type s.maze fe.cell.coord .EXPLORED).end_
            fe (set_cell_type s.maze fe.cell.coord .EXPLORED) rest
            s.final_searched_cell
            (get_neighboring_coordinates
              (set_cell_type s.maze fe.cell.coord .EXPLORED)
              fe.cell.coord)).2.2.isSome ||
          decide
            ((ASTAR.expand_loop (set_cell_type s.maze fe.cell.coord .EXPLORED).end_
              fe (set_cell_type s.maze fe.cell.coord .EXPLORED) rest
              s.final_searched_cell
              (get_neighboring_coordinates
                (set_cell_type s.maze fe.cell.coord .EXPLORED)
                fe.cell.coord)).2.1.length = 0)
        final_searched_cell :=
          (ASTAR.expand_loop (set_cell_type s.maze fe.cell.coord .EXPLORED).end_
            fe (set_cell_type s.maze fe.cell.coord .EXPLORED) rest
            s.final_searched_cell
            (get_neighboring_coordinates
              (set_cell_type s.maze fe.cell.coord .EXPLORED)
              fe.cell.coord)).2.2 } := by
  simp only [ASTAR.step, h]

theorem ASTAR.step_invariant_core_as (m mz : Maze) (fe : ASTAR.priority_queue_length_element)
    (rest : List ASTAR.priority_queue_length_element) (fin : Option searched_cell)
    (E : List Coordinate)
    (hwf : Maze.WF mz) (hw : mz.width = m.width) (hh : mz.height = m.height)
    (hfrA : (∀ e ∈ fe :: rest, get_cell_type mz e.cell.coord = some .ACTIVE) ∨
      (E = [] ∧ rest = [] ∧ fe.cell.coord = m.start))
    (hfrN : ((fe :: rest).map fun e => e.cell.coord).Nodup)
    (hfrB : ∀ e ∈ fe :: rest, inBounds m e.cell.coord)
    (hE : ∀ c ∈ E, inBounds m c ∧ get_cell_type mz c = some .EXPLORED)
    (hEN : E.Nodup) :
    Maze.WF (ASTAR.expand_loop (set_cell_type mz fe.cell.coord .EXPLORED).end_
        fe (set_cell_type mz fe.cell.coord .EXPLORED) rest fin
        (get_neighboring_coordinates (set_cell_type mz fe.cell.coord .EXPLORED)
          fe.cell.coord)).1 ∧
    (ASTAR.expand_loop (set_cell_type mz fe.cell.coord .EXPLORED).end_
        fe (set_cell_type mz fe.cell.coord .EXPLORED) rest fin
        (get_neighboring_coordinates (set_cell_type mz fe.cell.coord .EXPLORED)
          fe.cell.coord)).1.width = m.width ∧
    (ASTAR.expand_loop (set_cell_type mz fe.cell.coord .EXPLORED).end_
        fe (set_cell_type mz fe.cell.coord .EXPLORED) rest fin
        (get_neighboring_coordinates (set_cell_type mz fe.cell.coord .EXPLORED)
          fe.cell.coord)).1.height = m.height ∧
    (∀ e ∈ (ASTAR.expand_loop (set_cell_type mz fe.cell.coord .EXPLORED).end_
        fe (set_cell_type mz fe.cell.coord .EXPLORED) rest fin
        (get_neighboring_coordinates (set_cell_type mz fe.cell.coord .EXPLORED)
          fe.cell.coord)).2.1,
      get_cell_type (ASTAR.expand_loop
          (set_cell_type mz fe.cell.coord .EXPLORED).end_
          fe (set_cell_type mz fe.cell.coord .EXPLORED) rest fin
          (get_neighboring_coordinates (set_cell_type mz fe.cell.coord .EXPLORED)
            fe.cell.coord)).1 e.cell.coord = some .ACTIVE) ∧
    (((ASTAR.expand_loop (set_cell_type mz fe.cell.coord .EXPLORED).end_
        fe (set_cell_type mz fe.cell.coord .EXPLORED) rest fin
        (get_neighboring_coordinates (set_cell_type mz fe.cell.coord .EXPLORED)
          fe.cell.coord)).2.1.map fun e => e.cell.coord).Nodup) ∧
    (∀ e ∈ (ASTAR.expand_loop (set_cell_type mz fe.cell.coord .EXPLORED).end_
        fe (set_cell_type mz fe.cell.coord .EXPLORED) rest fin
        (get_neighboring_coordinates (set_cell_type mz fe.cell.coord .EXPLORED)
          fe.cell.coord)).2.1,
      inBounds m e.cell.coord) ∧
    (∀ c ∈ E ++ [fe.cell.coord], inBounds m c ∧
      get_cell_type (ASTAR.expand_loop
          (set_cell_type mz fe.cell.coord .EXPLORED).end_
          fe (set_cell_type mz fe.cell.coord .EXPLORED) rest fin
          (get_neighboring_coordinates (set_cell_type mz fe.cell.coord .EXPLORED)
            fe.cell.coord)).1 c = some .EXPLORED) ∧
    (E ++ [fe.cell.coord]).Nodup := by
  have hpB : inBounds m fe.cell.coord := hfrB fe (List.mem_cons_self _ _)
  have hpB2 : inBounds mz fe.cell.coord := by
    unfold inBounds at hpB ⊢
    rw [hw, hh]
    exact hpB
  obtain ⟨t0, hpt⟩ := get_cell_type_isSome_of_inBounds mz fe.cell.coord hwf hpB2
  have hm1p : get_cell_type (set_cell_type mz fe.cell.coord .EXPLORED)
      fe.cell.coord = some .EXPLORED := get_set_self_of_some _ _ _ _ hpt
  have hm1o : ∀ c, c ≠ fe.cell.coord →
      get_cell_type (set_cell_type mz fe.cell.coord .EXPLORED) c =
        get_cell_type mz c := fun c hc => get_set_of_ne _ _ _ _ hc
  have hwf1 : Maze.WF (set_cell_type mz fe.cell.coord .EXPLORED) :=
    set_cell_type_WF _ _ _ hwf
  have hrestA : ∀ e ∈ rest,
      get_cell_type (set_cell_type mz fe.cell.coord .EXPLORED) e.cell.coord =
        some .ACTIVE := by
    rcases hfrA with hA | ⟨hE0, hrnil, hst⟩
    · intro e he
      have hne2 : e.cell.coord ≠ fe.cell.coord := by
        intro hceq
        simp only [List.map_cons, List.nodup_cons] at hfrN
        exact hfrN.1 (hceq ▸ List.mem_map_of_mem _ he)
      rw [hm1o _ hne2]
      exact hA e (List.mem_cons_of_mem _ he)
    · subst hrnil
      intro e he
      exact absurd he (List.not_mem_nil e)
  have hrestN : (rest.map fun e => e.cell.coord).Nodup := by
    simp only [List.map_cons, List.nodup_cons] at hfrN
    exact hfrN.2
  obtain ⟨g1, g2, g3⟩ := ASTAR.expand_loop_frontier_as
    (set_cell_type mz fe.cell.coord .EXPLORED).end_ fe
    (get_neighboring_coordinates (set_cell_type mz fe.cell.coord .EXPLORED)
      fe.cell.coord)
    (set_cell_type mz fe.cell.coord .EXPLORED) rest fin hwf1 hrestA hrestN
  obtain ⟨lw, lh, lst, lend, lwf⟩ := ASTAR.expand_loop_fields_as
    (set_cell_type mz fe.cell.coord .EXPLORED).end_ fe
    (get_neighboring_coordinates (set_cell_type mz fe.cell.coord .EXPLORED)
      fe.cell.coord)
    (set_cell_type mz fe.cell.coord .EXPLORED) rest fin
  have hpE : fe.cell.coord ∉ E := by
    intro hpin
    rcases hfrA with hA | ⟨hE0, -, -⟩
    · have h1 := (hE _ hpin).2
      have h2 := hA fe (List.mem_cons_self _ _)
      rw [h1] at h2
      simp at h2
    · rw [hE0] at hpin
      exact absurd hpin (List.not_mem_nil _)
  refine ⟨lwf hwf1, ?_, ?_, g1, g2, ?_, ?_, ?_⟩
  · rw [lw, set_cell_type_width]
    exact hw
  · rw [lh, set_cell_type_height]
    exact hh
  · intro e he
    rcases g3 e he with hin | hib
    · exact hfrB e (List.mem_cons_of_mem _ hin)
    · unfold inBounds at hib ⊢
      rw [set_cell_type_width, set_cell_type_height, hw, hh] at hib
      exact hib
  · intro c hc
    rcases List.mem_append.mp hc with hcE | hcp
    · refine ⟨(hE c hcE).1, ?_⟩
      have hcnep : c ≠ fe.cell.coord := fun hceq => hpE (hceq ▸ hcE)
      have hcm1 : get_cell_type (set_cell_type mz fe.cell.coord .EXPLORED) c =
          some .EXPLORED := by
        rw [hm1o _ hcnep]
        exact (hE c hcE).2
      rcases ASTAR.expand_loop_cells_as
        (set_cell_type mz fe.cell.coord .EXPLORED).end_ fe
        (get_neighboring_coordinates (set_cell_type mz fe.cell.coord .EXPLORED)
          fe.cell.coord)
        (set_cell_type mz fe.cell.coord .EXPLORED) rest fin c with
        hcc | ⟨-, hfl, -⟩
      · rw [hcc]
        exact hcm1
      · rw [hcm1] at hfl
        exact absurd hfl (by simp)
    · have hcp2 : c = fe.cell.coord := by simpa using hcp
      subst hcp2
      refine ⟨hpB, ?_⟩
      rcases ASTAR.expand_loop_cells_as
        (set_cell_type mz fe.cell.coord .EXPLORED).end_ fe
        (get_neighboring_coordinates (set_cell_type mz fe.cell.coord .EXPLORED)
          fe.cell.coord)
        (set_cell_type mz fe.cell.coord .EXPLORED) rest fin fe.cell.coord with
        hcc | ⟨-, hfl, -⟩
      · rw [hcc]
        exact hm1p
      · rw [hm1p] at hfl
        exact absurd hfl (by simp)
  · rw [List.nodup_append]
    refine ⟨hEN, List.nodup_singleton _, ?_⟩
    intro a ha hb
    have : a = fe.cell.coord := by simpa using hb
    subst this
    exact hpE ha

theorem ASTAR.step_parts_as (s : ASTAR.State) (fe : ASTAR.priority_queue_length_element)
    (rest : List ASTAR.priority_queue_length_element)
    (h : s.search_frontier = fe :: rest)
    (hne : (ASTAR.step s).search_ended = false) :
    (ASTAR.expand_loop (set_cell_type s.maze fe.cell.coord .EXPLORED).end_
        fe (set_cell_type s.maze fe.cell.coord .EXPLORED) rest s.final_searched_cell
        (get_neighboring_coordinates (set_cell_type s.maze fe.cell.coord .EXPLORED)
          fe.cell.coord)).2.2.isSome = false ∧
    (ASTAR.step s).maze =
      (ASTAR.expand_loop (set_cell_type s.maze fe.cell.coord .EXPLORED).end_
        fe (set_cell_type s.maze fe.cell.coord .EXPLORED) rest s.final_searched_cell
        (get_neighboring_coordinates (set_cell_type s.maze fe.cell.coord .EXPLORED)
          fe.cell.coord)).1 ∧
    (ASTAR.step s).search_frontier =
      (ASTAR.expand_loop (set_cell_type s.maze fe.cell.coord .EXPLORED).end_
        fe (set_cell_type s.maze fe.cell.coord .EXPLORED) rest s.final_searched_cell
        (get_neighboring_coordinates (set_cell_type s.maze fe.cell.coord .EXPLORED)
          fe.cell.coord)).2.1 ∧
    (ASTAR.step s).search_frontier ≠ [] := by
  have hrec := ASTAR.step_eq_as s fe rest h
  rw [hrec] at hne
  simp only [Bool.or_eq_false_iff] at hne
  obtain ⟨⟨hs0, hisome⟩, hlen⟩ := hne
  refine ⟨hisome, ?_, ?_, ?_⟩
  · rw [hrec]
    simp [hisome]
  · rw [hrec]
  · rw [hrec]
    simp only [decide_eq_false_iff_not] at hlen
    intro hnil
    exact hlen (by simpa using congrArg List.length hnil)

theorem ASTAR.run_invariant_as (m : Maze) (hwf : Maze.WF m)
    (hsb : inBounds m m.start) :
    ∀ k, 1 ≤ k → (ASTAR.runSteps k (ASTAR.init m)).search_ended = false →
      Maze.WF (ASTAR.runSteps k (ASTAR.init m)).maze ∧
      (ASTAR.runSteps k (ASTAR.init m)).maze.width = m.width ∧
      (ASTAR.runSteps k (ASTAR.init m)).maze.height = m.height ∧
      (∀ e ∈ (ASTAR.runSteps k (ASTAR.init m)).search_frontier,
        get_cell_type (ASTAR.runSteps k (ASTAR.init m)).maze e.cell.coord =
          some .ACTIVE) ∧
      (((ASTAR.runSteps k (ASTAR.init m)).search_frontier.map
          fun e => e.cell.coord).Nodup) ∧
      (∀ e ∈ (ASTAR.runSteps k (ASTAR.init m)).search_frontier,
        inBounds m e.cell.coord) ∧
      (∀ c ∈ ASTAR.expandedList m k, inBounds m c ∧
        get_cell_type (ASTAR.runSteps k (ASTAR.init m)).maze c = some .EXPLORED) ∧
      (ASTAR.expandedList m k).Nodup ∧
      (ASTAR.expandedList m k).length = k ∧
      (ASTAR.runSteps k (ASTAR.init m)).search_frontier ≠ [] := by
  intro k
  induction k with
  | zero => intro h1; exact absurd h1 (by omega)
  | succ k ih =>
    intro _ hnotend
    rw [ASTAR.runSteps_succ_as] at hnotend
    have hnek : (ASTAR.runSteps k (ASTAR.init m)).search_ended = false := by
      by_contra hc
      rw [Bool.not_eq_false] at hc
      rw [ASTAR.ended_mono_as _ hc] at hnotend
      exact Bool.noConfusion hnotend
    rcases hfr : (ASTAR.runSteps k (ASTAR.init m)).search_frontier
      with _ | ⟨fe, rest⟩
    rotate_left
    · -- the frontier of the state about to step is fe :: rest
      have hexp : ASTAR.expandedCoord (ASTAR.runSteps k (ASTAR.init m)) =
          some fe.cell.coord := by
        unfold ASTAR.expandedCoord
        rw [hfr]
        rfl
      have hElist : ASTAR.expandedList m (k + 1) =
          ASTAR.expandedList m k ++ [fe.cell.coord] := by
        rw [ASTAR.expandedList_succ_as, if_neg (by simp [hnek]), hexp]
        rfl
      obtain ⟨hisome, hmz, hfr2, hfne2⟩ :=
        ASTAR.step_parts_as (ASTAR.runSteps k (ASTAR.init m)) fe rest hfr hnotend
      -- establish the hypotheses of the core lemma
      have hcore := fun hwfk hw hh hfrA hfrN hfrB hE hEN =>
        ASTAR.step_invariant_core_as m (ASTAR.runSteps k (ASTAR.init m)).maze fe rest
          (ASTAR.runSteps k (ASTAR.init m)).final_searched_cell
          (ASTAR.expandedList m k) hwfk hw hh hfrA hfrN hfrB hE hEN
      by_cases hk : k = 0
      · subst hk
        have h0 : ([⟨⟨0, sqDist m.start m.end_⟩, .base m.start, 0⟩] :
            List ASTAR.priority_queue_length_element) = fe :: rest := hfr
        injection h0 with h1 h2
        have hfe : fe = ⟨⟨0, sqDist m.start m.end_⟩, .base m.start, 0⟩ := h1.symm
        have hrest : rest = [] := h2.symm
        obtain ⟨c1, c2, c3, c4, c5, c6, c7, c8⟩ := hcore hwf rfl rfl
          (Or.inr ⟨by simp [ASTAR.expandedList], hrest, by rw [hfe]; rfl⟩)
          (by rw [hfr] at *; rw [hrest]; simp)
          (by
            intro e he
            rw [hrest] at he
            rcases List.mem_cons.mp he with rfl | he2
            · rw [hfe]; exact hsb
            · exact absurd he2 (List.not_mem_nil e))
          (by intro c hc; exact absurd hc (List.not_mem_nil c))
          List.nodup_nil
        rw [ASTAR.runSteps_succ_as, hElist]
        refine ⟨?_, ?_, ?_, ?_, ?_, ?_, ?_, ?_, ?_, hfne2⟩
        · rw [hmz]; exact c1
        · rw [hmz]; exact c2
        · rw [hmz]; exact c3
        · rw [hfr2, hmz]; exact c4
        · rw [hfr2]; exact c5
        · rw [hfr2]; exact c6
        · rw [hmz]
          exact c7
        · exact c8
        · simp [ASTAR.expandedList]
      · have hk1 : 1 ≤ k := Nat.one_le_iff_ne_zero.mpr hk
        obtain ⟨iwf, iw, ihh, iA, iN, iB, iE, iEN, ilen, -⟩ := ih hk1 hnek
        obtain ⟨c1, c2, c3, c4, c5, c6, c7, c8⟩ := hcore iwf iw ihh
          (Or.inl (by rw [← hfr]; exact iA))
          (by rw [← hfr]; exact iN)
          (by rw [← hfr]; exact iB)
          iE iEN
        rw [ASTAR.runSteps_succ_as, hElist]
        refine ⟨?_, ?_, ?_, ?_, ?_, ?_, ?_, ?_, ?_, hfne2⟩
        · rw [hmz]; exact c1
        · rw [hmz]; exact c2
        · rw [hmz]; exact c3
        · rw [hfr2, hmz]; exact c4
        · rw [hfr2]; exact c5
        · rw [hfr2]; exact c6
        · rw [hmz]; exact c7
        · exact c8
        · rw [List.length_append, ilen]
          rfl
    · -- empty frontier contradicts the step not ending
      exfalso
      have : ASTAR.step (ASTAR.runSteps k (ASTAR.init m)) =
          ASTAR.runSteps k (ASTAR.init m) := by
        have hsrc := hfr
        rcases hsK : ASTAR.runSteps k (ASTAR.init m) with ⟨mz, frk, ek, fk⟩
        rw [hsK] at hsrc
        simp only at hsrc
        simp only [ASTAR.step, hsrc]
      rw [this] at hnotend
      -- the state did not end, yet by induction a non-ended state at k has a
      -- nonempty frontier; for k = 0 the initial frontier is nonempty
      by_cases hk : k = 0
      · subst hk
        have h0 : ([⟨⟨0, sqDist m.start m.end_⟩, .base m.start, 0⟩] :
            List ASTAR.priority_queue_length_element) = [] := hfr
        simp at h0
      · have hk1 : 1 ≤ k := Nat.one_le_iff_ne_zero.mpr hk
        obtain ⟨-, -, -, -, -, -, -, -, -, hfne⟩ := ih hk1 hnek
        exact hfne hfr

theorem ASTAR.expandedList_ok_as (m : Maze) (hwf : Maze.WF m)
    (hsb : inBounds m m.start) :
    ∀ k, (ASTAR.expandedList m k).Nodup ∧
      ∀ c ∈ ASTAR.expandedList m k, inBounds m c := by
  intro k
  induction k with
  | zero => simp [ASTAR.expandedList]
  | succ k ih =>
    by_cases hend : (ASTAR.runSteps k (ASTAR.init m)).search_ended = true
    · rw [ASTAR.expandedList_succ_as, if_pos hend]
      simpa using ih
    · rw [Bool.not_eq_true] at hend
      rcases hfr : (ASTAR.runSteps k (ASTAR.init m)).search_frontier
        with _ | ⟨fe, rest⟩
      · have hexp : ASTAR.expandedCoord (ASTAR.runSteps k (ASTAR.init m)) = none := by
          unfold ASTAR.expandedCoord
          rw [hfr]
          rfl
        rw [ASTAR.expandedList_succ_as, if_neg (by simp [hend]), hexp]
        simpa using ih
      · have hexp : ASTAR.expandedCoord (ASTAR.runSteps k (ASTAR.init m)) =
            some fe.cell.coord := by
          unfold ASTAR.expandedCoord
          rw [hfr]
          rfl
        rw [ASTAR.expandedList_succ_as, if_neg (by simp [hend]), hexp]
        by_cases hk : k = 0
        · subst hk
          have h0 : ([⟨⟨0, sqDist m.start m.end_⟩, .base m.start, 0⟩] :
              List ASTAR.priority_queue_length_element) = fe :: rest := hfr
          injection h0 with h1 h2
          constructor
          · simp [ASTAR.expandedList]
          · intro c hc
            simp only [ASTAR.expandedList, List.range_zero, List.filterMap_nil,
              List.nil_append, Option.toList_some, List.mem_singleton] at hc
            rw [hc, ← h1]
            exact hsb
        · have hk1 : 1 ≤ k := Nat.one_le_iff_ne_zero.mpr hk
          obtain ⟨-, -, -, iA, -, iB, iE, iEN, -, -⟩ :=
            ASTAR.run_invariant_as m hwf hsb k hk1 hend
          have hfeA : get_cell_type (ASTAR.runSteps k (ASTAR.init m)).maze
              fe.cell.coord = some .ACTIVE :=
            iA fe (by rw [hfr]; exact List.mem_cons_self _ _)
          have hpnotE : fe.cell.coord ∉ ASTAR.expandedList m k := by
            intro hin
            have := (iE _ hin).2
            rw [this] at hfeA
            exact absurd hfeA (by simp)
          constructor
          · simp only [Option.toList_some]
            rw [List.nodup_append]
            exact ⟨ih.1, List.nodup_singleton _, by
              intro a ha hb
              have : a = fe.cell.coord := by simpa using hb
              subst this
              exact hpnotE ha⟩
          · intro c hc
            rcases List.mem_append.mp hc with hcE | hcp
            · exact ih.2 c hcE
            · have : c = fe.cell.coord := by simpa using hcp
              subst this
              exact iB fe (by rw [hfr]; exact List.mem_cons_self _ _)

theorem ASTAR.ended_by_fuel_as (m : Maze) (hwf : Maze.WF m)
    (hsb : inBounds m m.start) :
    (ASTAR.runSteps (m.width * m.height + 1) (ASTAR.init m)).search_ended = true := by
  by_contra hc
  rw [Bool.not_eq_true] at hc
  obtain ⟨-, -, -, -, -, -, -, hEN, hlen, -⟩ :=
    ASTAR.run_invariant_as m hwf hsb (m.width * m.height + 1) (by omega) hc
  have hb := (ASTAR.expandedList_ok_as m hwf hsb (m.width * m.height + 1)).2
  have := coord_list_length_le m.width m.height _ hEN fun c hcm => hb c hcm
  omega

theorem ASTAR.expandedList_le_as (m : Maze) (hwf : Maze.WF m)
    (hsb : inBounds m m.start) (k : Nat) :
    (ASTAR.expandedList m k).length ≤ m.width * m.height := by
  obtain ⟨hn, hb⟩ := ASTAR.expandedList_ok_as m hwf hsb k
  exact coord_list_length_le m.width m.height _ hn hb

/-! ## BFS run invariant -/

theorem BFS.expand_loop_mem_floor (endC : Coordinate) (pos : searched_cell)
    (adjs : List Coordinate) :
    ∀ (m : Maze) (nx : List searched_cell) (fin : Option searched_cell),
      ∀ e ∈ (BFS.expand_loop endC pos m nx fin adjs).2.1,
        e ∈ nx ∨ get_cell_type m e.coord = some .FLOOR := by
  induction adjs with
  | nil => intro m nx fin e he; exact Or.inl he
  | cons adj rest ih =>
    intro m nx fin e he
    unfold BFS.expand_loop at he
    by_cases h1 : adj = endC
    · rw [if_pos h1] at he
      exact Or.inl he
    · by_cases h2 : get_cell_type m adj = some .FLOOR
      · rw [if_neg h1, if_pos h2] at he
        rcases ih _ _ _ e he with hin | hfl
        · rcases List.mem_append.mp hin with he2 | he2
          · exact Or.inl he2
          · rw [List.mem_singleton.mp he2]
            exact Or.inr h2
        · by_cases hca : e.coord = adj
          · exact Or.inr (hca ▸ h2)
          · rw [get_set_of_ne m adj _ _ hca] at hfl
            exact Or.inr hfl
      · rw [if_neg h1, if_neg h2] at he
        rcases ih _ _ _ e he with hin | hfl
        · exact Or.inl hin
        · exact Or.inr hfl

theorem BFS.expand_eq (s : BFS.State) (p : searched_cell) :
    BFS.expand s p =
      { s with
          maze :=
            if (BFS.expand_loop (set_cell_type s.maze p.coord .EXPLORED).end_ p
                  (set_cell_type s.maze p.coord .EXPLORED)
                  s.next_search_frontier s.final_searched_cell
                  (get_neighboring_coordinates
                    (set_cell_type s.maze p.coord .EXPLORED)
                    p.coord)).2.2.isSome then
              revert_active
                (BFS.expand_loop (set_cell_type s.maze p.coord .EXPLORED).end_ p
                  (set_cell_type s.maze p.coord .EXPLORED)
                  s.next_search_frontier s.final_searched_cell
                  (get_neighboring_coordinates
                    (set_cell_type s.maze p.coord .EXPLORED) p.coord)).1
                (get_neighboring_coordinates
                  (set_cell_type s.maze p.coord .EXPLORED) p.coord)
            else
              (BFS.expand_loop (set_cell_type s.maze p.coord .EXPLORED).end_ p
                (set_cell_type s.maze p.coord .EXPLORED)
                s.next_search_frontier s.final_searched_cell
                (get_neighboring_coordinates
                  (set_cell_type s.maze p.coord .EXPLORED) p.coord)).1
          next_search_frontier :=
            (BFS.expand_loop (set_cell_type s.maze p.coord .EXPLORED).end_ p
              (set_cell_type s.maze p.coord .EXPLORED)
              s.next_search_frontier s.final_searched_cell
              (get_neighboring_coordinates
                (set_cell_type s.maze p.coord .EXPLORED) p.coord)).2.1
          search_ended := s.search_ended ||
            (BFS.expand_loop (set_cell_type s.maze p.coord .EXPLORED).end_ p
              (set_cell_type s.maze p.coord .EXPLORED)
              s.next_search_frontier s.final_searched_cell
              (get_neighboring_coordinates
                (set_cell_type s.maze p.coord .EXPLORED) p.coord)).2.2.isSome
          final_searched_cell :=
            (BFS.expand_loop (set_cell_type s.maze p.coord .EXPLORED).end_ p
              (set_cell_type s.maze p.coord .EXPLORED)
              s.next_search_frontier s.final_searched_cell
              (get_neighboring_coordinates
                (set_cell_type s.maze p.coord .EXPLORED) p.coord)).2.2 } := by
  simp only [BFS.expand]

theorem BFS.step_cases (s : BFS.State) (hne : s.search_ended = false)
    (hne2 : (BFS.step s).search_ended = false) :
    ∃ (p : searched_cell) (dropPart nx : List searched_cell),
      s.cur.drop s.cursor ++ s.next_search_frontier = p :: (dropPart ++ nx) ∧
      BFS.expandedCoord s = some p.coord ∧
      (BFS.expand_loop (set_cell_type s.maze p.coord .EXPLORED).end_ p
        (set_cell_type s.maze p.coord .EXPLORED) nx s.final_searched_cell
        (get_neighboring_coordinates (set_cell_type s.maze p.coord .EXPLORED)
          p.coord)).2.2.isSome = false ∧
      (BFS.step s).maze =
        (BFS.expand_loop (set_cell_type s.maze p.coord .EXPLORED).end_ p
          (set_cell_type s.maze p.coord .EXPLORED) nx s.final_searched_cell
          (get_neighboring_coordinates (set_cell_type s.maze p.coord .EXPLORED)
            p.coord)).1 ∧
      (BFS.step s).cur.drop (BFS.step s).cursor ++
          (BFS.step s).next_search_frontier =
        dropPart ++
          (BFS.expand_loop (set_cell_type s.maze p.coord .EXPLORED).end_ p
            (set_cell_type s.maze p.coord .EXPLORED) nx s.final_searched_cell
            (get_neighboring_coordinates
              (set_cell_type s.maze p.coord .EXPLORED) p.coord)).2.1 := by
  obtain ⟨mz, cur, cursor, nx0, se, fc⟩ := s
  simp only at hne
  subst hne
  by_cases hc : cursor < cur.length
  · have hstep : BFS.step ⟨mz, cur, cursor, nx0, false, fc⟩ =
        BFS.expand ⟨mz, cur, cursor + 1, nx0, false, fc⟩
          (cur.get ⟨cursor, hc⟩) := by
      simp only [BFS.step]
      rw [dif_pos hc, if_neg Bool.false_ne_true]
    refine ⟨cur.get ⟨cursor, hc⟩, cur.drop (cursor + 1), nx0, ?_, ?_, ?_, ?_, ?_⟩
    · show cur.drop cursor ++ nx0 = _
      rw [List.drop_eq_getElem_cons hc]
      rfl
    · show BFS.expandedCoord ⟨mz, cur, cursor, nx0, false, fc⟩ = _
      unfold BFS.expandedCoord
      rw [dif_pos hc]
    · rw [hstep, BFS.expand_eq] at hne2
      simp only [Bool.or_eq_false_iff] at hne2
      exact hne2.2
    · rw [hstep, BFS.expand_eq] at hne2 ⊢
      simp only [Bool.or_eq_false_iff] at hne2
      show (if _ = true then _ else _) = _
      rw [hne2.2, if_neg Bool.false_ne_true]
    · rw [hstep, BFS.expand_eq]
  · rcases hn : nx0 with _ | ⟨p0, restN⟩
    · exfalso
      subst hn
      have hstep : BFS.step ⟨mz, cur, cursor, [], false, fc⟩ =
          ⟨mz, [], 0, [], true, fc⟩ := by
        simp only [BFS.step]
        rw [dif_neg hc]
        rfl
      rw [hstep] at hne2
      exact Bool.noConfusion hne2
    · subst hn
      have hstep : BFS.step ⟨mz, cur, cursor, p0 :: restN, false, fc⟩ =
          BFS.expand ⟨mz, p0 :: restN, 1, [], false, fc⟩ p0 := by
        simp only [BFS.step]
        rw [dif_neg hc]
        rfl
      refine ⟨p0, restN, [], ?_, ?_, ?_, ?_, ?_⟩
      · show cur.drop cursor ++ (p0 :: restN) = p0 :: (restN ++ [])
        rw [List.drop_eq_nil_of_le (le_of_not_lt hc)]
        simp
      · show BFS.expandedCoord ⟨mz, cur, cursor, p0 :: restN, false, fc⟩ = _
        unfold BFS.expandedCoord
        rw [dif_neg hc]
        rfl
      · rw [hstep, BFS.expand_eq] at hne2
        simp only [Bool.or_eq_false_iff] at hne2
        exact hne2.2
      · rw [hstep, BFS.expand_eq] at hne2 ⊢
        simp only [Bool.or_eq_false_iff] at hne2
        show (if _ = true then _ else _) = _
        rw [hne2.2, if_neg Bool.false_ne_true]
      · rw [hstep, BFS.expand_eq]
        show restN ++ _ = restN ++ _
        rfl

theorem BFS.step_invariant_core_bf (m mz : Maze) (p : searched_cell)
    (dropPart nx : List searched_cell) (fin : Option searched_cell)
    (E : List Coordinate)
    (hwf : Maze.WF mz) (hw : mz.width = m.width) (hh : mz.height = m.height)
    (hfrA : (∀ e ∈ p :: (dropPart ++ nx),
        get_cell_type mz e.coord = some .ACTIVE) ∨
      (E = [] ∧ dropPart = [] ∧ nx = [] ∧ p.coord = m.start))
    (hfrN : ((p :: (dropPart ++ nx)).map searched_cell.coord).Nodup)
    (hfrB : ∀ e ∈ p :: (dropPart ++ nx), inBounds m e.coord)
    (hE : ∀ c ∈ E, inBounds m c ∧ get_cell_type mz c = some .EXPLORED)
    (hEN : E.Nodup) :
    Maze.WF (BFS.expand_loop (set_cell_type mz p.coord .EXPLORED).end_ p
        (set_cell_type mz p.coord .EXPLORED) nx fin
        (get_neighboring_coordinates (set_cell_type mz p.coord .EXPLORED)
          p.coord)).1 ∧
    (BFS.expand_loop (set_cell_type mz p.coord .EXPLORED).end_ p
        (set_cell_type mz p.coord .EXPLORED) nx fin
        (get_neighboring_coordinates (set_cell_type mz p.coord .EXPLORED)
          p.coord)).1.width = m.width ∧
    (BFS.expand_loop (set_cell_type mz p.coord .EXPLORED).end_ p
        (set_cell_type mz p.coord .EXPLORED) nx fin
        (get_neighboring_coordinates (set_cell_type mz p.coord .EXPLORED)
          p.coord)).1.height = m.height ∧
    (∀ e ∈ dropPart ++ (BFS.expand_loop (set_cell_type mz p.coord .EXPLORED).end_ p
        (set_cell_type mz p.coord .EXPLORED) nx fin
        (get_neighboring_coordinates (set_cell_type mz p.coord .EXPLORED)
          p.coord)).2.1,
      get_cell_type (BFS.expand_loop (set_cell_type mz p.coord .EXPLORED).end_ p
        (set_cell_type mz p.coord .EXPLORED) nx fin
        (get_neighboring_coordinates (set_cell_type mz p.coord .EXPLORED)
          p.coord)).1 e.coord = some .ACTIVE) ∧
    (((dropPart ++ (BFS.expand_loop (set_cell_type mz p.coord .EXPLORED).end_ p
        (set_cell_type mz p.coord .EXPLORED) nx fin
        (get_neighboring_coordinates (set_cell_type mz p.coord .EXPLORED)
          p.coord)).2.1).map searched_cell.coord).Nodup) ∧
    (∀ e ∈ dropPart ++ (BFS.expand_loop (set_cell_type mz p.coord .EXPLORED).end_ p
        (set_cell_type mz p.coord .EXPLORED) nx fin
        (get_neighboring_coordinates (set_cell_type mz p.coord .EXPLORED)
          p.coord)).2.1, inBounds m e.coord) ∧
    (∀ c ∈ E ++ [p.coord], inBounds m c ∧
      get_cell_type (BFS.expand_loop (set_cell_type mz p.coord .EXPLORED).end_ p
        (set_cell_type mz p.coord .EXPLORED) nx fin
        (get_neighboring_coordinates (set_cell_type mz p.coord .EXPLORED)
          p.coord)).1 c = some .EXPLORED) ∧
    (E ++ [p.coord]).Nodup := by
  have hpB : inBounds m p.coord := hfrB p (List.mem_cons_self _ _)
  have hpB2 : inBounds mz p.coord := by
    unfold inBounds at hpB ⊢
    rw [hw, hh]
    exact hpB
  obtain ⟨t0, hpt⟩ := get_cell_type_isSome_of_inBounds mz p.coord hwf hpB2
  have hm1p : get_cell_type (set_cell_type mz p.coord .EXPLORED) p.coord =
      some .EXPLORED := get_set_self_of_some _ _ _ _ hpt
  have hm1o : ∀ c, c ≠ p.coord →
      get_cell_type (set_cell_type mz p.coord .EXPLORED) c =
        get_cell_type mz c := fun c hc => get_set_of_ne _ _ _ _ hc
  have hwf1 : Maze.WF (set_cell_type mz p.coord .EXPLORED) :=
    set_cell_type_WF _ _ _ hwf
  have hheadN : p.coord ∉ (dropPart ++ nx).map searched_cell.coord := by
    simp only [List.map_cons, List.nodup_cons] at hfrN
    exact hfrN.1
  have htailN : ((dropPart ++ nx).map searched_cell.coord).Nodup := by
    simp only [List.map_cons, List.nodup_cons] at hfrN
    exact hfrN.2
  have hdropA : ∀ e ∈ dropPart,
      get_cell_type (set_cell_type mz p.coord .EXPLORED) e.coord =
        some .ACTIVE := by
    rcases hfrA with hA | ⟨-, hdnil, -, -⟩
    · intro e he
      have hne2 : e.coord ≠ p.coord := by
        intro hceq
        exact hheadN (hceq ▸ List.mem_map_of_mem _
          (List.mem_append.mpr (Or.inl he)))
      rw [hm1o _ hne2]
      exact hA e (List.mem_cons_of_mem _ (List.mem_append.mpr (Or.inl he)))
    · subst hdnil
      intro e he
      exact absurd he (List.not_mem_nil e)
  have hnxA : ∀ e ∈ nx,
      get_cell_type (set_cell_type mz p.coord .EXPLORED) e.coord =
        some .ACTIVE := by
    rcases hfrA with hA | ⟨-, -, hnnil, -⟩
    · intro e he
      have hne2 : e.coord ≠ p.coord := by
        intro hceq
        exact hheadN (hceq ▸ List.mem_map_of_mem _
          (List.mem_append.mpr (Or.inr he)))
      rw [hm1o _ hne2]
      exact hA e (List.mem_cons_of_mem _ (List.mem_append.mpr (Or.inr he)))
    · subst hnnil
      intro e he
      exact absurd he (List.not_mem_nil e)
  have hnxN : (nx.map searched_cell.coord).Nodup := by
    rw [List.map_append, List.nodup_append] at htailN
    exact htailN.2.1
  have hdropN : (dropPart.map searched_cell.coord).Nodup := by
    rw [List.map_append, List.nodup_append] at htailN
    exact htailN.1
  have hdisj : ∀ a ∈ dropPart.map searched_cell.coord,
      a ∉ nx.map searched_cell.coord := by
    rw [List.map_append, List.nodup_append] at htailN
    exact fun a ha hb => htailN.2.2 ha hb
  obtain ⟨g1, g2, g3⟩ := BFS.expand_loop_frontier_bf
    (set_cell_type mz p.coord .EXPLORED).end_ p
    (get_neighboring_coordinates (set_cell_type mz p.coord .EXPLORED) p.coord)
    (set_cell_type mz p.coord .EXPLORED) nx fin hwf1 hnxA hnxN
  obtain ⟨lw, lh, lst, lend, lwf⟩ := BFS.expand_loop_fields_bf
    (set_cell_type mz p.coord .EXPLORED).end_ p
    (get_neighboring_coordinates (set_cell_type mz p.coord .EXPLORED) p.coord)
    (set_cell_type mz p.coord .EXPLORED) nx fin
  have hdropA2 : ∀ e ∈ dropPart,
      get_cell_type (BFS.expand_loop (set_cell_type mz p.coord .EXPLORED).end_ p
        (set_cell_type mz p.coord .EXPLORED) nx fin
        (get_neighboring_coordinates (set_cell_type mz p.coord .EXPLORED)
          p.coord)).1 e.coord = some .ACTIVE := by
    intro e he
    rcases BFS.expand_loop_cells_bf
      (set_cell_type mz p.coord .EXPLORED).end_ p
      (get_neighboring_coordinates (set_cell_type mz p.coord .EXPLORED) p.coord)
      (set_cell_type mz p.coord .EXPLORED) nx fin e.coord with
      hcc | ⟨-, hfl, -⟩
    · rw [hcc]
      exact hdropA e he
    · rw [hdropA e he] at hfl
      exact absurd hfl (by simp)
  have hpE : p.coord ∉ E := by
    intro hpin
    rcases hfrA with hA | ⟨hE0, -, -, -⟩
    · have h1 := (hE _ hpin).2
      have h2 := hA p (List.mem_cons_self _ _)
      rw [h1] at h2
      simp at h2
    · rw [hE0] at hpin
      exact absurd hpin (List.not_mem_nil _)
  refine ⟨lwf hwf1, ?_, ?_, ?_, ?_, ?_, ?_, ?_⟩
  · rw [lw, set_cell_type_width]
    exact hw
  · rw [lh, set_cell_type_height]
    exact hh
  · intro e he
    rcases List.mem_append.mp he with hd | hl
    · exact hdropA2 e hd
    · exact g1 e hl
  · rw [List.map_append, List.nodup_append]
    refine ⟨hdropN, g2, ?_⟩
    intro a ha hb
    rcases List.mem_map.mp hb with ⟨e2, he2, hco⟩
    rcases BFS.expand_loop_mem_floor
      (set_cell_type mz p.coord .EXPLORED).end_ p
      (get_neighboring_coordinates (set_cell_type mz p.coord .EXPLORED) p.coord)
      (set_cell_type mz p.coord .EXPLORED) nx fin e2 he2 with hinnx | hfl
    · exact hdisj a ha (hco ▸ List.mem_map_of_mem _ hinnx)
    · rcases List.mem_map.mp ha with ⟨e1, he1, hco1⟩
      have hA1 := hdropA e1 he1
      rw [hco1, ← hco] at hA1
      rw [hA1] at hfl
      exact absurd hfl (by simp)
  · intro e he
    rcases List.mem_append.mp he with hd | hl
    · exact hfrB e (List.mem_cons_of_mem _ (List.mem_append.mpr (Or.inl hd)))
    · rcases g3 e hl with hin | hib
      · exact hfrB e (List.mem_cons_of_mem _ (List.mem_append.mpr (Or.inr hin)))
      · unfold inBounds at hib ⊢
        rw [set_cell_type_width, set_cell_type_height, hw, hh] at hib
        exact hib
  · intro c hc
    rcases List.mem_append.mp hc with hcE | hcp
    · refine ⟨(hE c hcE).1, ?_⟩
      have hcnep : c ≠ p.coord := fun hceq => hpE (hceq ▸ hcE)
      have hcm1 : get_cell_type (set_cell_type mz p.coord .EXPLORED) c =
          some .EXPLORED := by
        rw [hm1o _ hcnep]
        exact (hE c hcE).2
      rcases BFS.expand_loop_cells_bf
        (set_cell_type mz p.coord .EXPLORED).end_ p
        (get_neighboring_coordinates (set_cell_type mz p.coord .EXPLORED)
          p.coord)
        (set_cell_type mz p.coord .EXPLORED) nx fin c with hcc | ⟨-, hfl, -⟩
      · rw [hcc]
        exact hcm1
      · rw [hcm1] at hfl
        exact absurd hfl (by simp)
    · have hcp2 : c = p.coord := by simpa using hcp
      subst hcp2
      refine ⟨hpB, ?_⟩
      rcases BFS.expand_loop_cells_bf
        (set_cell_type mz p.coord .EXPLORED).end_ p
        (get_neighboring_coordinates (set_cell_type mz p.coord .EXPLORED)
          p.coord)
        (set_cell_type mz p.coord .EXPLORED) nx fin p.coord with hcc | ⟨-, hfl, -⟩
      · rw [hcc]
        exact hm1p
      · rw [hm1p] at hfl
        exact absurd hfl (by simp)
  · rw [List.nodup_append]
    refine ⟨hEN, List.nodup_singleton _, ?_⟩
    intro a ha hb
    have : a = p.coord := by simpa using hb
    subst this
    exact hpE ha

theorem BFS.run_invariant_bf (m : Maze) (hwf : Maze.WF m)
    (hsb : inBounds m m.start) :
    ∀ k, 1 ≤ k → (BFS.runSteps k (BFS.init m)).search_ended = false →
      Maze.WF (BFS.runSteps k (BFS.init m)).maze ∧
      (BFS.runSteps k (BFS.init m)).maze.width = m.width ∧
      (BFS.runSteps k (BFS.init m)).maze.height = m.height ∧
      (∀ e ∈ (BFS.runSteps k (BFS.init m)).cur.drop
            (BFS.runSteps k (BFS.init m)).cursor ++
          (BFS.runSteps k (BFS.init m)).next_search_frontier,
        get_cell_type (BFS.runSteps k (BFS.init m)).maze e.coord =
          some .ACTIVE) ∧
      ((((BFS.runSteps k (BFS.init m)).cur.drop
            (BFS.runSteps k (BFS.init m)).cursor ++
          (BFS.runSteps k (BFS.init m)).next_search_frontier).map
          searched_cell.coord).Nodup) ∧
      (∀ e ∈ (BFS.runSteps k (BFS.init m)).cur.drop
            (BFS.runSteps k (BFS.init m)).cursor ++
          (BFS.runSteps k (BFS.init m)).next_search_frontier,
        inBounds m e.coord) ∧
      (∀ c ∈ BFS.expandedList m k, inBounds m c ∧
        get_cell_type (BFS.runSteps k (BFS.init m)).maze c = some .EXPLORED) ∧
      (BFS.expandedList m k).Nodup ∧
      (BFS.expandedList m k).length = k := by
  intro k
  induction k with
  | zero => intro h1; exact absurd h1 (by omega)
  | succ k ih =>
    intro _ hnotend
    rw [BFS.runSteps_succ_bf] at hnotend
    have hnek : (BFS.runSteps k (BFS.init m)).search_ended = false := by
      by_contra hc
      rw [Bool.not_eq_false] at hc
      rw [BFS.ended_mono_bf _ hc] at hnotend
      exact Bool.noConfusion hnotend
    obtain ⟨p, dropPart, nx, hdec, hexp, hns, hmz, hfr2⟩ :=
      BFS.step_cases (BFS.runSteps k (BFS.init m)) hnek hnotend
    have hElist : BFS.expandedList m (k + 1) =
        BFS.expandedList m k ++ [p.coord] := by
      rw [BFS.expandedList_succ_bf, if_neg (by simp [hnek]), hexp]
      rfl
    have hcore := fun hwfk hw hh hfrA hfrN hfrB hE hEN =>
      BFS.step_invariant_core_bf m (BFS.runSteps k (BFS.init m)).maze p dropPart nx
        (BFS.runSteps k (BFS.init m)).final_searched_cell
        (BFS.expandedList m k) hwfk hw hh hfrA hfrN hfrB hE hEN
    by_cases hk : k = 0
    · subst hk
      have h0 : ([searched_cell.base m.start] : List searched_cell) =
          p :: (dropPart ++ nx) := hdec
      injection h0 with h1 h2
      obtain ⟨hd0, hn0⟩ := List.append_eq_nil.mp h2.symm
      obtain ⟨c1, c2, c3, c4, c5, c6, c7, c8⟩ := hcore hwf rfl rfl
        (Or.inr ⟨by simp [BFS.expandedList], hd0, hn0,
          by rw [← h1]; rfl⟩)
        (by rw [← h2]; simp)
        (by
          intro e he
          rw [← h2] at he
          rcases List.mem_cons.mp he with rfl | he2
          · rw [← h1]; exact hsb
          · exact absurd he2 (List.not_mem_nil e))
        (by intro c hc; exact absurd hc (List.not_mem_nil c))
        List.nodup_nil
      rw [BFS.runSteps_succ_bf, hElist]
      refine ⟨?_, ?_, ?_, ?_, ?_, ?_, ?_, ?_, ?_⟩
      · rw [hmz]; exact c1
      · rw [hmz]; exact c2
      · rw [hmz]; exact c3
      · rw [hfr2, hmz]; exact c4
      · rw [hfr2]; exact c5
      · rw [hfr2]; exact c6
      · rw [hmz]; exact c7
      · exact c8
      · simp [BFS.expandedList]
    · have hk1 : 1 ≤ k := Nat.one_le_iff_ne_zero.mpr hk
      obtain ⟨iwf, iw, ihh, iA, iN, iB, iE, iEN, ilen⟩ := ih hk1 hnek
      obtain ⟨c1, c2, c3, c4, c5, c6, c7, c8⟩ := hcore iwf iw ihh
        (Or.inl (by rw [← hdec]; exact iA))
        (by rw [← hdec]; exact iN)
        (by rw [← hdec]; exact iB)
        iE iEN
      rw [BFS.runSteps_succ_bf, hElist]
      refine ⟨?_, ?_, ?_, ?_, ?_, ?_, ?_, ?_, ?_⟩
      · rw [hmz]; exact c1
      · rw [hmz]; exact c2
      · rw [hmz]; exact c3
      · rw [hfr2, hmz]; exact c4
      · rw [hfr2]; exact c5
      · rw [hfr2]; exact c6
      · rw [hmz]; exact c7
      · exact c8
      · rw [List.length_append, ilen]
        rfl

theorem BFS.expandedCoord_mem (s : BFS.State) (c : Coordinate)
    (h : BFS.expandedCoord s = some c) :
    ∃ e ∈ s.cur.drop s.cursor ++ s.next_search_frontier, e.coord = c := by
  unfold BFS.expandedCoord at h
  by_cases hcur : s.cursor < s.cur.length
  · rw [dif_pos hcur] at h
    refine ⟨s.cur.get ⟨s.cursor, hcur⟩, ?_, by injection h⟩
    apply List.mem_append.mpr
    left
    rw [List.drop_eq_getElem_cons hcur]
    exact List.mem_cons_self _ _
  · rw [dif_neg hcur] at h
    rcases hn : s.next_search_frontier with _ | ⟨p0, restN⟩
    · rw [hn] at h
      exact absurd h (by simp)
    · rw [hn] at h
      simp only [List.head?_cons, Option.map_some] at h
      refine ⟨p0, ?_, by injection h⟩
      apply List.mem_append.mpr
      right
      simp [hn]

theorem BFS.expandedList_ok_bf (m : Maze) (hwf : Maze.WF m)
    (hsb : inBounds m m.start) :
    ∀ k, (BFS.expandedList m k).Nodup ∧
      ∀ c ∈ BFS.expandedList m k, inBounds m c := by
  intro k
  induction k with
  | zero => simp [BFS.expandedList]
  | succ k ih =>
    by_cases hend : (BFS.runSteps k (BFS.init m)).search_ended = true
    · rw [BFS.expandedList_succ_bf, if_pos hend]
      simpa using ih
    · rw [Bool.not_eq_true] at hend
      rcases hc : BFS.expandedCoord (BFS.runSteps k (BFS.init m)) with _ | c
      · rw [BFS.expandedList_succ_bf, if_neg (by simp [hend]), hc]
        simpa using ih
      · rw [BFS.expandedList_succ_bf, if_neg (by simp [hend]), hc]
        obtain ⟨e, hemem, hecoord⟩ :=
          BFS.expandedCoord_mem (BFS.runSteps k (BFS.init m)) c hc
        by_cases hk : k = 0
        · subst hk
          have hemem0 : e ∈ ([searched_cell.base m.start] :
              List searched_cell) := hemem
          have he : e = .base m.start := by simpa using hemem0
          constructor
          · simp [BFS.expandedList]
          · intro c2 hc2
            simp only [BFS.expandedList, List.range_zero, List.filterMap_nil,
              List.nil_append, Option.toList_some, List.mem_singleton] at hc2
            rw [hc2, ← hecoord, he]
            exact hsb
        · have hk1 : 1 ≤ k := Nat.one_le_iff_ne_zero.mpr hk
          obtain ⟨-, -, -, iA, -, iB, iE, -, -⟩ :=
            BFS.run_invariant_bf m hwf hsb k hk1 hend
          have hcA : get_cell_type (BFS.runSteps k (BFS.init m)).maze c =
              some .ACTIVE := hecoord ▸ iA e hemem
          have hpnotE : c ∉ BFS.expandedList m k := by
            intro hin
            have := (iE _ hin).2
            rw [this] at hcA
            exact absurd hcA (by simp)
          constructor
          · simp only [Option.toList_some]
            rw [List.nodup_append]
            exact ⟨ih.1, List.nodup_singleton _, by
              intro a ha hb
              have : a = c := by simpa using hb
              subst this
              exact hpnotE ha⟩
          · intro c2 hc2
            rcases List.mem_append.mp hc2 with hcE | hcp
            · exact ih.2 c2 hcE
            · have : c2 = c := by simpa using hcp
              subst this
              exact hecoord ▸ iB e hemem

theorem BFS.ended_by_fuel_bf (m : Maze) (hwf : Maze.WF m)
    (hsb : inBounds m m.start) :
    (BFS.runSteps (m.width * m.height + 1) (BFS.init m)).search_ended = true := by
  by_contra hc
  rw [Bool.not_eq_true] at hc
  obtain ⟨-, -, -, -, -, -, -, hEN, hlen⟩ :=
    BFS.run_invariant_bf m hwf hsb (m.width * m.height + 1) (by omega) hc
  have hb := (BFS.expandedList_ok_bf m hwf hsb (m.width * m.height + 1)).2
  have := coord_list_length_le m.width m.height _ hEN fun c hcm => hb c hcm
  omega

theorem BFS.expandedList_le_bf (m : Maze) (hwf : Maze.WF m)
    (hsb : inBounds m m.start) (k : Nat) :
    (BFS.expandedList m k).length ≤ m.width * m.height := by
  obtain ⟨hn, hb⟩ := BFS.expandedList_ok_bf m hwf hsb k
  exact coord_list_length_le m.width m.height _ hn hb

/-- C8: for every well-formed grid whose start lies in bounds, each of the
three strategies reaches `search_ended = true` within `width * height + 1`
`step()` calls, and over any number of steps the coordinates expanded (marked
Explored as the frontier element being processed) are pairwise distinct and
number at most `width * height`. -/
theorem termination_expansion_bound (m : Maze) (hwf : Maze.WF m)
    (hsb : inBounds m m.start) :
    ((BFS.runSteps (m.width * m.height + 1) (BFS.init m)).search_ended = true ∧
      ∀ k, (BFS.expandedList m k).Nodup ∧
        (BFS.expandedList m k).length ≤ m.width * m.height) ∧
    ((GBFS.runSteps (m.width * m.height + 1) (GBFS.init m)).search_ended = true ∧
      ∀ k, (GBFS.expandedList m k).Nodup ∧
        (GBFS.expandedList m k).length ≤ m.width * m.height) ∧
    ((ASTAR.runSteps (m.width * m.height + 1) (ASTAR.init m)).search_ended = true ∧
      ∀ k, (ASTAR.expandedList m k).Nodup ∧
        (ASTAR.expandedList m k).length ≤ m.width * m.height) := by
  refine ⟨⟨BFS.ended_by_fuel_bf m hwf hsb, fun k => ?_⟩,
    ⟨GBFS.ended_by_fuel_gb m hwf hsb, fun k => ?_⟩,
    ⟨ASTAR.ended_by_fuel_as m hwf hsb, fun k => ?_⟩⟩
  · exact ⟨(BFS.expandedList_ok_bf m hwf hsb k).1, BFS.expandedList_le_bf m hwf hsb k⟩
  · exact ⟨(GBFS.expandedList_ok_gb m hwf hsb k).1, GBFS.expandedList_le_gb m hwf hsb k⟩
  · exact ⟨(ASTAR.expandedList_ok_as m hwf hsb k).1, ASTAR.expandedList_le_as m hwf hsb k⟩

/-- Witness for C8 on the concrete 2 × 2 all-Floor grid. -/
theorem termination_expansion_bound_witness :
    Maze.WF m22 ∧ inBounds m22 m22.start ∧
    (BFS.runSteps 5 (BFS.init m22)).search_ended = true ∧
    (BFS.expandedList m22 5).length ≤ 4 ∧
    (GBFS.runSteps 5 (GBFS.init m22)).search_ended = true ∧
    (GBFS.expandedList m22 5).length ≤ 4 ∧
    (ASTAR.runSteps 5 (ASTAR.init m22)).search_ended = true ∧
    (ASTAR.expandedList m22 5).length ≤ 4 := by
  have h := termination_expansion_bound m22 ⟨rfl, by decide⟩ (by decide)
  exact ⟨⟨rfl, by decide⟩, by decide, h.1.1, (h.1.2 5).2, h.2.1.1, (h.2.1.2 5).2,
    h.2.2.1, (h.2.2.2 5).2⟩

/-! ## Per-cell evolution over one step (claim C7 machinery) -/

theorem forwardStep_refl (a : Option MazeCell) : forwardStep a a := Or.inl rfl

theorem forwardStep_explored (u : MazeCell) (hu : u ≠ .WALL) :
    forwardStep (some u) (some .EXPLORED) := by
  cases u <;> revert hu <;> decide

theorem forwardStep_floor_active :
    forwardStep (some MazeCell.FLOOR) (some MazeCell.ACTIVE) := by decide

theorem bool_or3_true (x y z : Bool) (h : y = true) : (x || y || z) = true := by
  rw [h]
  cases x <;> cases z <;> rfl

/-- The maze evolution common to all three strategies in one expansion: mark
the expanded cell Explored, run the neighbor loop (which only turns Floor
cells Active), and, if the goal was discovered, revert Active neighbors to
Floor.  Each cell either moves forward along Floor → Active → Explored or is
an Active 4-neighbor of the expanded node reset to Floor in the discovering
step. -/
theorem cell_change_generic (m0 mL : Maze) (P : Coordinate)
    (nbrs : List Coordinate) (found : Bool) (c : Coordinate)
    (hp : get_cell_type m0 P ≠ some .WALL)
    (hL : get_cell_type mL c = get_cell_type (set_cell_type m0 P .EXPLORED) c ∨
      (c ∈ nbrs ∧
        get_cell_type (set_cell_type m0 P .EXPLORED) c = some .FLOOR ∧
        get_cell_type mL c = some .ACTIVE)) :
    forwardStep (get_cell_type m0 c)
      (get_cell_type (if found then revert_active mL nbrs else mL) c) ∨
    (found = true ∧ get_cell_type m0 c = some .ACTIVE ∧
      get_cell_type (if found then revert_active mL nbrs else mL) c =
        some .FLOOR ∧
      c ∈ nbrs) := by
  have hA : get_cell_type (set_cell_type m0 P .EXPLORED) c =
      get_cell_type m0 c ∨
      (c = P ∧ (∃ u, get_cell_type m0 P = some u ∧ u ≠ .WALL) ∧
        get_cell_type (set_cell_type m0 P .EXPLORED) c = some .EXPLORED) := by
    by_cases hcP : c = P
    · subst hcP
      rcases ht : get_cell_type m0 c with _ | u
      · left
        have hcond : ¬(c.x = c.x ∧ c.y = c.y ∧ get_cell_type m0 c ≠ none) := by
          rintro ⟨-, -, hne⟩
          exact hne ht
        rw [get_set_cell_type, if_neg hcond]
        exact ht
      · right
        refine ⟨rfl, ⟨u, rfl, ?_⟩, get_set_self_of_some _ _ _ _ ht⟩
        intro hu
        rw [hu] at ht
        exact hp ht
    · exact Or.inl (get_set_of_ne _ _ _ _ hcP)
  have hfwd1 : forwardStep (get_cell_type m0 c) (get_cell_type mL c) := by
    rcases hL with hL1 | ⟨hLn, hLf, hLa⟩
    · rcases hA with hA1 | ⟨hcP, ⟨u, ht, hu⟩, hAe⟩
      · exact Or.inl (hL1.trans hA1).symm
      · subst hcP
        rw [ht, hL1, hAe]
        exact forwardStep_explored u hu
    · rcases hA with hA1 | ⟨hcP, ⟨u, ht, hu⟩, hAe⟩
      · rw [hA1] at hLf
        rw [hLf, hLa]
        exact forwardStep_floor_active
      · rw [hAe] at hLf
        exact absurd hLf (by simp)
  by_cases hf : found = true
  · rw [if_pos hf]
    rcases revert_active_cells nbrs mL c with hR1 | ⟨hRn, hRa, hRf⟩
    · rw [hR1]
      exact Or.inl hfwd1
    · rcases hL with hL1 | ⟨hLn, hLf, hLa⟩
      · rcases hA with hA1 | ⟨hcP, ⟨u, ht, hu⟩, hAe⟩
        · right
          refine ⟨hf, ?_, hRf, hRn⟩
          rw [← hA1, ← hL1]
          exact hRa
        · rw [hAe] at hL1
          rw [hL1] at hRa
          exact absurd hRa (by simp)
      · left
        rw [hRf]
        rcases hA with hA1 | ⟨hcP, ⟨u, ht, hu⟩, hAe⟩
        · rw [← hA1, hLf]
          exact Or.inl rfl
        · rw [hAe] at hLf
          exact absurd hLf (by simp)
  · rw [if_neg hf]
    exact Or.inl hfwd1

set_option maxHeartbeats 1000000 in
theorem GBFS.step_cell_gb (s : GBFS.State) (fe : GBFS.priority_queue_element)
    (rest : List GBFS.priority_queue_element)
    (hfr : s.search_frontier = fe :: rest)
    (hp : get_cell_type s.maze fe.cell.coord ≠ some .WALL) (c : Coordinate) :
    forwardStep (get_cell_type s.maze c)
      (get_cell_type (GBFS.step s).maze c) ∨
    ((GBFS.step s).search_ended = true ∧
      (GBFS.step s).final_searched_cell.isSome = true ∧
      get_cell_type s.maze c = some .ACTIVE ∧
      get_cell_type (GBFS.step s).maze c = some .FLOOR ∧
      ∃ pc, GBFS.expandedCoord s = some pc ∧
        c ∈ get_neighboring_coordinates
          (set_cell_type s.maze pc .EXPLORED) pc) := by
  have hL := GBFS.expand_loop_cells_gb
    (set_cell_type s.maze fe.cell.coord .EXPLORED).end_ fe.cell
    (get_neighboring_coordinates (set_cell_type s.maze fe.cell.coord .EXPLORED)
      fe.cell.coord)
    (set_cell_type s.maze fe.cell.coord .EXPLORED) rest
    s.final_searched_cell c
  rcases cell_change_generic s.maze
      (GBFS.expand_loop (set_cell_type s.maze fe.cell.coord .EXPLORED).end_
        fe.cell (set_cell_type s.maze fe.cell.coord .EXPLORED) rest
        s.final_searched_cell
        (get_neighboring_coordinates
          (set_cell_type s.maze fe.cell.coord .EXPLORED) fe.cell.coord)).1
      fe.cell.coord
      (get_neighboring_coordinates
        (set_cell_type s.maze fe.cell.coord .EXPLORED) fe.cell.coord)
      (GBFS.expand_loop (set_cell_type s.maze fe.cell.coord .EXPLORED).end_
        fe.cell (set_cell_type s.maze fe.cell.coord .EXPLORED) rest
        s.final_searched_cell
        (get_neighboring_coordinates
          (set_cell_type s.maze fe.cell.coord .EXPLORED) fe.cell.coord)).2.2.isSome
      c hp hL with hfw | ⟨hfd, hact, hfl, hmem⟩
  · left
    simp only [GBFS.step_eq_gb s fe rest hfr]
    exact hfw
  · simp only [GBFS.step_eq_gb s fe rest hfr]
    right
    refine ⟨?_, hfd, hact, hfl, fe.cell.coord, ?_, hmem⟩
    · exact bool_or3_true _ _ _ hfd
    · unfold GBFS.expandedCoord
      rw [hfr]
      rfl

set_option maxHeartbeats 1000000 in
theorem ASTAR.step_cell_as (s : ASTAR.State)
    (fe : ASTAR.priority_queue_length_element)
    (rest : List ASTAR.priority_queue_length_element)
    (hfr : s.search_frontier = fe :: rest)
    (hp : get_cell_type s.maze fe.cell.coord ≠ some .WALL) (c : Coordinate) :
    forwardStep (get_cell_type s.maze c)
      (get_cell_type (ASTAR.step s).maze c) ∨
    ((ASTAR.step s).search_ended = true ∧
      (ASTAR.step s).final_searched_cell.isSome = true ∧
      get_cell_type s.maze c = some .ACTIVE ∧
      get_cell_type (ASTAR.step s).maze c = some .FLOOR ∧
      ∃ pc, ASTAR.expandedCoord s = some pc ∧
        c ∈ get_neighboring_coordinates
          (set_cell_type s.maze pc .EXPLORED) pc) := by
  have hL := ASTAR.expand_loop_cells_as
    (set_cell_type s.maze fe.cell.coord .EXPLORED).end_ fe
    (get_neighboring_coordinates (set_cell_type s.maze fe.cell.coord .EXPLORED)
      fe.cell.coord)
    (set_cell_type s.maze fe.cell.coord .EXPLORED) rest
    s.final_searched_cell c
  rcases cell_change_generic s.maze
      (ASTAR.expand_loop (set_cell_type s.maze fe.cell.coord .EXPLORED).end_
        fe (set_cell_type s.maze fe.cell.coord .EXPLORED) rest
        s.final_searched_cell
        (get_neighboring_coordinates
          (set_cell_type s.maze fe.cell.coord .EXPLORED) fe.cell.coord)).1
      fe.cell.coord
      (get_neighboring_coordinates
        (set_cell_type s.maze fe.cell.coord .EXPLORED) fe.cell.coord)
      (ASTAR.expand_loop (set_cell_type s.maze fe.cell.coord .EXPLORED).end_
        fe (set_cell_type s.maze fe.cell.coord .EXPLORED) rest
        s.final_searched_cell
        (get_neighboring_coordinates
          (set_cell_type s.maze fe.cell.coord .EXPLORED) fe.cell.coord)).2.2.isSome
      c hp hL with hfw | ⟨hfd, hact, hfl, hmem⟩
  · left
    simp only [ASTAR.step_eq_as s fe rest hfr]
    exact hfw
  · simp only [ASTAR.step_eq_as s fe rest hfr]
    right
    refine ⟨?_, hfd, hact, hfl, fe.cell.coord, ?_, hmem⟩
    · exact bool_or3_true _ _ _ hfd
    · unfold ASTAR.expandedCoord
      rw [hfr]
      rfl

set_option maxHeartbeats 1000000 in
theorem BFS.step_cell_bf (s : BFS.State) (hne : s.search_ended = false)
    (hp : ∀ pc, BFS.expandedCoord s = some pc →
      get_cell_type s.maze pc ≠ some .WALL) (c : Coordinate) :
    forwardStep (get_cell_type s.maze c)
      (get_cell_type (BFS.step s).maze c) ∨
    ((BFS.step s).search_ended = true ∧
      (BFS.step s).final_searched_cell.isSome = true ∧
      get_cell_type s.maze c = some .ACTIVE ∧
      get_cell_type (BFS.step s).maze c = some .FLOOR ∧
      ∃ pc, BFS.expandedCoord s = some pc ∧
        c ∈ get_neighboring_coordinates
          (set_cell_type s.maze pc .EXPLORED) pc) := by
  obtain ⟨mz, cur, cursor, nx0, se, fc⟩ := s
  simp only at hne
  subst hne
  by_cases hcu : cursor < cur.length
  · have hstep : BFS.step ⟨mz, cur, cursor, nx0, false, fc⟩ =
        BFS.expand ⟨mz, cur, cursor + 1, nx0, false, fc⟩
          (cur.get ⟨cursor, hcu⟩) := by
      simp only [BFS.step]
      rw [dif_pos hcu, if_neg Bool.false_ne_true]
    have hexp : BFS.expandedCoord ⟨mz, cur, cursor, nx0, false, fc⟩ =
        some (cur.get ⟨cursor, hcu⟩).coord := by
      unfold BFS.expandedCoord
      rw [dif_pos hcu]
    have hp2 := hp _ hexp
    have hL := BFS.expand_loop_cells_bf (set_cell_type mz (cur.get ⟨cursor, hcu⟩).coord .EXPLORED).end_ (cur.get ⟨cursor, hcu⟩)
      (get_neighboring_coordinates (set_cell_type mz (cur.get ⟨cursor, hcu⟩).coord .EXPLORED) (cur.get ⟨cursor, hcu⟩).coord) (set_cell_type mz (cur.get ⟨cursor, hcu⟩).coord .EXPLORED) nx0 fc c
    rcases cell_change_generic mz (BFS.expand_loop (set_cell_type mz (cur.get ⟨cursor, hcu⟩).coord .EXPLORED).end_ (cur.get ⟨cursor, hcu⟩) (set_cell_type mz (cur.get ⟨cursor, hcu⟩).coord .EXPLORED) nx0 fc (get_neighboring_coordinates (set_cell_type mz (cur.get ⟨cursor, hcu⟩).coord .EXPLORED) (cur.get ⟨cursor, hcu⟩).coord)).1 (cur.get ⟨cursor, hcu⟩).coord
        (get_neighboring_coordinates (set_cell_type mz (cur.get ⟨cursor, hcu⟩).coord .EXPLORED) (cur.get ⟨cursor, hcu⟩).coord) (BFS.expand_loop (set_cell_type mz (cur.get ⟨cursor, hcu⟩).coord .EXPLORED).end_ (cur.get ⟨cursor, hcu⟩) (set_cell_type mz (cur.get ⟨cursor, hcu⟩).coord .EXPLORED) nx0 fc (get_neighboring_coordinates (set_cell_type mz (cur.get ⟨cursor, hcu⟩).coord .EXPLORED) (cur.get ⟨cursor, hcu⟩).coord)).2.2.isSome c hp2 hL with hfw | ⟨hfd, hact, hfl, hmem⟩
    · left
      rw [hstep]
      simp only [BFS.expand_eq]
      exact hfw
    · rw [hstep]
      simp only [BFS.expand_eq]
      right
      refine ⟨?_, hfd, hact, hfl, (cur.get ⟨cursor, hcu⟩).coord, hexp, hmem⟩
      rw [hfd]
      rfl
  · rcases hn : nx0 with _ | ⟨p0, restN⟩
    · subst hn
      have hstep : BFS.step ⟨mz, cur, cursor, [], false, fc⟩ =
          ⟨mz, [], 0, [], true, fc⟩ := by
        simp only [BFS.step]
        rw [dif_neg hcu]
        rfl
      left
      rw [hstep]
      exact forwardStep_refl _
    · subst hn
      have hstep : BFS.step ⟨mz, cur, cursor, p0 :: restN, false, fc⟩ =
          BFS.expand ⟨mz, p0 :: restN, 1, [], false, fc⟩ p0 := by
        simp only [BFS.step]
        rw [dif_neg hcu]
        rfl
      have hexp : BFS.expandedCoord ⟨mz, cur, cursor, p0 :: restN, false, fc⟩ =
          some p0.coord := by
        unfold BFS.expandedCoord
        rw [dif_neg hcu]
        rfl
      have hp2 := hp _ hexp
      have hL := BFS.expand_loop_cells_bf (set_cell_type mz p0.coord .EXPLORED).end_ p0 (get_neighboring_coordinates (set_cell_type mz p0.coord .EXPLORED) p0.coord) (set_cell_type mz p0.coord .EXPLORED) [] fc c
      rcases cell_change_generic mz (BFS.expand_loop (set_cell_type mz p0.coord .EXPLORED).end_ p0 (set_cell_type mz p0.coord .EXPLORED) [] fc (get_neighboring_coordinates (set_cell_type mz p0.coord .EXPLORED) p0.coord)).1 p0.coord
          (get_neighboring_coordinates (set_cell_type mz p0.coord .EXPLORED) p0.coord) (BFS.expand_loop (set_cell_type mz p0.coord .EXPLORED).end_ p0 (set_cell_type mz p0.coord .EXPLORED) [] fc (get_neighboring_coordinates (set_cell_type mz p0.coord .EXPLORED) p0.coord)).2.2.isSome c hp2 hL with hfw | ⟨hfd, hact, hfl, hmem⟩
      · left
        rw [hstep]
        simp only [BFS.expand_eq]
        exact hfw
      · rw [hstep]
        simp only [BFS.expand_eq]
        right
        refine ⟨?_, hfd, hact, hfl, p0.coord, hexp, hmem⟩
        rw [hfd]
        rfl

/-- C7 (amended): on a well-formed grid whose start lies in bounds and whose
start cell is not a Wall (true of every grid `regenerate` produces), every
cell moves forward along the `Floor → Active → Explored` progression at each
in-run step of each strategy, with the single exception that an Active cell
may be reset to Floor, and only in the step that discovers the goal (the step
that sets `final_searched_cell` and ends the search), and only if the cell is
a 4-neighbor of the node expanded in that step. -/
theorem cell_state_monotonicity (m : Maze) (hwf : Maze.WF m)
    (hsb : inBounds m m.start)
    (hst : get_cell_type m m.start ≠ some .WALL) :
    (∀ k c, (BFS.runSteps k (BFS.init m)).search_ended = false →
      forwardStep (get_cell_type (BFS.runSteps k (BFS.init m)).maze c)
        (get_cell_type (BFS.runSteps (k + 1) (BFS.init m)).maze c) ∨
      ((BFS.runSteps (k + 1) (BFS.init m)).search_ended = true ∧
        (BFS.runSteps (k + 1) (BFS.init m)).final_searched_cell.isSome = true ∧
        get_cell_type (BFS.runSteps k (BFS.init m)).maze c = some .ACTIVE ∧
        get_cell_type (BFS.runSteps (k + 1) (BFS.init m)).maze c = some .FLOOR ∧
        ∃ pc, BFS.expandedCoord (BFS.runSteps k (BFS.init m)) = some pc ∧
          c ∈ get_neighboring_coordinates
            (set_cell_type (BFS.runSteps k (BFS.init m)).maze pc .EXPLORED) pc)) ∧
    (∀ k c, (GBFS.runSteps k (GBFS.init m)).search_ended = false →
      forwardStep (get_cell_type (GBFS.runSteps k (GBFS.init m)).maze c)
        (get_cell_type (GBFS.runSteps (k + 1) (GBFS.init m)).maze c) ∨
      ((GBFS.runSteps (k + 1) (GBFS.init m)).search_ended = true ∧
        (GBFS.runSteps (k + 1) (GBFS.init m)).final_searched_cell.isSome = true ∧
        get_cell_type (GBFS.runSteps k (GBFS.init m)).maze c = some .ACTIVE ∧
        get_cell_type (GBFS.runSteps (k + 1) (GBFS.init m)).maze c = some .FLOOR ∧
        ∃ pc, GBFS.expandedCoord (GBFS.runSteps k (GBFS.init m)) = some pc ∧
          c ∈ get_neighboring_coordinates
            (set_cell_type (GBFS.runSteps k (GBFS.init m)).maze pc .EXPLORED) pc)) ∧
    (∀ k c, (ASTAR.runSteps k (ASTAR.init m)).search_ended = false →
      forwardStep (get_cell_type (ASTAR.runSteps k (ASTAR.init m)).maze c)
        (get_cell_type (ASTAR.runSteps (k + 1) (ASTAR.init m)).maze c) ∨
      ((ASTAR.runSteps (k + 1) (ASTAR.init m)).search_ended = true ∧
        (ASTAR.runSteps (k + 1) (ASTAR.init m)).final_searched_cell.isSome = true ∧
        get_cell_type (ASTAR.runSteps k (ASTAR.init m)).maze c = some .ACTIVE ∧
        get_cell_type (ASTAR.runSteps (k + 1) (ASTAR.init m)).maze c = some .FLOOR ∧
        ∃ pc, ASTAR.expandedCoord (ASTAR.runSteps k (ASTAR.init m)) = some pc ∧
          c ∈ get_neighboring_coordinates
            (set_cell_type (ASTAR.runSteps k (ASTAR.init m)).maze pc .EXPLORED) pc)) := by
  refine ⟨?_, ?_, ?_⟩
  · -- BFS
    intro k c hne
    rw [BFS.runSteps_succ_bf]
    have hp : ∀ pc, BFS.expandedCoord (BFS.runSteps k (BFS.init m)) = some pc →
        get_cell_type (BFS.runSteps k (BFS.init m)).maze pc ≠ some .WALL := by
      intro pc hpc heq
      obtain ⟨e, hemem, hecoord⟩ :=
        BFS.expandedCoord_mem (BFS.runSteps k (BFS.init m)) pc hpc
      by_cases hk : k = 0
      · subst hk
        have hemem0 : e ∈ ([searched_cell.base m.start] :
            List searched_cell) := hemem
        have he : e = .base m.start := by simpa using hemem0
        rw [he] at hecoord
        have hpcs : pc = m.start := hecoord.symm
        rw [hpcs] at heq
        exact hst heq
      · have hk1 : 1 ≤ k := Nat.one_le_iff_ne_zero.mpr hk
        obtain ⟨-, -, -, iA, -, -, -, -, -⟩ :=
          BFS.run_invariant_bf m hwf hsb k hk1 hne
        have := iA e hemem
        rw [hecoord] at this
        rw [this] at heq
        exact Option.noConfusion heq fun h2 => MazeCell.noConfusion h2
    exact BFS.step_cell_bf (BFS.runSteps k (BFS.init m)) hne hp c
  · -- GBFS
    intro k c hne
    rw [GBFS.runSteps_succ_gb]
    rcases hfr : (GBFS.runSteps k (GBFS.init m)).search_frontier
      with _ | ⟨fe, rest⟩
    · have hid : GBFS.step (GBFS.runSteps k (GBFS.init m)) =
          GBFS.runSteps k (GBFS.init m) := by
        rcases hsK : GBFS.runSteps k (GBFS.init m) with ⟨mzk, frk, ek, fk⟩
        rw [hsK] at hfr
        simp only at hfr
        simp only [GBFS.step, hfr]
      rw [hid]
      exact Or.inl (forwardStep_refl _)
    · have hp : get_cell_type (GBFS.runSteps k (GBFS.init m)).maze
          fe.cell.coord ≠ some .WALL := by
        by_cases hk : k = 0
        · subst hk
          have h0 : ([⟨⟨0, sqDist m.start m.end_⟩, .base m.start⟩] :
              List GBFS.priority_queue_element) = fe :: rest := hfr
          injection h0 with h1 h2
          intro heq
          rw [← h1] at heq
          exact hst heq
        · have hk1 : 1 ≤ k := Nat.one_le_iff_ne_zero.mpr hk
          obtain ⟨-, -, -, iA, -, -, -, -, -, -⟩ :=
            GBFS.run_invariant_gb m hwf hsb k hk1 hne
          have := iA fe (by rw [hfr]; exact List.mem_cons_self _ _)
          intro heq
          rw [this] at heq
          exact Option.noConfusion heq fun h2 => MazeCell.noConfusion h2
      exact GBFS.step_cell_gb (GBFS.runSteps k (GBFS.init m)) fe rest hfr hp c
  · -- ASTAR
    intro k c hne
    rw [ASTAR.runSteps_succ_as]
    rcases hfr : (ASTAR.runSteps k (ASTAR.init m)).search_frontier
      with _ | ⟨fe, rest⟩
    · have hid : ASTAR.step (ASTAR.runSteps k (ASTAR.init m)) =
          ASTAR.runSteps k (ASTAR.init m) := by
        rcases hsK : ASTAR.runSteps k (ASTAR.init m) with ⟨mzk, frk, ek, fk⟩
        rw [hsK] at hfr
        simp only at hfr
        simp only [ASTAR.step, hfr]
      rw [hid]
      exact Or.inl (forwardStep_refl _)
    · have hp : get_cell_type (ASTAR.runSteps k (ASTAR.init m)).maze
          fe.cell.coord ≠ some .WALL := by
        by_cases hk : k = 0
        · subst hk
          have h0 : ([⟨⟨0, sqDist m.start m.end_⟩, .base m.start, 0⟩] :
              List ASTAR.priority_queue_length_element) = fe :: rest := hfr
          injection h0 with h1 h2
          intro heq
          rw [← h1] at heq
          exact hst heq
        · have hk1 : 1 ≤ k := Nat.one_le_iff_ne_zero.mpr hk
          obtain ⟨-, -, -, iA, -, -, -, -, -, -⟩ :=
            ASTAR.run_invariant_as m hwf hsb k hk1 hne
          have := iA fe (by rw [hfr]; exact List.mem_cons_self _ _)
          intro heq
          rw [this] at heq
          exact Option.noConfusion heq fun h2 => MazeCell.noConfusion h2
      exact ASTAR.step_cell_as (ASTAR.runSteps k (ASTAR.init m)) fe rest hfr hp c

/-- Witness for C7 on the concrete 2 × 2 all-Floor grid: the first BFS step
at cell `(0,0)`. -/
theorem cell_state_monotonicity_witness :
    Maze.WF m22 ∧ inBounds m22 m22.start ∧
    get_cell_type m22 m22.start ≠ some MazeCell.WALL ∧
    (forwardStep (get_cell_type (BFS.runSteps 0 (BFS.init m22)).maze ⟨0, 0⟩)
        (get_cell_type (BFS.runSteps (0 + 1) (BFS.init m22)).maze ⟨0, 0⟩) ∨
      ((BFS.runSteps (0 + 1) (BFS.init m22)).search_ended = true ∧
        (BFS.runSteps (0 + 1) (BFS.init m22)).final_searched_cell.isSome = true ∧
        get_cell_type (BFS.runSteps 0 (BFS.init m22)).maze ⟨0, 0⟩ =
          some .ACTIVE ∧
        get_cell_type (BFS.runSteps (0 + 1) (BFS.init m22)).maze ⟨0, 0⟩ =
          some .FLOOR ∧
        ∃ pc, BFS.expandedCoord (BFS.runSteps 0 (BFS.init m22)) = some pc ∧
          (⟨0, 0⟩ : Coordinate) ∈ get_neighboring_coordinates
            (set_cell_type (BFS.runSteps 0 (BFS.init m22)).maze pc
              .EXPLORED) pc)) := by
  have h := cell_state_monotonicity m22 ⟨rfl, by decide⟩ (by decide) (by decide)
  exact ⟨⟨rfl, by decide⟩, by decide, by decide, h.1 0 ⟨0, 0⟩ rfl⟩

/-- C7 counterexample to the unrestricted claim: on a grid whose start cell
is a Wall (never produced by `regenerate`, but C7 quantifies over every
grid), the first GBFS step takes the start cell from Wall directly to
Explored, which is neither a forward move along
`Floor → Active → Explored` nor the documented Active → Floor reversion. -/
theorem wall_start_monotonicity_counterexample :
    (GBFS.init mWallStart).search_ended = false ∧
    get_cell_type (GBFS.init mWallStart).maze ⟨0, 0⟩ = some MazeCell.WALL ∧
    get_cell_type (GBFS.runSteps 1 (GBFS.init mWallStart)).maze ⟨0, 0⟩ =
      some MazeCell.EXPLORED ∧
    ¬ forwardStep (get_cell_type (GBFS.init mWallStart).maze ⟨0, 0⟩)
      (get_cell_type (GBFS.runSteps 1 (GBFS.init mWallStart)).maze ⟨0, 0⟩) := by
  decide
